import Mathlib

/-!
Verification of mybackend: the document store client, the storage client, the
schema editor, the providers and hooks, the API gateway client and the audit and
aggregation triggers.

A shallow embedding of `functions/index.js` (the change triggers that write the
activity log and the scheduled aggregation), of `src/services/DatabaseService.js`
(CRUD, pagination, prefix search, batches and schema records over one collection
of the hosted document database), of `src/services/StorageService.js` (listing
pages, files by record id, file statistics), of `src/services/ApiGatewayService.js`
(the authenticated request), of the handlers of
`src/components/DocumentEditor.js` and `src/components/SchemaManager.js`, of the
permission checks of `src/contexts/RBACContext.js`, of the subscriber registry of
`src/contexts/RealtimeContext.js` and of `createDocument` of
`src/hooks/useCollection.js`.

JavaScript objects are association lists read with first-match lookup, so the
object literal `{ ...a, k: v }` is `(k, v) :: a` and `{ k: v, ...a }` is
`a ++ [(k, v)]`.  `undefined` is `none`.  The hosted database is a finite list of
`(collection, id, fields)` records together with the commit clock from which it
resolves `serverTimestamp()`; its client checks the field names and values of
written data and reads the keys of an update and the field of a query filter as
dotted field paths.  Component state is passed explicitly: a handler maps the
state before to the state after and reports the callbacks it made.
-/

set_option autoImplicit false

namespace MyBackend

/-! ## Values and objects -/

/-- One field definition of a schema: `{ id, name, type, required }`. -/
structure SchemaField where
  id : String
  name : String
  type : String
  required : Bool
  deriving DecidableEq, Repr

/-- JavaScript values that the dashboard handles.  `schema` is the array of field
definitions kept in a schema record.  A plain object held as a value (a nested
map of a document) is a chain of `entry` cells ending in `emptyMap` and lists
each key once.  `host name` is an object or function of the host environment
that is not data: `Object.prototype` and its methods, which every plain object
inherits under the property name `name`. -/
inductive Value where
  | null : Value
  | bool (b : Bool) : Value
  | num (n : Int) : Value
  | str (s : String) : Value
  | timestamp (t : Nat) : Value
  | schema (fields : List SchemaField) : Value
  | host (name : String) : Value
  | emptyMap : Value
  | entry (key : String) (value : Value) (rest : Value) : Value
  deriving DecidableEq, Repr

/-- JavaScript object: keys with values, read with first-match lookup. -/
abbrev Obj := List (String × Value)

/-- Property read `o.k`; `none` is `undefined`. -/
def Obj.get (o : Obj) (k : String) : Option Value :=
  match o with
  | [] => none
  | (k', v) :: rest => if k' = k then some v else Obj.get rest k

/-- Optional chaining `o?.k` on a value that may be `undefined`. -/
def optGet (o : Option Obj) (k : String) : Option Value :=
  match o with
  | none => none
  | some x => x.get k

/-- JavaScript truthiness of a possibly undefined value. -/
def truthy : Option Value → Bool
  | none => false
  | some .null => false
  | some (.bool b) => b
  | some (.num n) => n != 0
  | some (.str s) => s != ""
  | some (.timestamp _) => true
  | some (.schema _) => true
  | some (.host _) => true
  | some .emptyMap => true
  | some (.entry _ _ _) => true

/-- JavaScript `a || b`. -/
def jsOr (a b : Option Value) : Option Value :=
  if truthy a then a else b

/-! ## functions/index.js: activity logging triggers -/

/-- A document snapshot of a change event: `none` when the document does not
exist (`exists` is false and `data()` is `undefined`). -/
abbrev DocSnap := Option Obj

/-- The `change` argument of an `onWrite` handler. -/
structure Change where
  before : DocSnap
  after : DocSnap
  deriving DecidableEq, Repr

/-- The `action` strings written by the triggers. -/
inductive Action where
  | create | update | delete
  deriving DecidableEq, Repr

/-- The record added to `activity_logs`; absent properties are `none`. -/
structure ActivityLog where
  userId : Option String
  userEmail : Option Value
  docId : Option String
  collection : Option String
  filePath : Option String
  action : Action
  resourceType : String
  resourceName : Option Value
  timestamp : Nat
  detailsBefore : Option Obj
  detailsAfter : Option Obj
  deriving DecidableEq, Repr

/-- The `let action = 'update'; if (!change.before.exists) ... else if
(!change.after.exists) ...` block shared by both document triggers. -/
def classifyAction (change : Change) : Action :=
  if !change.before.isSome then Action.create
  else if !change.after.isSome then Action.delete
  else Action.update

/-- The call `admin.firestore().collection('activity_logs').add(data)`.  The
admin client is initialised by `admin.initializeApp()` without
`ignoreUndefinedProperties`, so data that holds `undefined` anywhere is rejected
before anything is written; `undefinedProperties` lists, for each property of the
literal whose value may be `undefined`, whether it is. -/
def adminAdd (undefinedProperties : List Bool) (data : ActivityLog) :
    Except String ActivityLog :=
  if undefinedProperties.any (fun u => u) then
    Except.error "Cannot use \"undefined\" as a Firestore value"
  else Except.ok data

/-- The literal `activityLog` built by the handler of `exports.logUserActivity`. -/
def userActivityLog (change : Change) (userId : String) (now : Nat) : ActivityLog :=
  let beforeData := change.before
  let afterData := change.after
  let action := classifyAction change
  { userId := some userId
    userEmail := jsOr (optGet afterData "email") (optGet beforeData "email")
    docId := none
    collection := none
    filePath := none
    action := action
    resourceType := "user"
    resourceName := jsOr (optGet afterData "email") (optGet beforeData "email")
    timestamp := now
    detailsBefore := beforeData
    detailsAfter := afterData }

/-- Handler of `exports.logUserActivity`: the entry it adds to `activity_logs`,
or the rejection of `add`.  The properties `userEmail`, `resourceName`,
`details.before` and `details.after` of the literal may be `undefined`. -/
def logUserActivity (change : Change) (userId : String) (now : Nat) :
    Except String ActivityLog :=
  let activityLog := userActivityLog change userId now
  adminAdd [activityLog.userEmail.isNone, activityLog.resourceName.isNone,
    activityLog.detailsBefore.isNone, activityLog.detailsAfter.isNone] activityLog

/-- The literal `activityLog` built by the handler of
`exports.logDocumentActivity`. -/
def documentActivityLog (change : Change) (collection docId : String) (now : Nat) :
    ActivityLog :=
  let beforeData := change.before
  let afterData := change.after
  let action := classifyAction change
  { userId := none
    userEmail := none
    docId := some docId
    collection := some collection
    filePath := none
    action := action
    resourceType := "document"
    resourceName := some (.str (collection ++ "/" ++ docId))
    timestamp := now
    detailsBefore := beforeData
    detailsAfter := afterData }

/-- Handler of `exports.logDocumentActivity`: the entry it adds to
`activity_logs`, or the rejection of `add`.  The properties `details.before` and
`details.after` of the literal may be `undefined`. -/
def logDocumentActivity (change : Change) (collection docId : String) (now : Nat) :
    Except String ActivityLog :=
  let activityLog := documentActivityLog change collection docId now
  adminAdd [activityLog.detailsBefore.isNone, activityLog.detailsAfter.isNone] activityLog

/-- One segment of a trigger's document path pattern. -/
inductive Segment where
  | lit (s : String) : Segment
  | wildcard (name : String) : Segment
  deriving DecidableEq, Repr

/-- Match a document path against a trigger pattern, segment by segment; a
wildcard `{name}` matches any single segment and binds it in `context.params`. -/
def matchPath : List Segment → List String → Option (List (String × String))
  | [], [] => some []
  | Segment.lit s :: ps, x :: xs => if s = x then matchPath ps xs else none
  | Segment.wildcard n :: ps, x :: xs => (matchPath ps xs).map (fun m => (n, x) :: m)
  | _, _ => none

/-- `context.params.name`. -/
def param (params : List (String × String)) (name : String) : String :=
  match params with
  | [] => ""
  | (n, v) :: rest => if n = name then v else param rest name

/-- The Firestore `onWrite` triggers exported by `functions/index.js`: the
pattern given to `.document(...)` and the handler. -/
def firestoreTriggers :
    List (List Segment × (Change → List (String × String) → Nat → Except String ActivityLog)) :=
  [ ([Segment.lit "users", Segment.wildcard "userId"],
      fun change params now => logUserActivity change (param params "userId") now),
    ([Segment.wildcard "collection", Segment.wildcard "docId"],
      fun change params now =>
        logDocumentActivity change (param params "collection") (param params "docId") now) ]

/-- Entries added to `activity_logs` for one write of the document at `path`:
every exported trigger whose pattern matches runs once, and a handler whose `add`
is rejected adds nothing. -/
def entriesForWrite (path : List String) (change : Change) (now : Nat) : List ActivityLog :=
  firestoreTriggers.filterMap
    (fun t =>
      match matchPath t.1 path with
      | none => none
      | some params =>
        match t.2 change params now with
        | Except.ok entry => some entry
        | Except.error _ => none)

/-- The `activity_logs` collection after the triggers for one write have run. -/
def onDocumentWrite (activityLogs : List ActivityLog) (path : List String) (change : Change)
    (now : Nat) : List ActivityLog :=
  activityLogs ++ entriesForWrite path change now

/-! ## The hosted document database -/

/-- A field of the data handed to a write: a plain value, or the
`serverTimestamp()` sentinel that the database replaces by its commit time. -/
inductive FieldWrite where
  | value (v : Value) : FieldWrite
  | serverTimestamp : FieldWrite
  deriving DecidableEq, Repr

/-- The object literal handed to `addDoc`, `setDoc`, `updateDoc`, `batch.set`. -/
abbrev WriteData := List (String × FieldWrite)

/-- The spread `...data` of caller data inside a write literal. -/
def spread (data : Obj) : WriteData :=
  data.map (fun kv => (kv.1, FieldWrite.value kv.2))

/-- What the database stores for one written field at commit time `now`. -/
def resolveField (now : Nat) : FieldWrite → Value
  | FieldWrite.value v => v
  | FieldWrite.serverTimestamp => Value.timestamp now

/-- What the database stores for a write literal at commit time `now`. -/
def resolveWrite (now : Nat) (w : WriteData) : Obj :=
  w.map (fun kv => (kv.1, resolveField now kv.2))

/-- Failures raised to the caller. -/
inductive StoreError where
  | notFound
  | invalidArgument
  | typeError
  | collectionNameRequired
  deriving DecidableEq, Repr

/-- The own properties of an object read with first-match lookup: for each key
the entry that a read finds, later entries of the same key being shadowed. -/
def ownProps {α : Type} : List (String × α) → List (String × α)
  | [] => []
  | kv :: rest => kv :: (ownProps rest).filter (fun e => e.1 != kv.1)

/-- Line terminators, which `.` of a regular expression does not match. -/
def isLineTerminator (c : Char) : Bool :=
  c == Char.ofNat 10 || c == Char.ofNat 13 || c == Char.ofNat 0x2028 || c == Char.ofNat 0x2029

/-- The test `/^__.*__$/` of the database client for reserved field names. -/
def reservedFieldName (name : String) : Bool :=
  let cs := name.toList
  decide (4 ≤ cs.length) && cs.take 2 == ['_', '_'] && cs.drop (cs.length - 2) == ['_', '_'] &&
    ((cs.drop 2).take (cs.length - 4)).all (fun c => !isLineTerminator c)

/-- The check of the database client on every field name of written data: a
name is rejected when it is empty or reserved. -/
def validFieldName (name : String) : Bool :=
  name != "" && !reservedFieldName name

/-- The check of the database client on a written value: functions and objects
of the host are rejected, and so is a map with a rejected field name. -/
def validValue : Value → Bool
  | Value.host _ => false
  | Value.entry key value rest => validFieldName key && validValue value && validValue rest
  | _ => true

/-- The check on one field of a write literal. -/
def validFieldWrite : FieldWrite → Bool
  | FieldWrite.value v => validValue v
  | FieldWrite.serverTimestamp => true

/-- The check of `addDoc` and `setDoc` on the data they are given: every own
property has an accepted name and an accepted value. -/
def validWrite (w : WriteData) : Bool :=
  (ownProps w).all (fun kv => validFieldName kv.1 && validFieldWrite kv.2)

/-- The characters that the database client rejects in a dotted field path,
`/[~\*\/\[\]]/`. -/
def isReservedPathChar (c : Char) : Bool :=
  c == '~' || c == '*' || c == '/' || c == '[' || c == ']'

/-- The call `path.split('.')` on the characters of a string; `current` holds
the segment being read, last character first. -/
def splitDots : List Char → List Char → List (List Char)
  | [], current => [current.reverse]
  | c :: rest, current =>
    if c = '.' then current.reverse :: splitDots rest [] else splitDots rest (c :: current)

/-- The parser of the database client for a field named by a string in
`updateDoc` and `where`: a string with one of `~ * / [ ]` is rejected; the rest
is split at the dots into the segments of a field path, none of which may be
empty. -/
def fieldPathFromDotSeparatedString (path : String) : Except StoreError (List String) :=
  if path.toList.any isReservedPathChar then Except.error StoreError.invalidArgument
  else
    let segments := (splitDots path.toList []).map String.mk
    if segments.any (fun segment => segment == "") then Except.error StoreError.invalidArgument
    else Except.ok segments

/-- A name that `updateDoc` and `where` read as one top-level field of the
stored data: not empty, without `.`, `~`, `*`, `/`, `[`, `]`, and not reserved. -/
def isTopLevelName (name : String) : Bool :=
  name != "" && name.toList.all (fun c => c != '.' && !isReservedPathChar c) &&
    !reservedFieldName name

/-- Entry read `m[key]` on a map value; `none` on a value that is not a map. -/
def Value.mapGet : Value → String → Option Value
  | Value.entry k v rest, key => if k = key then some v else Value.mapGet rest key
  | _, _ => none

/-- The map value `m` with `key` set to `x`; a value that is not a map is
replaced by a new map. -/
def Value.mapSet : Value → String → Value → Value
  | Value.entry k v rest, key, x =>
    if k = key then Value.entry k x rest else Value.entry k v (Value.mapSet rest key x)
  | _, key, x => Value.entry key x Value.emptyMap

/-- The value `m` with the field at `path` set to `x`: maps are created along
the path, and a value on the path that is not a map is replaced by one. -/
def Value.setPath : List String → Value → Value → Value
  | [], _, x => x
  | k :: rest, m, x => Value.mapSet m k (Value.setPath rest ((Value.mapGet m k).getD Value.emptyMap) x)

/-- The value at `path` inside `m`. -/
def Value.getPath : List String → Value → Option Value
  | [], m => some m
  | k :: rest, m =>
    match Value.mapGet m k with
    | none => none
    | some child => Value.getPath rest child

/-- The stored fields `o` with the field at `path` set to `x`. -/
def Obj.setPath (o : Obj) (path : List String) (x : Value) : Obj :=
  match path with
  | [] => o
  | k :: rest => (k, Value.setPath rest ((o.get k).getD Value.emptyMap) x) :: o

/-- The value of the stored fields `o` at a field path. -/
def Obj.getPath (o : Obj) (path : List String) : Option Value :=
  match path with
  | [] => none
  | k :: rest =>
    match o.get k with
    | none => none
    | some child => Value.getPath rest child

/-- One key of the data given to `updateDoc`, parsed: its field path, every
segment an accepted field name, with its accepted value. -/
def parseUpdateEntry (kv : String × FieldWrite) : Except StoreError (List String × FieldWrite) :=
  match fieldPathFromDotSeparatedString kv.1 with
  | Except.error e => Except.error e
  | Except.ok path =>
    if path.all validFieldName && validFieldWrite kv.2 then Except.ok (path, kv.2)
    else Except.error StoreError.invalidArgument

/-- The keys of the data given to `updateDoc`, parsed in order; one rejected key
rejects the call. -/
def parseUpdateData : WriteData → Except StoreError (List (List String × FieldWrite))
  | [] => Except.ok []
  | kv :: rest =>
    match parseUpdateEntry kv with
    | Except.error e => Except.error e
    | Except.ok u =>
      match parseUpdateData rest with
      | Except.error e => Except.error e
      | Except.ok us => Except.ok (u :: us)

/-- The stored fields after an update at commit time `now`: the plain values are
set at their paths in order, then the `serverTimestamp()` fields are set to the
commit time. -/
def applyUpdate (now : Nat) (updates : List (List String × FieldWrite)) (old : Obj) : Obj :=
  let written := updates.foldl
    (fun o u =>
      match u.2 with
      | FieldWrite.value v => o.setPath u.1 v
      | FieldWrite.serverTimestamp => o) old
  updates.foldl
    (fun o u =>
      match u.2 with
      | FieldWrite.value _ => o
      | FieldWrite.serverTimestamp => o.setPath u.1 (Value.timestamp now)) written

/-- One stored document. -/
structure Record where
  collection : String
  id : String
  fields : Obj
  deriving DecidableEq, Repr

/-- The database: its documents and the commit time of its next write.  Commit
times increase strictly from one commit to the next. -/
structure Store where
  records : List Record
  clock : Nat
  deriving DecidableEq, Repr

/-- A document reference `doc(collectionRef, id)`. -/
structure DocRef where
  collection : String
  id : String
  deriving DecidableEq, Repr

/-- A document snapshot of a query result: `doc.id` and `doc.data()`. -/
structure Snapshot where
  id : String
  data : Obj
  deriving DecidableEq, Repr

/-- Whether a record is the document `collection/id`. -/
def Record.isAt (r : Record) (collection id : String) : Bool :=
  r.collection == collection && r.id == id

/-- Stored fields of `collection/id` (`getDoc`); `none` when it does not exist. -/
def Store.getDoc (s : Store) (collection id : String) : Option Obj :=
  (s.records.find? (fun r => r.isAt collection id)).map (fun r => r.fields)

/-- Records after document `collection/id` is overwritten with `fields`. -/
def putRecord (records : List Record) (collection id : String) (fields : Obj) : List Record :=
  ⟨collection, id, fields⟩ :: records.filter (fun r => !r.isAt collection id)

/-- Write `setDoc(ref, w)` of data that the client accepts: the document is
created or replaced. -/
def Store.setDoc (s : Store) (collection id : String) (w : WriteData) : Store :=
  { records := putRecord s.records collection id (resolveWrite s.clock w)
    clock := s.clock + 1 }

/-- Write `addDoc(collectionRef, w)` under the fresh identifier `autoId`: data
that fails the client's check is rejected and nothing is written. -/
def Store.addDoc (s : Store) (collection autoId : String) (w : WriteData) :
    Except StoreError Store :=
  if validWrite w then Except.ok (s.setDoc collection autoId w)
  else Except.error StoreError.invalidArgument

/-- Write `updateDoc(ref, w)`: the keys of `w`, in the order in which they were
added to the object, are parsed as dotted field paths and the values are merged
into the stored fields at those paths; the write is rejected when a key or a
value is rejected, and when the document does not exist. -/
def Store.updateDoc (s : Store) (collection id : String) (w : WriteData) :
    Except StoreError Store :=
  match parseUpdateData (ownProps w).reverse with
  | Except.error e => Except.error e
  | Except.ok updates =>
    match s.getDoc collection id with
    | none => Except.error StoreError.notFound
    | some old =>
      Except.ok
        { records := putRecord s.records collection id (applyUpdate s.clock updates old)
          clock := s.clock + 1 }

/-- One operation queued on a write batch. -/
inductive BatchOp where
  | set (ref : DocRef) (w : WriteData) : BatchOp
  | update (ref : DocRef) (w : WriteData) : BatchOp
  | delete (ref : DocRef) : BatchOp
  deriving DecidableEq, Repr

/-- Apply the queued operations in order at one commit time; any rejected
operation rejects the whole batch. -/
def applyBatch (now : Nat) : List BatchOp → List Record → Except StoreError (List Record)
  | [], records => Except.ok records
  | BatchOp.set ref w :: ops, records =>
    applyBatch now ops (putRecord records ref.collection ref.id (resolveWrite now w))
  | BatchOp.update ref w :: ops, records =>
    match parseUpdateData (ownProps w).reverse with
    | Except.error e => Except.error e
    | Except.ok updates =>
      match records.find? (fun r => r.isAt ref.collection ref.id) with
      | none => Except.error StoreError.notFound
      | some old =>
        applyBatch now ops
          (putRecord records ref.collection ref.id (applyUpdate now updates old.fields))
  | BatchOp.delete ref :: ops, records =>
    applyBatch now ops (records.filter (fun r => !r.isAt ref.collection ref.id))

/-- Commit `batch.commit()`: all queued writes become visible together or the
store is left as it was; a batch without writes resolves without a commit. -/
def Store.commit (s : Store) (ops : List BatchOp) : Except StoreError Store :=
  match ops with
  | [] => Except.ok s
  | _ :: _ =>
    match applyBatch s.clock ops s.records with
    | Except.error e => Except.error e
    | Except.ok records => Except.ok { records := records, clock := s.clock + 1 }

/-- Snapshots of all documents of a collection. -/
def Store.collectionDocs (s : Store) (collection : String) : List Snapshot :=
  (s.records.filter (fun r => r.collection == collection)).map (fun r => ⟨r.id, r.fields⟩)

/-! ## String order of the database -/

/-- Strict lexicographic order by code point, the order in which the database
compares strings and document ids. -/
def lexLt : List Char → List Char → Bool
  | [], [] => false
  | [], _ :: _ => true
  | _ :: _, [] => false
  | a :: as, b :: bs => if a < b then true else if b < a then false else lexLt as bs

/-- Comparison `a < b` on strings. -/
def strLt (a b : String) : Bool := lexLt a.toList b.toList

/-- Comparison `a <= b` on strings. -/
def strLe (a b : String) : Bool := !strLt b a

/-- Default order of a query: ascending document id. -/
def orderByName (docs : List Snapshot) : List Snapshot :=
  docs.insertionSort (fun a b => strLe a.id b.id = true)

/-! ## src/services/DatabaseService.js -/

/-- The service object: `this.collectionName` (`this.collectionRef` is the
reference to that collection). -/
structure DatabaseService where
  collectionName : String
  deriving DecidableEq, Repr

/-- The constructor: rejects a missing collection name. -/
def DatabaseService.new (collectionName : String) : Except StoreError DatabaseService :=
  if collectionName = "" then Except.error StoreError.collectionNameRequired
  else Except.ok ⟨collectionName⟩

/-- The stamps `createdAt: serverTimestamp(), updatedAt: serverTimestamp()` put
after the spread, so they take precedence over caller fields of those names. -/
def createStamps (w : WriteData) : WriteData :=
  ("updatedAt", FieldWrite.serverTimestamp) :: ("createdAt", FieldWrite.serverTimestamp) :: w

/-- The object literal `{ id: i, ...fields }`: `id` comes first, so a field named
`id` in the spread takes precedence. -/
def withId (i : String) (fields : Obj) : Obj :=
  fields ++ [("id", Value.str i)]

/-- Method `createDocument(data)`; `autoId` is the identifier that `addDoc`
assigns to the new document.  Yields the result (the returned object or the
failure thrown) and the store after. -/
def DatabaseService.createDocument (svc : DatabaseService) (s : Store) (autoId : String)
    (data : Obj) : Except StoreError Obj × Store :=
  match s.addDoc svc.collectionName autoId (createStamps (spread data)) with
  | Except.ok s' => (Except.ok (withId autoId data), s')
  | Except.error e => (Except.error e, s)

/-- Method `getDocument(id)`; `none` is `null`. -/
def DatabaseService.getDocument (svc : DatabaseService) (s : Store) (id : String) :
    Option Obj :=
  match s.getDoc svc.collectionName id with
  | some fields => some (withId id fields)
  | none => none

/-- Method `updateDocument(id, data)`: the result (the returned object or the
failure thrown) and the store after. -/
def DatabaseService.updateDocument (svc : DatabaseService) (s : Store) (id : String)
    (data : Obj) : Except StoreError Obj × Store :=
  match s.updateDoc svc.collectionName id
      (("updatedAt", FieldWrite.serverTimestamp) :: spread data) with
  | Except.ok s' => (Except.ok (withId id data), s')
  | Except.error e => (Except.error e, s)

/-- The string id of a returned object, when its `id` property is a string. -/
def idOf (o : Obj) : Option String :=
  match o.get "id" with
  | some (Value.str i) => some i
  | _ => none

/-- The call `getDocument(createDocument(data).id)`; the outer `none` is a
rejected call (`createDocument` throws, or `doc()` is not given a string id). -/
def DatabaseService.getCreated (svc : DatabaseService) (s : Store) (autoId : String)
    (data : Obj) : Option (Option Obj) :=
  let r := svc.createDocument s autoId data
  match r.1 with
  | Except.error _ => none
  | Except.ok created =>
    match idOf created with
    | some i => some (svc.getDocument r.2 i)
    | none => none

/-- Result of `getPaginatedDocuments`. -/
structure Page where
  documents : List Obj
  lastVisible : Option Snapshot
  hasMore : Bool
  deriving DecidableEq, Repr

/-- The mapping `doc => ({ id: doc.id, ...doc.data() })` of query results. -/
def render (doc : Snapshot) : Obj := withId doc.id doc.data

/-- The snapshots `querySnapshot.docs` of the query built by
`getPaginatedDocuments`: default order, after the cursor document when one is
given, at most `pageSize` of them. -/
def pageDocs (svc : DatabaseService) (s : Store) (pageSize : Nat) (lastDoc : Option Snapshot) :
    List Snapshot :=
  let ordered := orderByName (s.collectionDocs svc.collectionName)
  let after :=
    match lastDoc with
    | none => ordered
    | some c => ordered.filter (fun d => strLt c.id d.id)
  after.take pageSize

/-- Method `getPaginatedDocuments(pageSize, lastDoc)`; `limit` rejects a page
size that is not positive. -/
def DatabaseService.getPaginatedDocuments (svc : DatabaseService) (s : Store) (pageSize : Nat)
    (lastDoc : Option Snapshot) : Except StoreError Page :=
  if pageSize = 0 then Except.error StoreError.invalidArgument
  else
    let docs := pageDocs svc s pageSize lastDoc
    Except.ok
      { documents := docs.map render
        lastVisible := docs.getLast?
        hasMore := docs.length == pageSize }

/-- Client loop: `getPaginatedDocuments(p)`, then `getPaginatedDocuments(p,
lastVisible)` while `hasMore` is true.  `none` when a call is rejected or the
fuel runs out. -/
def paginateAll (svc : DatabaseService) (s : Store) (pageSize : Nat) :
    Nat → Option Snapshot → Option (List Page)
  | 0, _ => none
  | fuel + 1, cursor =>
    match svc.getPaginatedDocuments s pageSize cursor with
    | Except.error _ => none
    | Except.ok page =>
      if page.hasMore then (paginateAll svc s pageSize fuel page.lastVisible).map (fun ps => page :: ps)
      else some [page]

/-- The suffix `'\uf8ff'` appended to the search term. -/
def searchSentinel : String := String.singleton (Char.ofNat 0xF8FF)

/-- The two range filters of `searchDocuments` on a stored field value: only a
string within `searchTerm <= v <= searchTerm + '\uf8ff'` passes. -/
def inSearchRange (searchTerm : String) : Option Value → Bool
  | some (Value.str v) => strLe searchTerm v && strLe v (searchTerm ++ searchSentinel)
  | _ => false

/-- The value that a query reads from a document at a field path: the
document id under the name `__name__`, else the stored value at the path. -/
def fieldValue (d : Snapshot) (path : List String) : Option Value :=
  if path = ["__name__"] then some (Value.str d.id) else d.data.getPath path

/-- Order of a query with range filters on a field: ascending field value, then
ascending document id. -/
def searchOrder (path : List String) (a b : Snapshot) : Bool :=
  match fieldValue a path, fieldValue b path with
  | some (Value.str x), some (Value.str y) => strLt x y || (x == y && strLe a.id b.id)
  | _, _ => strLe a.id b.id

/-- Method `searchDocuments(searchField, searchTerm, limitCount)`.  `where`
parses `searchField` as a dotted field path and rejects it when it is not one;
a bound on the document id must be a plain id (not empty, without `/`); `limit`
rejects a count that is not positive. -/
def DatabaseService.searchDocuments (svc : DatabaseService) (s : Store)
    (searchField searchTerm : String) (limitCount : Nat) : Except StoreError (List Obj) :=
  match fieldPathFromDotSeparatedString searchField with
  | Except.error e => Except.error e
  | Except.ok path =>
    if path = ["__name__"] ∧ (searchTerm = "" ∨ '/' ∈ searchTerm.toList) then
      Except.error StoreError.invalidArgument
    else if limitCount = 0 then Except.error StoreError.invalidArgument
    else
      let hits := (s.collectionDocs svc.collectionName).filter
        (fun d => inSearchRange searchTerm (fieldValue d path))
      let ordered := hits.insertionSort (fun a b => searchOrder path a b = true)
      Except.ok ((ordered.take limitCount).map render)

/-- The default `limitCount = 10` of `searchDocuments`. -/
def defaultLimitCount : Nat := 10

/-- Calling a document object as a function: it is not callable, so the call
raises a type error. -/
def callObject (_callee : Obj) (_collection : String) : Except StoreError DocRef :=
  Except.error StoreError.typeError

/-- The `forEach` of `batchCreate`.  Its callback parameter is named `doc`, so
`doc(this.collectionRef)` in the body calls the list element, not the imported
reference constructor. -/
def batchCreateLoop (svc : DatabaseService) :
    List Obj → List BatchOp → List DocRef → Except StoreError (List BatchOp × List DocRef)
  | [], batch, createdDocs => Except.ok (batch, createdDocs)
  | doc :: rest, batch, createdDocs =>
    match callObject doc svc.collectionName with
    | Except.error e => Except.error e
    | Except.ok docRef =>
      batchCreateLoop svc rest
        (batch ++ [BatchOp.set docRef (createStamps (spread doc))])
        (createdDocs ++ [docRef])

/-- Method `batchCreate(documents)`: the result and the store after. -/
def DatabaseService.batchCreate (svc : DatabaseService) (s : Store) (documents : List Obj) :
    Except StoreError (List DocRef) × Store :=
  match batchCreateLoop svc documents [] [] with
  | Except.error e => (Except.error e, s)
  | Except.ok (batch, createdDocs) =>
    match s.commit batch with
    | Except.error e => (Except.error e, s)
    | Except.ok s' => (Except.ok createdDocs, s')

/-- Invariant of the collection kept by the service: every document carries an
`updatedAt` server stamp taken before the current commit time. -/
def Store.Stamped (s : Store) (collection : String) : Prop :=
  ∀ r ∈ s.records, r.collection = collection →
    ∃ t, Obj.get r.fields "updatedAt" = some (Value.timestamp t) ∧ t < s.clock

/-- Specification of the page sequence: sizes and `hasMore` flags of the pages
that the client loop reads when `n` documents remain, namely full pages while at
least `pageSize` remain, then one shorter (possibly empty) page. -/
def expectedPages (pageSize : Nat) : Nat → Nat → List (Nat × Bool)
  | 0, _ => []
  | fuel + 1, n =>
    if pageSize ≤ n then (pageSize, true) :: expectedPages pageSize fuel (n - pageSize)
    else [(n, false)]

/-- Fixture: a collection `items` of 25 documents with ids `a` to `y`. -/
def fixture25 : Store :=
  ⟨(List.range 25).map (fun n => ⟨"items", String.singleton (Char.ofNat (97 + n)), []⟩), 25⟩

/-- Fixture: the store after `createDocument({ id: "z" })` twice on the empty
collection `items`, the documents being assigned the identifiers `a` and `b`. -/
def shadowedIdFixture : Store :=
  (DatabaseService.createDocument ⟨"items"⟩
    (DatabaseService.createDocument ⟨"items"⟩ ⟨[], 0⟩ "a" [("id", Value.str "z")]).2
    "b" [("id", Value.str "z")]).2

/-- Fixture: a collection `people` with `name` values Joe, John and Amy. -/
def peopleFixture : Store :=
  ⟨[⟨"people", "p1", [("name", Value.str "Joe")]⟩,
    ⟨"people", "p2", [("name", Value.str "John")]⟩,
    ⟨"people", "p3", [("name", Value.str "Amy")]⟩], 3⟩

/-- Fixture: a collection `people` with one document whose `name` is `Jo`
followed by U+F8FF. -/
def sentinelFixture : Store :=
  ⟨[⟨"people", "p1", [("name", Value.str ("Jo" ++ searchSentinel))]⟩], 1⟩

/-- Fixture: one document whose `name` is `Jo` followed by U+FFFF. -/
def highFixture : Store :=
  ⟨[⟨"people", "p1", [("name", Value.str ("Jo" ++ String.singleton (Char.ofNat 0xFFFF)))]⟩], 1⟩

/-- Fixture: eleven documents, ids `a` to `k`, all with `name` equal to `Jo`. -/
def elevenFixture : Store :=
  ⟨(List.range 11).map
    (fun n => ⟨"people", String.singleton (Char.ofNat (97 + n)), [("name", Value.str "Jo")]⟩), 11⟩

/-! ## JavaScript numbers and strings -/

/-- Whether a character belongs to the class `\s` of regular expressions, which
is also what `trim()` strips: white space and line terminators. -/
def isJsWhitespace (c : Char) : Bool :=
  [9, 10, 11, 12, 13, 32, 160, 0x1680, 0x2000, 0x2001, 0x2002, 0x2003, 0x2004, 0x2005,
    0x2006, 0x2007, 0x2008, 0x2009, 0x200A, 0x2028, 0x2029, 0x202F, 0x205F, 0x3000,
    0xFEFF].contains c.toNat

/-- Value of a character as a digit of the given radix. -/
def digitValue (radix : Nat) (c : Char) : Option Nat :=
  let v :=
    if 48 ≤ c.toNat ∧ c.toNat ≤ 57 then some (c.toNat - 48)
    else if 97 ≤ c.toNat ∧ c.toNat ≤ 122 then some (c.toNat - 87)
    else if 65 ≤ c.toNat ∧ c.toNat ≤ 90 then some (c.toNat - 55)
    else none
  match v with
  | some d => if d < radix then some d else none
  | none => none

/-- The longest run of leading digits, read as a number; `acc` is `none` until
the first digit has been read. -/
def parseDigits (radix : Nat) : List Char → Option Nat → Option Nat
  | [], acc => acc
  | c :: cs, acc =>
    match digitValue radix c with
    | none => acc
    | some d => parseDigits radix cs (some (acc.getD 0 * radix + d))

/-- Built-in `parseInt(string)` without radix: leading white space is skipped, a
sign is read, `0x` selects radix 16, then the longest run of digits is read;
`none` is `NaN`. -/
def parseInt (s : String) : Option Int :=
  let cs := s.toList.dropWhile isJsWhitespace
  let signed : Int × List Char :=
    match cs with
    | '-' :: r => (-1, r)
    | '+' :: r => (1, r)
    | _ => (1, cs)
  let based : Nat × List Char :=
    match signed.2 with
    | '0' :: 'x' :: r => (16, r)
    | '0' :: 'X' :: r => (16, r)
    | _ => (10, signed.2)
  (parseDigits based.1 based.2 none).map (fun n => signed.1 * (n : Int))

/-- Method `toString()` of an integer number. -/
def numberToString (n : Int) : String :=
  if n < 0 then "-" ++ Nat.repr n.natAbs else Nat.repr n.toNat

/-- Index handed to `slice`, made relative to an array of length `len`: `NaN`
counts as 0, a negative index counts from the end, and the result is clamped to
the array. -/
def sliceIndex (len : Nat) (i : Option Int) : Nat :=
  match i with
  | none => 0
  | some n => if n < 0 then ((len : Int) + n).toNat else min n.toNat len

/-- Method `Array.prototype.slice(start, end)`. -/
def jsSlice {α : Type} (xs : List α) (start stop : Option Int) : List α :=
  let k := sliceIndex xs.length start
  let final := sliceIndex xs.length stop
  (xs.drop k).take (final - k)

/-! ## src/services/StorageService.js -/

/-- The service object: `this.collectionName`. -/
structure StorageService where
  collectionName : String
  deriving DecidableEq, Repr

/-- Result of `listFiles`; `nextPageToken` is `none` for `null`. -/
structure ListResult (α : Type) where
  files : List α
  nextPageToken : Option String
  deriving DecidableEq, Repr

/-- The line `const startIndex = pageToken ? parseInt(pageToken) : 0`: a token
that is `null` or empty starts at index 0; `none` is `NaN`. -/
def startIndexOf (pageToken : Option String) : Option Int :=
  match pageToken with
  | none => some 0
  | some t => if t = "" then some 0 else parseInt t

/-- Method `listFiles(path, pageSize, pageToken)`.  `listing` gives, for a
folder reference, the array `files` built from every item of `listAll`. -/
def StorageService.listFiles {α : Type} (svc : StorageService) (listing : String → List α)
    (path : String) (pageSize : Nat) (pageToken : Option String) : ListResult α :=
  let files := listing (svc.collectionName ++ "/" ++ path)
  let startIndex : Option Int := startIndexOf pageToken
  let endIndex : Option Int := startIndex.map (fun i => i + (pageSize : Int))
  let paginatedFiles := jsSlice files startIndex endIndex
  let nextPageToken : Option String :=
    match endIndex with
    | none => none
    | some e => if e < (files.length : Int) then some (numberToString e) else none
  { files := paginatedFiles, nextPageToken := nextPageToken }

/-- Client loop: `listFiles` with `pageToken` null, then with each returned
`nextPageToken` until it is null.  `none` when the fuel runs out. -/
def listAllPages {α : Type} (svc : StorageService) (listing : String → List α) (path : String)
    (pageSize : Nat) : Nat → Option String → Option (List (ListResult α))
  | 0, _ => none
  | fuel + 1, pageToken =>
    let page := svc.listFiles listing path pageSize pageToken
    match page.nextPageToken with
    | none => some [page]
    | some t => (listAllPages svc listing path pageSize fuel (some t)).map (fun ps => page :: ps)

/-! ## src/components/DocumentEditor.js -/

/-- Host built-ins called by `validateField`, taken as given:
`isNaN(Number(value))` and `isNaN(Date.parse(value))`. -/
structure Builtins where
  numberIsNaN : Option Value → Bool
  dateParseIsNaN : Option Value → Bool

/-- Function `validateField(field, value)` of the editor for the given `schema`;
the empty string means no error. -/
def validateField (env : Builtins) (schema : List SchemaField) (field : String)
    (value : Option Value) : String :=
  match schema.find? (fun f => f.id == field) with
  | none => ""
  | some fieldSchema =>
    if fieldSchema.required && !truthy value then "This field is required"
    else if fieldSchema.type = "number" then
      if truthy value && env.numberIsNaN value then "Please enter a valid number" else ""
    else if fieldSchema.type = "date" then
      if truthy value && env.dateParseIsNaN value then "Please enter a valid date" else ""
    else if fieldSchema.type = "boolean" then
      if value ≠ some (Value.bool true) ∧ value ≠ some (Value.bool false) then
        "Please select a valid boolean value"
      else ""
    else ""

/-- The `errors` object: field id to message, read with first-match lookup. -/
abbrev ErrorMap := List (String × String)

/-- Property read `errors[k]`. -/
def ErrorMap.get (o : ErrorMap) (k : String) : Option String :=
  match o with
  | [] => none
  | (k', v) :: rest => if k' = k then some v else ErrorMap.get rest k

/-- State of the editor component. -/
structure EditorState where
  formData : Obj
  errors : ErrorMap
  isSubmitting : Bool
  deriving DecidableEq, Repr

/-- The names of the properties that every plain object inherits from
`Object.prototype`. -/
def objectPrototypeMembers : List String :=
  ["constructor", "__defineGetter__", "__defineSetter__", "hasOwnProperty",
   "__lookupGetter__", "__lookupSetter__", "isPrototypeOf", "propertyIsEnumerable",
   "toString", "valueOf", "__proto__", "toLocaleString"]

/-- Property read `o[k]` on a plain object: the own property when there is one,
else the member inherited from `Object.prototype` under that name, else
`undefined`. -/
def Obj.read (o : Obj) (k : String) : Option Value :=
  match o.get k with
  | some v => some v
  | none => if objectPrototypeMembers.contains k then some (Value.host k) else none

/-- Assignment `errors[k] = message` on a plain object.  Under the name
`__proto__` an object without an own property of that name runs the inherited
setter, which ignores a string, so no property is created. -/
def ErrorMap.assign (o : ErrorMap) (k : String) (message : String) : ErrorMap :=
  if k = "__proto__" ∧ o.get k = none then o else (k, message) :: o

/-- The `schema.forEach` of `handleSubmit`: `newErrors[field.id] = error` for
every field whose validation message for `formData[field.id]` is not empty. -/
def collectErrors (env : Builtins) (schema : List SchemaField) (formData : Obj) : ErrorMap :=
  schema.foldl
    (fun newErrors field =>
      let error := validateField env schema field.id (formData.read field.id)
      if error ≠ "" then newErrors.assign field.id error else newErrors)
    []

/-- What one `handleSubmit` did: the state after, the argument of the `onSave`
call when it was made, and whether `onClose` was called. -/
structure SubmitResult where
  state : EditorState
  saved : Option Obj
  closed : Bool
  deriving DecidableEq, Repr

/-- Handler `handleSubmit`; `onSave` returns the message of the error it throws,
if any.  The test `Object.keys(newErrors).length > 0` holds when `newErrors` has
an own property. -/
def handleSubmit (env : Builtins) (schema : List SchemaField) (onSave : Obj → Option String)
    (st : EditorState) : SubmitResult :=
  let newErrors := collectErrors env schema st.formData
  if newErrors ≠ [] then
    { state := { st with errors := newErrors, isSubmitting := false }, saved := none,
      closed := false }
  else
    match onSave st.formData with
    | none =>
      { state := { st with isSubmitting := false }, saved := some st.formData, closed := true }
    | some message =>
      { state := { st with errors := ("submit", message) :: st.errors, isSubmitting := false },
        saved := some st.formData, closed := false }

/-- Handler `handleChange(field, value)`.  The computed keys of
`{ ...prev, [field]: value }` and `{ ...prev, [field]: error }` define own
properties, whatever the name; the message is stored also when it is empty. -/
def handleChange (env : Builtins) (schema : List SchemaField) (st : EditorState)
    (field : String) (value : Value) : EditorState :=
  let error := validateField env schema field (some value)
  { st with formData := (field, value) :: st.formData, errors := (field, error) :: st.errors }

/-! ## src/components/SchemaManager.js -/

/-- State of the schema manager component. -/
structure SchemaManagerState where
  fields : List SchemaField
  newFieldName : String
  newFieldType : String
  isRequired : Bool
  deriving DecidableEq, Repr

/-- What a handler did: the state after and the argument of the `onUpdate` call
when it was made. -/
structure ManagerResult where
  state : SchemaManagerState
  onUpdate : Option (List SchemaField)
  deriving DecidableEq, Repr

/-- The replacement `.replace(/\s+/g, '_')`: every maximal run of white space
becomes one underscore; `inRun` tells that the previous character was white
space. -/
def replaceWhitespaceRuns : Bool → List Char → List Char
  | _, [] => []
  | inRun, c :: cs =>
    if isJsWhitespace c then
      if inRun then replaceWhitespaceRuns true cs else '_' :: replaceWhitespaceRuns true cs
    else c :: replaceWhitespaceRuns false cs

/-- The id `newFieldName.toLowerCase().replace(/\s+/g, '_')`; the built-in
`toLowerCase` is taken as given. -/
def fieldIdOf (toLowerCase : String → String) (newFieldName : String) : String :=
  String.mk (replaceWhitespaceRuns false (toLowerCase newFieldName).toList)

/-- Whether `newFieldName.trim()` is empty. -/
def isBlank (newFieldName : String) : Bool :=
  newFieldName.toList.all isJsWhitespace

/-- Handler `handleAddField`. -/
def handleAddField (toLowerCase : String → String) (st : SchemaManagerState) : ManagerResult :=
  if isBlank st.newFieldName then { state := st, onUpdate := none }
  else
    let newField : SchemaField :=
      { id := fieldIdOf toLowerCase st.newFieldName
        name := st.newFieldName
        type := st.newFieldType
        required := st.isRequired }
    { state :=
        { fields := st.fields ++ [newField], newFieldName := "", newFieldType := "text",
          isRequired := false }
      onUpdate := some (st.fields ++ [newField]) }

/-- The filter `fields.filter((_, i) => i !== index)`, `i` counting from the
position of the first element. -/
def filterIndexNe : List SchemaField → Nat → Nat → List SchemaField
  | [], _, _ => []
  | f :: fs, i, index =>
    if i ≠ index then f :: filterIndexNe fs (i + 1) index else filterIndexNe fs (i + 1) index

/-- Handler `handleRemoveField(index)`. -/
def handleRemoveField (st : SchemaManagerState) (index : Nat) : ManagerResult :=
  let updatedFields := filterIndexNe st.fields 0 index
  { state := { st with fields := updatedFields }, onUpdate := some updatedFields }

/-- Handler `handleReorder(newOrder)`. -/
def handleReorder (st : SchemaManagerState) (newOrder : List SchemaField) : ManagerResult :=
  { state := { st with fields := newOrder }, onUpdate := some newOrder }

/-- The ASCII part of `toLowerCase`: it agrees with the built-in on strings of
ASCII characters. -/
def asciiToLowerCase (s : String) : String := String.mk (s.toList.map Char.toLower)

/-! ## Schema records of DatabaseService.js -/

/-- Method `createSchema(schema)`: the record `schemas/<collectionName>` is set to
`{ schema, updatedAt: serverTimestamp() }`.  Yields the returned schema and the
store after. -/
def DatabaseService.createSchema (svc : DatabaseService) (s : Store)
    (schema : List SchemaField) : List SchemaField × Store :=
  (schema,
    s.setDoc "schemas" svc.collectionName
      [("updatedAt", FieldWrite.serverTimestamp),
       ("schema", FieldWrite.value (Value.schema schema))])

/-- Method `getSchema()`: `some Value.null` is `null`, `none` is `undefined`. -/
def DatabaseService.getSchema (svc : DatabaseService) (s : Store) : Option Value :=
  match s.getDoc "schemas" svc.collectionName with
  | some data => data.get "schema"
  | none => some Value.null

/-! ## functions/index.js: scheduled aggregation -/

/-- A number or a string, the operands and results of `+` in the size total. -/
inductive JsPrim where
  | num (n : Int) : JsPrim
  | str (s : String) : JsPrim
  deriving DecidableEq, Repr

/-- Operator `a + b`: numbers are added; when either operand is a string the
other is converted to a string and the two are concatenated. -/
def jsAdd : JsPrim → JsPrim → JsPrim
  | JsPrim.num a, JsPrim.num b => JsPrim.num (a + b)
  | JsPrim.num a, JsPrim.str b => JsPrim.str (numberToString a ++ b)
  | JsPrim.str a, JsPrim.num b => JsPrim.str (a ++ numberToString b)
  | JsPrim.str a, JsPrim.str b => JsPrim.str (a ++ b)

/-- A file of the bucket as `bucket.getFiles()` returns it: its name and
`metadata.size`.  The storage API reports the size as a decimal string. -/
structure BucketFile where
  name : String
  size : JsPrim
  deriving DecidableEq, Repr

/-- A record of `resource_usage`. -/
structure ResourceUsage where
  timestamp : Nat
  documents : Nat
  files : Nat
  storage : JsPrim
  activeUsers : Nat
  deriving DecidableEq, Repr

/-- What the scheduled function reads and writes: the collections
`activity_logs` and `resource_usage`, every other root collection with its
document count, and the files of the bucket. -/
structure AdminState where
  activityLogs : List ActivityLog
  resourceUsage : List ResourceUsage
  otherCollections : List (String × Nat)
  bucketFiles : List BucketFile
  deriving DecidableEq, Repr

/-- Milliseconds of one day; timestamps are in milliseconds. -/
def dayMs : Nat := 24 * 60 * 60 * 1000

/-- The result of `db.listCollections()` with `count()` of each collection. -/
def listCollections (st : AdminState) : List (String × Nat) :=
  ("activity_logs", st.activityLogs.length) ::
    ("resource_usage", st.resourceUsage.length) :: st.otherCollections

/-- The loop `totalDocuments += snapshot.data().count` over all collections. -/
def totalDocuments (st : AdminState) : Nat :=
  (listCollections st).foldl (fun total c => total + c.2) 0

/-- The fold `files.reduce((acc, file) => acc + file.metadata.size, 0)`. -/
def totalSize (files : List BucketFile) : JsPrim :=
  files.foldl (fun acc file => jsAdd acc file.size) (JsPrim.num 0)

/-- The count `new Set(docs.map(doc => doc.data().userId)).size` over the entries
with `timestamp >= oneDayAgo`; an entry without `userId` maps to `undefined`,
which is an element of the set like any other value. -/
def activeUsers (activityLogs : List ActivityLog) (oneDayAgo : Nat) : Nat :=
  (((activityLogs.filter (fun e => decide (oneDayAgo ≤ e.timestamp))).map
    (fun e => e.userId)).dedup).length

/-- Handler of `exports.updateResourceUsage`, run at time `now`: one record is
added to `resource_usage`, then the records of `resource_usage` older than 90
days are deleted in one batch. -/
def updateResourceUsage (st : AdminState) (now : Nat) : AdminState :=
  let oneDayAgo := now - dayMs
  let usage : ResourceUsage :=
    { timestamp := now
      documents := totalDocuments st
      files := st.bucketFiles.length
      storage := totalSize st.bucketFiles
      activeUsers := activeUsers st.activityLogs oneDayAgo }
  let ninetyDaysAgo := now - 90 * dayMs
  { st with
    resourceUsage :=
      (st.resourceUsage ++ [usage]).filter (fun r => !decide (r.timestamp < ninetyDaysAgo)) }

/-- Fixture: collections of 5, 3 and 2 documents and files of 3 MB and 7 MB whose
sizes are reported as decimal strings. -/
def usageFixture : AdminState :=
  { activityLogs := []
    resourceUsage := []
    otherCollections := [("posts", 5), ("pages", 3), ("tags", 2)]
    bucketFiles := [⟨"a.bin", JsPrim.str "3145728"⟩, ⟨"b.bin", JsPrim.str "7340032"⟩] }

/-! ## src/hooks/useCollection.js -/

/-- Names of the members of a `DatabaseService` object: the two fields set by the
constructor and the methods that the class defines. -/
def DatabaseService.memberNames : List String :=
  ["collectionName", "collectionRef", "createSchema", "getSchema", "createDocument",
    "getDocument", "updateDocument", "deleteDocument", "queryDocuments",
    "getPaginatedDocuments", "subscribeToUpdates", "searchDocuments", "batchCreate",
    "batchUpdate", "batchDelete"]

/-- State of the `useCollection` hook. -/
structure CollectionHookState where
  documents : List Obj
  loading : Bool
  error : Option String
  schema : Option (List SchemaField)
  deriving DecidableEq, Repr

/-- The function `createDocument` returned by `useCollection`.  Its body calls
`dbService.addDocument(data)`; `callMember` stands for the body of that member
when the object has one, and a member that the object does not have is
`undefined`, so calling it raises a type error.  Yields the result, the hook
state after and the store after. -/
def useCollection.createDocument (callMember : Store → Obj → Except String Obj × Store)
    (st : CollectionHookState) (s : Store) (data : Obj) :
    Except String Obj × CollectionHookState × Store :=
  let loadingState := { st with loading := true }
  let outcome : Except String Obj × Store :=
    if DatabaseService.memberNames.contains "addDocument" then callMember s data
    else (Except.error "dbService.addDocument is not a function", s)
  match outcome with
  | (Except.ok result, s') =>
    (Except.ok result, { loadingState with error := none, loading := false }, s')
  | (Except.error message, s') =>
    (Except.error message, { loadingState with error := some message, loading := false }, s')

/-! ## src/contexts/RBACContext.js -/

/-- A role record: its id and its `permissions`, `none` when the field is
missing. -/
structure Role where
  id : String
  permissions : Option (List String)
  deriving DecidableEq, Repr

/-- State of the RBAC provider: the signed-in user's uid, the loaded roles and
the `userRole` read from the user's record. -/
structure RBACState where
  currentUser : Option String
  roles : List Role
  userRole : Option String
  deriving DecidableEq, Repr

/-- The expression `roles.find(role => role.id === 'user')?.permissions || []`
that the three checks bind to their local `userRole`. -/
def localUserRole (st : RBACState) : List String :=
  match st.roles.find? (fun role => role.id == "user") with
  | some role => role.permissions.getD []
  | none => []

/-- Function `hasPermission(permission)`. -/
def hasPermission (st : RBACState) (permission : String) : Bool :=
  (localUserRole st).contains permission

/-- Function `hasAnyPermission(requiredPermissions)`. -/
def hasAnyPermission (st : RBACState) (requiredPermissions : List String) : Bool :=
  requiredPermissions.any (fun permission => (localUserRole st).contains permission)

/-- Function `hasAllPermissions(requiredPermissions)`. -/
def hasAllPermissions (st : RBACState) (requiredPermissions : List String) : Bool :=
  requiredPermissions.all (fun permission => (localUserRole st).contains permission)

/-! ## src/services/ApiGatewayService.js -/

/-- A value placed in the `params` option. -/
inductive ParamValue where
  | text (s : String) : ParamValue
  | list (xs : List String) : ParamValue
  | filters (fs : List (String × String × String)) : ParamValue
  deriving DecidableEq, Repr

/-- The `options` argument of `request`, which is also the shape of the second
argument of `fetch`: absent properties are `none`; `headers` is an object read
with first-match lookup. -/
structure RequestOptions where
  method : Option String
  headers : Option (List (String × String))
  body : Option String
  params : Option (List (String × ParamValue))
  deriving DecidableEq, Repr

/-- One call `fetch(url, init)`. -/
structure FetchCall where
  url : String
  init : RequestOptions
  deriving DecidableEq, Repr

/-- The HTTP request that `fetch` issues for a call: URL, method (`GET` when
absent), headers and body.  `params` is not a member of the `fetch` options and
is ignored. -/
structure HttpRequest where
  url : String
  method : String
  headers : List (String × String)
  body : Option String
  deriving DecidableEq, Repr

/-- The request issued for one `fetch` call. -/
def FetchCall.issued (call : FetchCall) : HttpRequest :=
  { url := call.url
    method := call.init.method.getD "GET"
    headers := call.init.headers.getD []
    body := call.init.body }

/-- What the server answers to a `fetch`: `response.ok`, `response.statusText`
and the outcome of `response.json()`. -/
structure FetchResponse where
  ok : Bool
  statusText : String
  json : Except String String

/-- Header read `headers[name]` of a headers object. -/
def headerGet (headers : List (String × String)) (name : String) : Option String :=
  match headers with
  | [] => none
  | (k, v) :: rest => if k = name then some v else headerGet rest name

/-- The service object: `this.baseUrl`. -/
structure ApiGatewayService where
  baseUrl : String
  deriving DecidableEq, Repr

/-- Method `getAuthToken()`; `currentUser` is the ID token of `auth.currentUser`,
`none` when no user is signed in. -/
def ApiGatewayService.getAuthToken (currentUser : Option String) : Except String String :=
  match currentUser with
  | none => Except.error "No authenticated user"
  | some token => Except.ok token

/-- Method `request(endpoint, options)`: the result and the `fetch` calls made,
in order.  `server` answers the HTTP request that a `fetch` call issues. -/
def ApiGatewayService.request (svc : ApiGatewayService) (currentUser : Option String)
    (server : HttpRequest → Except String FetchResponse) (endpoint : String)
    (options : RequestOptions) : Except String String × List FetchCall :=
  match ApiGatewayService.getAuthToken currentUser with
  | Except.error e => (Except.error e, [])
  | Except.ok token =>
    let headers :=
      options.headers.getD [] ++
        [("Authorization", "Bearer " ++ token), ("Content-Type", "application/json")]
    let call : FetchCall :=
      { url := svc.baseUrl ++ endpoint, init := { options with headers := some headers } }
    match server call.issued with
    | Except.error e => (Except.error e, [call])
    | Except.ok response =>
      if !response.ok then (Except.error ("API request failed: " ++ response.statusText), [call])
      else (response.json, [call])

/-- Method `getCollection(collectionName, filters)`. -/
def ApiGatewayService.getCollection (svc : ApiGatewayService) (currentUser : Option String)
    (server : HttpRequest → Except String FetchResponse) (collectionName : String)
    (filters : List (String × String × String)) : Except String String × List FetchCall :=
  svc.request currentUser server ("/api/" ++ collectionName)
    { method := some "GET", headers := none, body := none,
      params := some [("filters", ParamValue.filters filters)] }

/-- Method `search(collectionName, searchTerm, fields)`. -/
def ApiGatewayService.search (svc : ApiGatewayService) (currentUser : Option String)
    (server : HttpRequest → Except String FetchResponse) (collectionName searchTerm : String)
    (fields : List String) : Except String String × List FetchCall :=
  svc.request currentUser server ("/api/search/" ++ collectionName)
    { method := some "GET", headers := none, body := none,
      params := some [("fields", ParamValue.list fields), ("searchTerm", ParamValue.text searchTerm)] }

/-- A server that answers every request with `200 OK` and an empty object. -/
def okServer (_request : HttpRequest) : Except String FetchResponse :=
  Except.ok { ok := true, statusText := "OK", json := Except.ok "{}" }

/-! ## src/contexts/RealtimeContext.js -/

/-- The `subscribers` object: collection name to unsubscribe function.  An
unsubscribe function is named by the id of the listener it detaches. -/
abbrev Subscribers := List (String × Nat)

/-- Property read `subscribers[collectionName]`. -/
def Subscribers.get (o : Subscribers) (collectionName : String) : Option Nat :=
  match o with
  | [] => none
  | (k, v) :: rest => if k = collectionName then some v else Subscribers.get rest collectionName

/-- The object `{ ...prev, [collectionName]: unsubscribe }`: the value of an
existing key is replaced, a new key is added at the end. -/
def Subscribers.set (prev : Subscribers) (collectionName : String) (unsubscribe : Nat) :
    Subscribers :=
  match prev with
  | [] => [(collectionName, unsubscribe)]
  | (k, v) :: rest =>
    if k = collectionName then (k, unsubscribe) :: rest
    else (k, v) :: Subscribers.set rest collectionName unsubscribe

/-- The object after `delete newSubscribers[collectionName]`. -/
def Subscribers.delete (prev : Subscribers) (collectionName : String) : Subscribers :=
  prev.filter (fun kv => kv.1 != collectionName)

/-- An updater handed to `setSubscribers`. -/
inductive SubscribersUpdate where
  | set (collectionName : String) (unsubscribe : Nat) : SubscribersUpdate
  | delete (collectionName : String) : SubscribersUpdate
  deriving DecidableEq, Repr

/-- Apply one queued updater to the previous `subscribers`. -/
def SubscribersUpdate.apply (prev : Subscribers) : SubscribersUpdate → Subscribers
  | SubscribersUpdate.set collectionName unsubscribe => prev.set collectionName unsubscribe
  | SubscribersUpdate.delete collectionName => prev.delete collectionName

/-- A listener attached by `onSnapshot`; it delivers to its callback as long as
it is attached. -/
structure Listener where
  id : Nat
  collectionName : String
  filters : List (String × String × String)
  deriving DecidableEq, Repr

/-- The provider with the listeners it has attached: the `subscribers` state of
the last render, the updaters queued since, and the `subscribers` value captured
by the cleanup function of the effect that ran last. -/
structure RealtimeState where
  listeners : List Listener
  nextListener : Nat
  subscribers : Subscribers
  queued : List SubscribersUpdate
  cleanupSubscribers : Subscribers
  toasts : List String
  deriving DecidableEq, Repr

/-- The provider after its first render: the effect has run with the empty
`subscribers`. -/
def RealtimeState.initial : RealtimeState :=
  { listeners := [], nextListener := 0, subscribers := [], queued := [],
    cleanupSubscribers := [], toasts := [] }

/-- Calling the unsubscribe function of listener `id`: the listener is detached;
calling it again changes nothing. -/
def detach (listeners : List Listener) (id : Nat) : List Listener :=
  listeners.filter (fun l => l.id != id)

/-- The loop `Object.values(subscribers).forEach(unsubscribe => unsubscribe())`. -/
def detachAll (listeners : List Listener) (subscribers : Subscribers) : List Listener :=
  subscribers.foldl (fun ls kv => detach ls kv.2) listeners

/-- Function `subscribeToCollection(collectionName, filters, callback)`.  `attach`
is the outcome of building the query and calling `onSnapshot`: done, or the error
thrown.  The result is the returned value, `none` for `null`. -/
def subscribeToCollection (st : RealtimeState) (collectionName : String)
    (filters : List (String × String × String)) (attach : Except String Unit) :
    Except String (Option Nat) × RealtimeState :=
  match attach with
  | Except.ok _ =>
    let unsubscribe := st.nextListener
    (Except.ok (some unsubscribe),
      { st with
        listeners := st.listeners ++ [⟨unsubscribe, collectionName, filters⟩]
        nextListener := st.nextListener + 1
        queued := st.queued ++ [SubscribersUpdate.set collectionName unsubscribe] })
  | Except.error _ =>
    (Except.ok none,
      { st with toasts := st.toasts ++ ["Error subscribing to " ++ collectionName] })

/-- Calling the value that `subscribeToCollection` returned: `null` is not a
function. -/
def callReturned (st : RealtimeState) (returned : Option Nat) : Except String RealtimeState :=
  match returned with
  | none => Except.error "unsubscribe is not a function"
  | some id => Except.ok { st with listeners := detach st.listeners id }

/-- Function `unsubscribeFromCollection(collectionName)`. -/
def unsubscribeFromCollection (st : RealtimeState) (collectionName : String) : RealtimeState :=
  match st.subscribers.get collectionName with
  | some unsubscribe =>
    { st with
      listeners := detach st.listeners unsubscribe
      queued := st.queued ++ [SubscribersUpdate.delete collectionName] }
  | none => st

/-- A render of the provider.  When updaters are queued, `subscribers` becomes a
new object; the dependency `[subscribers]` of the effect has changed, so the
cleanup of the previous effect runs with the `subscribers` it captured, and the
effect runs again and captures the new value. -/
def RealtimeState.render (st : RealtimeState) : RealtimeState :=
  match st.queued with
  | [] => st
  | _ :: _ =>
    let next := st.queued.foldl SubscribersUpdate.apply st.subscribers
    { st with
      listeners := detachAll st.listeners st.cleanupSubscribers
      subscribers := next
      queued := []
      cleanupSubscribers := next }

/-- Unmount of the provider: the cleanup of the last effect runs. -/
def RealtimeState.unmount (st : RealtimeState) : RealtimeState :=
  { st with listeners := detachAll st.listeners st.cleanupSubscribers }

/-! ## Stored files of StorageService.js -/

/-- Metadata of a stored file: `customMetadata` is `none` when the file has no
custom metadata (`undefined`). -/
structure FileMetadata where
  size : Nat
  contentType : Option String
  timeCreated : String
  customMetadata : Option (List (String × String))
  deriving DecidableEq, Repr

/-- An object of the bucket: its full path, its download URL and its metadata.
The bucket is kept in the order in which the store lists it. -/
structure StorageObject where
  fullPath : String
  downloadUrl : String
  metadata : FileMetadata
  deriving DecidableEq, Repr

/-- The record that `listFiles` builds for one listed item. -/
structure FileEntry where
  name : String
  path : String
  url : String
  metadata : FileMetadata
  size : Nat
  contentType : Option String
  timeCreated : String
  deriving DecidableEq, Repr

/-- Split a path at `/`, dropping empty segments; `current` is the segment being
read. -/
def splitSegments : List Char → List Char → List (List Char)
  | [], current => if current = [] then [] else [current]
  | c :: cs, current =>
    if c = '/' then
      if current = [] then splitSegments cs [] else current :: splitSegments cs []
    else splitSegments cs (current ++ [c])

/-- The segments of a storage path; a reference is the same for paths with the
same segments. -/
def pathSegments (path : String) : List String :=
  (splitSegments path.toList []).map String.mk

/-- The record built by the `map` callback of `listFiles` for one item. -/
def fileEntry (item : StorageObject) : FileEntry :=
  { name := (pathSegments item.fullPath).getLast?.getD ""
    path := item.fullPath
    url := item.downloadUrl
    metadata := item.metadata
    size := item.metadata.size
    contentType := item.metadata.contentType
    timeCreated := item.metadata.timeCreated }

/-- The array `files` that `listFiles` builds from `listAll(ref(storage, folder))`:
one record for every object directly inside the folder. -/
def bucketListing (bucket : List StorageObject) (folder : String) : List FileEntry :=
  (bucket.filter
    (fun o => pathSegments o.fullPath ≠ [] ∧
      (pathSegments o.fullPath).dropLast = pathSegments folder)).map fileEntry

/-- The default `pageSize = 20` of `listFiles`. -/
def defaultPageSize : Nat := 20

/-- The filter `file.metadata.customMetadata.recordId === recordId` over the
files in order; reading `recordId` of a missing `customMetadata` raises. -/
def filterByRecordId : List FileEntry → String → Except String (List FileEntry)
  | [], _ => Except.ok []
  | file :: rest, recordId =>
    match file.metadata.customMetadata with
    | none =>
      Except.error
        "Error getting files by record ID: Cannot read properties of undefined (reading 'recordId')"
    | some customMetadata =>
      match filterByRecordId rest recordId with
      | Except.error e => Except.error e
      | Except.ok kept =>
        if headerGet customMetadata "recordId" = some recordId then Except.ok (file :: kept)
        else Except.ok kept

/-- Method `getFilesByRecordId(recordId)`: it filters the `files` of
`this.listFiles()`, called with the defaults `path = ''`, `pageSize = 20`,
`pageToken = null`. -/
def StorageService.getFilesByRecordId (svc : StorageService) (bucket : List StorageObject)
    (recordId : String) : Except String (List FileEntry) :=
  filterByRecordId (svc.listFiles (bucketListing bucket) "" defaultPageSize none).files recordId

/-- Method `linkFileToRecord(filePath, recordId, recordType)` at time `now`:
`updateMetadata` writes the three custom metadata entries of the object at
`filePath` and keeps its other entries; it is rejected when there is no such
object.  Yields the result and the bucket after. -/
def StorageService.linkFileToRecord (bucket : List StorageObject)
    (filePath recordId recordType now : String) : Except String Bool × List StorageObject :=
  if bucket.any (fun o => pathSegments o.fullPath = pathSegments filePath) then
    (Except.ok true,
      bucket.map (fun o =>
        if pathSegments o.fullPath = pathSegments filePath then
          { o with
            metadata :=
              { o.metadata with
                customMetadata :=
                  some ([("linkedAt", now), ("recordType", recordType), ("recordId", recordId)]
                    ++ o.metadata.customMetadata.getD []) } }
        else o))
  else (Except.error "Error linking file to record: object not found", bucket)

/-- The counters `stats.sizeRanges`. -/
structure SizeRanges where
  upTo1MB : Nat
  upTo5MB : Nat
  upTo10MB : Nat
  over10MB : Nat
  deriving DecidableEq, Repr

/-- The object `stats` of `getFileStats`; `totalSize` is `none` for `NaN`. -/
structure FileStats where
  totalFiles : Nat
  totalSize : Option Int
  fileTypes : List (String × Nat)
  sizeRanges : SizeRanges
  deriving DecidableEq, Repr

/-- The update `stats.fileTypes[type] = (stats.fileTypes[type] || 0) + 1`. -/
def countType : List (String × Nat) → String → List (String × Nat)
  | [], type => [(type, 1)]
  | (k, n) :: rest, type =>
    if k = type then (k, n + 1) :: rest else (k, n) :: countType rest type

/-- The body of the `files.forEach` of `getFileStats` for one file; a size that
does not parse compares false with every bound. -/
def statsStep (stats : FileStats) (file : FileEntry) : FileStats :=
  let size := parseInt (numberToString (file.metadata.size : Int))
  let type := file.metadata.contentType.getD "undefined"
  { totalFiles := stats.totalFiles
    totalSize :=
      match stats.totalSize, size with
      | some total, some n => some (total + n)
      | _, _ => none
    fileTypes := countType stats.fileTypes type
    sizeRanges :=
      match size with
      | some n =>
        if n ≤ 1024 * 1024 then { stats.sizeRanges with upTo1MB := stats.sizeRanges.upTo1MB + 1 }
        else if n ≤ 5 * 1024 * 1024 then
          { stats.sizeRanges with upTo5MB := stats.sizeRanges.upTo5MB + 1 }
        else if n ≤ 10 * 1024 * 1024 then
          { stats.sizeRanges with upTo10MB := stats.sizeRanges.upTo10MB + 1 }
        else { stats.sizeRanges with over10MB := stats.sizeRanges.over10MB + 1 }
      | none => { stats.sizeRanges with over10MB := stats.sizeRanges.over10MB + 1 } }

/-- Method `getFileStats(path)`: statistics of the `files` of
`this.listFiles(path)`, called with the default page size. -/
def StorageService.getFileStats (svc : StorageService) (listing : String → List FileEntry)
    (path : String) : FileStats :=
  let files := (svc.listFiles listing path defaultPageSize none).files
  files.foldl statsStep
    { totalFiles := files.length
      totalSize := some 0
      fileTypes := []
      sizeRanges := { upTo1MB := 0, upTo5MB := 0, upTo10MB := 0, over10MB := 0 } }

/-- Fixture: the folder `docs` with 21 files named `a` to `u`, none linked to a
record. -/
def twentyOneFiles : List StorageObject :=
  (List.range 21).map
    (fun n =>
      { fullPath := "docs/" ++ String.singleton (Char.ofNat (97 + n))
        downloadUrl := ""
        metadata :=
          { size := 1, contentType := some "text/plain", timeCreated := "",
            customMetadata := some [] } })

/-! ## Claims C1 and C2 -/

/-- C1: both handlers compute the action `create` when the before-snapshot is
absent and `delete` when the after-snapshot is absent, but then hand
`details.before` or `details.after` to `add` as `undefined`: the call is rejected
and no entry is logged for a create or a delete.  When both snapshots are present
`logDocumentActivity` logs the entry with action `update`, and `logUserActivity`
does so when one of the two snapshots has an `email`. -/
theorem C1_create_and_delete_not_logged (b a : Obj) (userId collection docId : String)
    (now : Nat) :
    classifyAction ⟨none, some a⟩ = Action.create ∧
    classifyAction ⟨some b, none⟩ = Action.delete ∧
    classifyAction ⟨some b, some a⟩ = Action.update ∧
    (∃ e, logDocumentActivity ⟨none, some a⟩ collection docId now = Except.error e) ∧
    (∃ e, logDocumentActivity ⟨some b, none⟩ collection docId now = Except.error e) ∧
    (∃ e, logUserActivity ⟨none, some a⟩ userId now = Except.error e) ∧
    (∃ e, logUserActivity ⟨some b, none⟩ userId now = Except.error e) ∧
    logDocumentActivity ⟨some b, some a⟩ collection docId now
      = Except.ok (documentActivityLog ⟨some b, some a⟩ collection docId now) ∧
    (documentActivityLog ⟨some b, some a⟩ collection docId now).action = Action.update ∧
    logUserActivity ⟨some b, some a⟩ userId now
      = (if (jsOr (Obj.get a "email") (Obj.get b "email")).isSome
          then Except.ok (userActivityLog ⟨some b, some a⟩ userId now)
          else Except.error "Cannot use \"undefined\" as a Firestore value") ∧
    (userActivityLog ⟨some b, some a⟩ userId now).action = Action.update := by
  refine ⟨rfl, rfl, rfl, ⟨_, rfl⟩, ⟨_, rfl⟩, ?_, ?_, rfl, rfl, ?_, rfl⟩
  · simp [logUserActivity, adminAdd, userActivityLog]
  · simp [logUserActivity, adminAdd, userActivityLog]
  · simp only [logUserActivity, adminAdd, userActivityLog, optGet]
    cases h : jsOr (Obj.get a "email") (Obj.get b "email") <;> simp

/-- An update outside `users` is logged once, by the wildcard trigger only. -/
theorem entriesForWrite_other (collection docId : String) (b a : Obj) (now : Nat)
    (h : collection ≠ "users") :
    entriesForWrite [collection, docId] ⟨some b, some a⟩ now
      = [documentActivityLog ⟨some b, some a⟩ collection docId now] := by
  have h' : ¬ ("users" = collection) := fun e => h e.symm
  simp [entriesForWrite, firestoreTriggers, matchPath, param, h', logDocumentActivity, adminAdd,
    documentActivityLog]

/-- C2: the number of entries added to `activity_logs` for one write is not
always one.  An update of a document of `users` that has an `email` matches both
the `users/{userId}` trigger and the `{collection}/{docId}` trigger and adds two
entries; every other update adds one; a create or a delete of any document adds
none, because `add` rejects the `undefined` snapshot data. -/
theorem C2_users_write_logged_twice (collection docId : String) (b a : Obj)
    (before after : DocSnap) (now : Nat) :
    entriesForWrite ["users", "u1"]
        ⟨some [("email", Value.str "al@example.com")],
         some [("email", Value.str "al@example.com"), ("name", Value.str "Al")]⟩ now
      = [userActivityLog
          ⟨some [("email", Value.str "al@example.com")],
           some [("email", Value.str "al@example.com"), ("name", Value.str "Al")]⟩ "u1" now,
         documentActivityLog
          ⟨some [("email", Value.str "al@example.com")],
           some [("email", Value.str "al@example.com"), ("name", Value.str "Al")]⟩
          "users" "u1" now] ∧
    (entriesForWrite [collection, docId] ⟨some b, some a⟩ now).length
      = (if collection = "users" ∧ (jsOr (Obj.get a "email") (Obj.get b "email")).isSome
          then 2 else 1) ∧
    entriesForWrite [collection, docId] ⟨none, after⟩ now = [] ∧
    entriesForWrite [collection, docId] ⟨before, none⟩ now = [] := by
  refine ⟨rfl, ?_, ?_, ?_⟩
  · by_cases h : collection = "users"
    · subst h
      cases he : jsOr (Obj.get a "email") (Obj.get b "email") <;>
        simp [entriesForWrite, firestoreTriggers, matchPath, param, logDocumentActivity,
          logUserActivity, adminAdd, documentActivityLog, userActivityLog, optGet, he]
    · rw [entriesForWrite_other collection docId b a now h]
      simp [h]
  · by_cases h : "users" = collection <;>
      simp [entriesForWrite, firestoreTriggers, matchPath, param, logDocumentActivity,
        logUserActivity, adminAdd, documentActivityLog, userActivityLog, h]
  · by_cases h : "users" = collection <;>
      simp [entriesForWrite, firestoreTriggers, matchPath, param, logDocumentActivity,
        logUserActivity, adminAdd, documentActivityLog, userActivityLog, h]

/-! ## Objects and single-document writes -/

theorem Obj.get_append (a b : Obj) (k : String) :
    Obj.get (a ++ b) k = (Obj.get a k).orElse (fun _ => Obj.get b k) := by
  induction a with
  | nil => simp [Obj.get]
  | cons kv rest ih =>
    obtain ⟨k', v⟩ := kv
    by_cases h : k' = k
    · simp [Obj.get, h]
    · simp [Obj.get, h, ih]

theorem get_resolve_spread (now : Nat) (d : Obj) (k : String) :
    Obj.get (resolveWrite now (spread d)) k = Obj.get d k := by
  induction d with
  | nil => simp [resolveWrite, spread, Obj.get]
  | cons kv rest ih =>
    obtain ⟨k', v⟩ := kv
    simp only [resolveWrite, spread, List.map_cons, List.map_map, Obj.get, resolveField] at ih ⊢
    by_cases h : k' = k
    · simp [h]
    · simp [h, ih]

theorem get_withId_of_ne (i : String) (fields : Obj) (k : String) (h : k ≠ "id") :
    Obj.get (withId i fields) k = Obj.get fields k := by
  have h' : ¬ ("id" = k) := fun e => h e.symm
  rw [withId, Obj.get_append]
  cases Obj.get fields k <;> simp [Obj.get, h']

theorem get_withId_id (i : String) (fields : Obj) (h : Obj.get fields "id" = none) :
    Obj.get (withId i fields) "id" = some (Value.str i) := by
  rw [withId, Obj.get_append, h]
  simp [Obj.get]

theorem find_putRecord (records : List Record) (collection id : String) (fields : Obj) :
    (putRecord records collection id fields).find? (fun r => r.isAt collection id)
      = some ⟨collection, id, fields⟩ := by
  simp [putRecord, Record.isAt]

theorem getDoc_setDoc (s : Store) (collection id : String) (w : WriteData) :
    (s.setDoc collection id w).getDoc collection id = some (resolveWrite s.clock w) := by
  simp [Store.getDoc, Store.setDoc, find_putRecord]

theorem ownProps_subset {α : Type} (l : List (String × α)) (kv : String × α)
    (h : kv ∈ ownProps l) : kv ∈ l := by
  induction l generalizing kv with
  | nil => simp [ownProps] at h
  | cons x rest ih =>
    simp only [ownProps, List.mem_cons, List.mem_filter] at h
    rcases h with h | h
    · exact h ▸ List.mem_cons_self _ _
    · exact List.mem_cons_of_mem _ (ih kv h.1)

/-- Data whose names and values are all accepted passes the check of `addDoc`
together with the two stamps. -/
theorem validWrite_createStamps (d : Obj)
    (hvalid : ∀ kv ∈ d, validFieldName kv.1 = true ∧ validValue kv.2 = true) :
    validWrite (createStamps (spread d)) = true := by
  rw [validWrite, List.all_eq_true]
  intro kv hkv
  have hm := ownProps_subset _ _ hkv
  simp only [createStamps, List.mem_cons] at hm
  rcases hm with rfl | rfl | hm
  · decide
  · decide
  · simp only [spread, List.mem_map] at hm
    obtain ⟨e, he, rfl⟩ := hm
    have := hvalid e he
    simp [validFieldWrite, this.1, this.2]

/-- Accepted data is stored by `createDocument` under the assigned identifier. -/
theorem createDocument_ok (svc : DatabaseService) (s : Store) (autoId : String) (d : Obj)
    (hvalid : ∀ kv ∈ d, validFieldName kv.1 = true ∧ validValue kv.2 = true) :
    svc.createDocument s autoId d
      = (Except.ok (withId autoId d),
          s.setDoc svc.collectionName autoId (createStamps (spread d))) := by
  simp [DatabaseService.createDocument, Store.addDoc, validWrite_createStamps d hvalid]

/-- Data with an empty field name is rejected by `createDocument` and nothing is
stored. -/
theorem createDocument_rejects_empty_name :
    DatabaseService.createDocument ⟨"items"⟩ ⟨[], 0⟩ "a1" [("", Value.str "x")]
      = (Except.error StoreError.invalidArgument, ⟨[], 0⟩) ∧
    DatabaseService.createDocument ⟨"items"⟩ ⟨[], 0⟩ "a1" [("__meta__", Value.str "x")]
      = (Except.error StoreError.invalidArgument, ⟨[], 0⟩) := by
  constructor <;> rfl

/-! ## Claims C3, C4 and C5 -/

/-- C3, as stated, fails: a caller field named `createdAt` is replaced by the
server stamp, so the document read back does not carry it unchanged. -/
theorem C3_createdAt_field_overwritten :
    ¬ (∀ (doc : Obj) (k : String) (v : Value),
        DatabaseService.getCreated ⟨"items"⟩ ⟨[], 0⟩ "a1" [("createdAt", Value.str "yesterday")]
            = some (some doc) →
        Obj.get [("createdAt", Value.str "yesterday")] k = some v → Obj.get doc k = some v) := by
  intro h
  have h1 := h [("updatedAt", Value.timestamp 0), ("createdAt", Value.timestamp 0),
      ("createdAt", Value.str "yesterday"), ("id", Value.str "a1")]
    "createdAt" (Value.str "yesterday") (by decide) (by decide)
  revert h1
  decide

/-- C3, amended: for a field map `d` without a field named `id` whose field
names and values the database accepts (no empty or reserved name, no function),
`getDocument(createDocument(d).id)` returns a document whose `id` is the assigned
identifier, whose `createdAt` and `updatedAt` are the commit time, and which
carries every field of `d` other than `createdAt` and `updatedAt` unchanged. -/
theorem C3_get_after_create (svc : DatabaseService) (s : Store) (autoId : String) (d : Obj)
    (hid : Obj.get d "id" = none)
    (hvalid : ∀ kv ∈ d, validFieldName kv.1 = true ∧ validValue kv.2 = true) :
    ∃ doc, svc.getCreated s autoId d = some (some doc) ∧
      Obj.get doc "id" = some (Value.str autoId) ∧
      Obj.get doc "createdAt" = some (Value.timestamp s.clock) ∧
      Obj.get doc "updatedAt" = some (Value.timestamp s.clock) ∧
      ∀ k v, k ≠ "createdAt" → k ≠ "updatedAt" → Obj.get d k = some v →
        Obj.get doc k = some v := by
  refine ⟨withId autoId (resolveWrite s.clock (createStamps (spread d))), ?_, ?_, ?_, ?_, ?_⟩
  · simp [DatabaseService.getCreated, createDocument_ok svc s autoId d hvalid, idOf,
      get_withId_id autoId d hid, DatabaseService.getDocument, getDoc_setDoc]
  · apply get_withId_id
    have := get_resolve_spread s.clock d "id"
    simp only [resolveWrite, createStamps, List.map_cons, Obj.get] at this ⊢
    simp [this, hid]
  · rw [get_withId_of_ne _ _ _ (by decide)]
    simp [resolveWrite, createStamps, Obj.get, resolveField]
  · rw [get_withId_of_ne _ _ _ (by decide)]
    simp [resolveWrite, createStamps, Obj.get, resolveField]
  · intro k v hc hu hk
    have hc' : ¬ ("createdAt" = k) := fun e => hc e.symm
    have hu' : ¬ ("updatedAt" = k) := fun e => hu e.symm
    have hkid : k ≠ "id" := by
      intro e
      rw [e, hid] at hk
      cases hk
    rw [get_withId_of_ne _ _ _ hkid]
    have := get_resolve_spread s.clock d k
    simp only [resolveWrite, createStamps, List.map_cons, Obj.get] at this ⊢
    simp [hc', hu', this, hk]

/-- Witness of `C3_get_after_create` on the empty store. -/
theorem C3_get_after_create_witness :
    ∃ doc, DatabaseService.getCreated ⟨"items"⟩ ⟨[], 0⟩ "a1" [("name", Value.str "Joe")]
        = some (some doc) ∧
      Obj.get doc "id" = some (Value.str "a1") ∧
      Obj.get doc "createdAt" = some (Value.timestamp 0) ∧
      Obj.get doc "updatedAt" = some (Value.timestamp 0) ∧
      ∀ k v, k ≠ "createdAt" → k ≠ "updatedAt" →
        Obj.get [("name", Value.str "Joe")] k = some v → Obj.get doc k = some v :=
  C3_get_after_create ⟨"items"⟩ ⟨[], 0⟩ "a1" [("name", Value.str "Joe")] (by decide) (by decide)

/-- Without a caller field named `id`, `createDocument` returns the assigned id. -/
theorem createDocument_id_of_no_id_field (svc : DatabaseService) (s : Store) (autoId : String)
    (d : Obj) (hid : Obj.get d "id" = none)
    (hvalid : ∀ kv ∈ d, validFieldName kv.1 = true ∧ validValue kv.2 = true) :
    (svc.createDocument s autoId d).1 = Except.ok (withId autoId d) ∧
    Obj.get (withId autoId d) "id" = some (Value.str autoId) := by
  rw [createDocument_ok svc s autoId d hvalid]
  exact ⟨rfl, get_withId_id autoId d hid⟩

/-- C4: for the field map `{ id: "custom" }` the document is stored under the
assigned identifier `a1`, but the object returned by `createDocument` has
`id` equal to `"custom"`, and no document `custom` exists. -/
theorem C4_returned_id_shadowed :
    (DatabaseService.createDocument ⟨"items"⟩ ⟨[], 0⟩ "a1" [("id", Value.str "custom")]).1
      = Except.ok [("id", Value.str "custom"), ("id", Value.str "a1")] ∧
    Obj.get [("id", Value.str "custom"), ("id", Value.str "a1")] "id"
      = some (Value.str "custom") ∧
    ((DatabaseService.createDocument ⟨"items"⟩ ⟨[], 0⟩ "a1" [("id", Value.str "custom")]).2.getDoc
      "items" "a1").isSome = true ∧
    (DatabaseService.createDocument ⟨"items"⟩ ⟨[], 0⟩ "a1" [("id", Value.str "custom")]).2.getDoc
      "items" "custom" = none ∧
    DatabaseService.getCreated ⟨"items"⟩ ⟨[], 0⟩ "a1" [("id", Value.str "custom")] = some none := by
  refine ⟨rfl, ?_, ?_, ?_, ?_⟩ <;> decide

theorem mem_putRecord (records : List Record) (collection id : String) (fields : Obj)
    (r : Record) (h : r ∈ putRecord records collection id fields) :
    r = ⟨collection, id, fields⟩ ∨ r ∈ records := by
  simp only [putRecord, List.mem_cons, List.mem_filter] at h
  rcases h with h | h
  · exact Or.inl h
  · exact Or.inr h.1

/-- The empty store satisfies the stamp invariant. -/
theorem stamped_empty (clock : Nat) (collection : String) :
    Store.Stamped ⟨[], clock⟩ collection := by
  intro r hr
  cases hr

/-- Method `createDocument` keeps the stamp invariant. -/
theorem stamped_createDocument (svc : DatabaseService) (s : Store) (autoId : String) (d : Obj)
    (h : s.Stamped svc.collectionName) :
    (svc.createDocument s autoId d).2.Stamped svc.collectionName := by
  simp only [DatabaseService.createDocument, Store.addDoc]
  by_cases hv : validWrite (createStamps (spread d)) = true
  · simp only [hv, if_true]
    intro r hr hc
    simp only [Store.setDoc] at hr ⊢
    rcases mem_putRecord _ _ _ _ _ hr with rfl | hr
    · exact ⟨s.clock, by simp [resolveWrite, createStamps, Obj.get, resolveField], Nat.lt_succ_self _⟩
    · obtain ⟨t, ht, hlt⟩ := h r hr hc
      exact ⟨t, ht, Nat.lt_succ_of_lt hlt⟩
  · simp only [hv]
    exact h

theorem parseUpdateData_append (xs ys : WriteData) :
    parseUpdateData (xs ++ ys)
      = match parseUpdateData xs with
        | Except.error e => Except.error e
        | Except.ok us =>
          match parseUpdateData ys with
          | Except.error e => Except.error e
          | Except.ok vs => Except.ok (us ++ vs) := by
  induction xs with
  | nil =>
    simp only [List.nil_append, parseUpdateData]
    cases parseUpdateData ys <;> rfl
  | cons x rest ih =>
    have hl : parseUpdateData (x :: rest ++ ys)
        = match parseUpdateEntry x with
          | Except.error e => Except.error e
          | Except.ok u =>
            match parseUpdateData (rest ++ ys) with
            | Except.error e => Except.error e
            | Except.ok us => Except.ok (u :: us) := rfl
    have hr : parseUpdateData (x :: rest)
        = match parseUpdateEntry x with
          | Except.error e => Except.error e
          | Except.ok u =>
            match parseUpdateData rest with
            | Except.error e => Except.error e
            | Except.ok us => Except.ok (u :: us) := rfl
    rw [hl, hr, ih]
    cases parseUpdateEntry x with
    | error e => rfl
    | ok u =>
      cases parseUpdateData rest with
      | error e => rfl
      | ok us => cases parseUpdateData ys <;> rfl

/-- After an accepted update by `updateDocument` the stored `updatedAt` is the
commit time. -/
theorem applyUpdate_updatedAt (now : Nat) (d old : Obj)
    (updates : List (List String × FieldWrite))
    (h : parseUpdateData (ownProps (("updatedAt", FieldWrite.serverTimestamp) :: spread d)).reverse
      = Except.ok updates) :
    Obj.get (applyUpdate now updates old) "updatedAt" = some (Value.timestamp now) := by
  have hlast : parseUpdateData [("updatedAt", FieldWrite.serverTimestamp)]
      = Except.ok [(["updatedAt"], FieldWrite.serverTimestamp)] := rfl
  simp only [ownProps, List.reverse_cons] at h
  rw [parseUpdateData_append, hlast] at h
  cases hp : parseUpdateData
      (List.filter (fun e => e.1 != "updatedAt") (ownProps (spread d))).reverse with
  | error e => simp [hp] at h
  | ok us =>
    simp only [hp, Except.ok.injEq] at h
    subst h
    simp [applyUpdate, List.foldl_append, Obj.setPath, Value.setPath, Obj.get]

/-- Method `updateDocument` keeps the stamp invariant. -/
theorem stamped_updateDocument (svc : DatabaseService) (s : Store) (id : String) (d : Obj)
    (h : s.Stamped svc.collectionName) :
    (svc.updateDocument s id d).2.Stamped svc.collectionName := by
  simp only [DatabaseService.updateDocument, Store.updateDoc]
  cases hp : parseUpdateData
      (ownProps (("updatedAt", FieldWrite.serverTimestamp) :: spread d)).reverse with
  | error e => simpa using h
  | ok updates =>
    cases hg : s.getDoc svc.collectionName id with
    | none => simpa using h
    | some old =>
      intro r hr hc
      simp only at hr ⊢
      rcases mem_putRecord _ _ _ _ _ hr with rfl | hr
      · exact ⟨s.clock, applyUpdate_updatedAt s.clock d old updates hp, Nat.lt_succ_self _⟩
      · obtain ⟨t, ht, hlt⟩ := h r hr hc
        exact ⟨t, ht, Nat.lt_succ_of_lt hlt⟩

theorem getDoc_stamped (s : Store) (collection id : String) (fields : Obj)
    (h : s.Stamped collection) (hg : s.getDoc collection id = some fields) :
    ∃ t, Obj.get fields "updatedAt" = some (Value.timestamp t) ∧ t < s.clock := by
  simp only [Store.getDoc, Option.map_eq_some'] at hg
  obtain ⟨r, hr, rfl⟩ := hg
  have hm := List.mem_of_find?_eq_some hr
  have hp := List.find?_some hr
  simp only [Record.isAt, Bool.and_eq_true, beq_iff_eq] at hp
  exact h r hm hp.1

/-! ## Field paths -/

/-- A string without a dot is one segment. -/
theorem splitDots_no_dot (cs current : List Char) (h : ∀ c ∈ cs, c ≠ '.') :
    splitDots cs current = [current.reverse ++ cs] := by
  induction cs generalizing current with
  | nil => simp [splitDots]
  | cons c rest ih =>
    have hc : c ≠ '.' := h c (List.mem_cons_self _ _)
    simp only [splitDots, hc, if_false]
    rw [ih (c :: current) (fun x hx => h x (List.mem_cons_of_mem _ hx))]
    simp

/-- A top-level name is parsed as the field path of that one name, and is an
accepted field name. -/
theorem fieldPath_of_topLevel (x : String) (h : isTopLevelName x = true) :
    fieldPathFromDotSeparatedString x = Except.ok [x] ∧ validFieldName x = true := by
  simp only [isTopLevelName, Bool.and_eq_true, List.all_eq_true, bne_iff_ne, ne_eq,
    Bool.not_eq_true'] at h
  obtain ⟨⟨hne, hall⟩, hres⟩ := h
  have hany : x.toList.any isReservedPathChar = false := by
    rw [List.any_eq_false]
    intro c hc
    simp [(hall c hc).2]
  have hsplit : splitDots x.toList [] = [x.toList] := by
    rw [splitDots_no_dot x.toList [] (fun c hc => (hall c hc).1)]
    simp
  refine ⟨?_, by simp [validFieldName, hne, hres]⟩
  simp only [fieldPathFromDotSeparatedString, hany, hsplit]
  simp [hne]

/-- The write of `updateDocument(id, { x: v })` for a top-level name `x`: the
stored fields gain `x` and the new stamp, read first. -/
theorem updateDoc_single (s : Store) (collection id x : String) (v : Value) (old : Obj)
    (hx : isTopLevelName x = true) (hxu : x ≠ "updatedAt") (hv : validValue v = true)
    (hold : s.getDoc collection id = some old) :
    s.updateDoc collection id (("updatedAt", FieldWrite.serverTimestamp) :: spread [(x, v)])
      = Except.ok { records := putRecord s.records collection id
                      (("updatedAt", Value.timestamp s.clock) :: (x, v) :: old),
                    clock := s.clock + 1 } := by
  obtain ⟨hpath, hname⟩ := fieldPath_of_topLevel x hx
  have hown : ownProps (("updatedAt", FieldWrite.serverTimestamp) :: spread [(x, v)])
      = [("updatedAt", FieldWrite.serverTimestamp), (x, FieldWrite.value v)] := by
    simp [ownProps, spread, hxu]
  have h2 : parseUpdateEntry ("updatedAt", FieldWrite.serverTimestamp)
      = Except.ok (["updatedAt"], FieldWrite.serverTimestamp) := rfl
  have hparse : parseUpdateData [(x, FieldWrite.value v), ("updatedAt", FieldWrite.serverTimestamp)]
      = Except.ok [([x], FieldWrite.value v), (["updatedAt"], FieldWrite.serverTimestamp)] := by
    have h1 : parseUpdateEntry (x, FieldWrite.value v) = Except.ok ([x], FieldWrite.value v) := by
      simp [parseUpdateEntry, hpath, hname, validFieldWrite, hv]
    simp only [parseUpdateData, h1, h2]
  simp [Store.updateDoc, hown, hparse, hold, applyUpdate, Obj.setPath, Value.setPath]

/-! ## Claim C5 -/

/-- C5, as stated, fails: `updateDocument(id, { updatedAt: v })` succeeds, and
the document read back shows the server stamp in `updatedAt`, not `v`. -/
theorem C5_updatedAt_field_overwritten :
    (DatabaseService.updateDocument ⟨"items"⟩
        (DatabaseService.createDocument ⟨"items"⟩ ⟨[], 0⟩ "a1" [("name", Value.str "Joe")]).2
        "a1" [("updatedAt", Value.str "never")]).1
      = Except.ok [("updatedAt", Value.str "never"), ("id", Value.str "a1")] ∧
    ¬ (∃ doc, DatabaseService.getDocument ⟨"items"⟩
        (DatabaseService.updateDocument ⟨"items"⟩
          (DatabaseService.createDocument ⟨"items"⟩ ⟨[], 0⟩ "a1" [("name", Value.str "Joe")]).2
          "a1" [("updatedAt", Value.str "never")]).2 "a1" = some doc ∧
      Obj.get doc "updatedAt" = some (Value.str "never")) := by
  refine ⟨rfl, ?_⟩
  rintro ⟨doc, h1, h2⟩
  have h3 : DatabaseService.getDocument ⟨"items"⟩
        (DatabaseService.updateDocument ⟨"items"⟩
          (DatabaseService.createDocument ⟨"items"⟩ ⟨[], 0⟩ "a1" [("name", Value.str "Joe")]).2
          "a1" [("updatedAt", Value.str "never")]).2 "a1"
      = some [("updatedAt", Value.timestamp 1),
          ("updatedAt", Value.timestamp 0), ("createdAt", Value.timestamp 0),
          ("name", Value.str "Joe"), ("id", Value.str "a1")] := by decide
  rw [h3] at h1
  cases h1
  revert h2
  decide

/-- C5, amended: for an existing document of a collection kept by the service, a
top-level field name `x` (not empty, without `.`, `~`, `*`, `/`, `[`, `]`, not
reserved) other than `updatedAt` and a value `v` that the database accepts,
`updateDocument(id, { x: v })` succeeds and a following `getDocument(id)` shows
`x` equal to `v`, every other field except `updatedAt` as before, and `updatedAt`
a server stamp strictly later than the stamp it had before. -/
theorem C5_update_then_get (svc : DatabaseService) (s : Store) (id x : String) (v : Value)
    (old : Obj) (hst : s.Stamped svc.collectionName) (hname : isTopLevelName x = true)
    (hx : x ≠ "updatedAt") (hv : validValue v = true)
    (hold : svc.getDocument s id = some old) :
    ∃ s' new t t',
      svc.updateDocument s id [(x, v)] = (Except.ok (withId id [(x, v)]), s') ∧
      svc.getDocument s' id = some new ∧
      Obj.get new x = some v ∧
      (∀ k, k ≠ x → k ≠ "updatedAt" → Obj.get new k = Obj.get old k) ∧
      Obj.get old "updatedAt" = some (Value.timestamp t) ∧
      Obj.get new "updatedAt" = some (Value.timestamp t') ∧ t < t' := by
  simp only [DatabaseService.getDocument] at hold
  cases hg : s.getDoc svc.collectionName id with
  | none => simp [hg] at hold
  | some fields =>
    simp only [hg, Option.some.injEq] at hold
    subst hold
    obtain ⟨t, ht, hlt⟩ := getDoc_stamped s _ _ _ hst hg
    have hu : ¬ ("updatedAt" = x) := fun e => hx e.symm
    have hupd := updateDoc_single s svc.collectionName id x v fields hname hx hv hg
    refine ⟨{ records := putRecord s.records svc.collectionName id
                (("updatedAt", Value.timestamp s.clock) :: (x, v) :: fields),
              clock := s.clock + 1 },
      withId id (("updatedAt", Value.timestamp s.clock) :: (x, v) :: fields), t, s.clock,
      ?_, ?_, ?_, ?_, ?_, ?_, hlt⟩
    · simp only [DatabaseService.updateDocument]
      rw [hupd]
    · simp [DatabaseService.getDocument, Store.getDoc, find_putRecord]
    · rw [withId, Obj.get_append]
      simp [Obj.get, hu]
    · intro k hkx hku
      have hkx' : ¬ (x = k) := fun e => hkx e.symm
      have hku' : ¬ ("updatedAt" = k) := fun e => hku e.symm
      rw [withId, withId, Obj.get_append, Obj.get_append]
      simp [Obj.get, hkx', hku']
    · rw [get_withId_of_ne _ _ _ (by decide)]
      exact ht
    · rw [get_withId_of_ne _ _ _ (by decide)]
      simp [Obj.get]

/-- Witness of `C5_update_then_get`: a document created by the service, then
renamed. -/
theorem C5_update_then_get_witness :
    ∃ s' new t t',
      DatabaseService.updateDocument ⟨"items"⟩
          (DatabaseService.createDocument ⟨"items"⟩ ⟨[], 0⟩ "a1" [("name", Value.str "Joe")]).2
          "a1" [("name", Value.str "John")]
        = (Except.ok (withId "a1" [("name", Value.str "John")]), s') ∧
      DatabaseService.getDocument ⟨"items"⟩ s' "a1" = some new ∧
      Obj.get new "name" = some (Value.str "John") ∧
      (∀ k, k ≠ "name" → k ≠ "updatedAt" → Obj.get new k
        = Obj.get [("updatedAt", Value.timestamp 0), ("createdAt", Value.timestamp 0),
            ("name", Value.str "Joe"), ("id", Value.str "a1")] k) ∧
      Obj.get [("updatedAt", Value.timestamp 0), ("createdAt", Value.timestamp 0),
            ("name", Value.str "Joe"), ("id", Value.str "a1")] "updatedAt"
        = some (Value.timestamp t) ∧
      Obj.get new "updatedAt" = some (Value.timestamp t') ∧ t < t' :=
  C5_update_then_get ⟨"items"⟩
    (DatabaseService.createDocument ⟨"items"⟩ ⟨[], 0⟩ "a1" [("name", Value.str "Joe")]).2
    "a1" "name" (Value.str "John") _
    (stamped_createDocument ⟨"items"⟩ ⟨[], 0⟩ "a1" _ (stamped_empty 0 "items"))
    (by decide) (by decide) (by decide) (by decide)

/-- A dotted name is not a top-level field: `updateDocument(id, { "a.b": v })`
writes the field `b` of the map `a`.  A name with `~` is rejected and nothing is
written. -/
theorem updateDocument_field_paths :
    (DatabaseService.updateDocument ⟨"items"⟩ ⟨[⟨"items", "a1", []⟩], 1⟩ "a1"
        [("a.b", Value.num 1)]).2
      = ⟨[⟨"items", "a1", [("updatedAt", Value.timestamp 1),
            ("a", Value.entry "b" (Value.num 1) Value.emptyMap)]⟩], 2⟩ ∧
    DatabaseService.updateDocument ⟨"items"⟩ ⟨[⟨"items", "a1", []⟩], 1⟩ "a1"
        [("a~b", Value.num 1)]
      = (Except.error StoreError.invalidArgument, ⟨[⟨"items", "a1", []⟩], 1⟩) := by
  constructor
  · decide
  · rfl

/-! ## Claims C6 and C7 -/

/-- A non-empty list never reaches the commit: the first callback call raises. -/
theorem batchCreateLoop_cons (svc : DatabaseService) (doc : Obj) (rest : List Obj)
    (batch : List BatchOp) (createdDocs : List DocRef) :
    batchCreateLoop svc (doc :: rest) batch createdDocs = Except.error StoreError.typeError := by
  simp [batchCreateLoop, callObject]

/-- C6: after `batchCreate(documents)`, successful or failed, either the store
is exactly as before (none of the documents was written) or the call returned
one reference per document and every one of them is retrievable; no state with
only part of the list written is reachable. -/
theorem C6_batchCreate_all_or_none (svc : DatabaseService) (s : Store) (documents : List Obj) :
    (svc.batchCreate s documents).2 = s ∨
    ∃ refs, (svc.batchCreate s documents).1 = Except.ok refs ∧
      refs.length = documents.length ∧
      ∀ ref ∈ refs, ((svc.batchCreate s documents).2.getDoc ref.collection ref.id).isSome = true := by
  left
  cases documents with
  | nil => simp [DatabaseService.batchCreate, batchCreateLoop, Store.commit]
  | cons doc rest => simp [DatabaseService.batchCreate, batchCreateLoop_cons]

/-- C7: `getPaginatedDocuments` returns a page exactly when `pageSize` is
positive; the page holds at most `pageSize` documents and its `hasMore` is true
if and only if it holds exactly `pageSize` documents. -/
theorem C7_page_bound_and_hasMore (svc : DatabaseService) (s : Store) (pageSize : Nat)
    (lastDoc : Option Snapshot) :
    match svc.getPaginatedDocuments s pageSize lastDoc with
    | Except.ok page =>
        0 < pageSize ∧ page.documents.length ≤ pageSize ∧
        (page.hasMore = true ↔ page.documents.length = pageSize)
    | Except.error e => pageSize = 0 ∧ e = StoreError.invalidArgument := by
  by_cases h : pageSize = 0
  · simp [DatabaseService.getPaginatedDocuments, h]
  · simp only [DatabaseService.getPaginatedDocuments, h, if_false]
    refine ⟨Nat.pos_of_ne_zero h, ?_, ?_⟩
    · simp [pageDocs, List.length_take]
    · simp

/-- When exactly `pageSize` documents remain, `hasMore` is true although the
next page is empty. -/
theorem hasMore_true_on_exact_fit :
    (DatabaseService.getPaginatedDocuments ⟨"items"⟩
        ⟨[⟨"items", "a", []⟩, ⟨"items", "b", []⟩], 2⟩ 2 none)
      = Except.ok ⟨[[("id", Value.str "a")], [("id", Value.str "b")]], some ⟨"b", []⟩, true⟩ ∧
    (DatabaseService.getPaginatedDocuments ⟨"items"⟩
        ⟨[⟨"items", "a", []⟩, ⟨"items", "b", []⟩], 2⟩ 2 (some ⟨"b", []⟩))
      = Except.ok ⟨[], none, false⟩ := by
  constructor <;> rfl

/-! ## String order -/

theorem lexLt_iff (a b : List Char) : lexLt a b = true ↔ a < b := by
  induction a generalizing b with
  | nil =>
    cases b with
    | nil => simp [lexLt]
    | cons y ys => simpa [lexLt] using List.nil_lt_cons y ys
  | cons x xs ih =>
    cases b with
    | nil => simp [lexLt]
    | cons y ys =>
      simp only [lexLt]
      constructor
      · intro h
        by_cases hxy : x < y
        · exact List.Lex.rel hxy
        · by_cases hyx : y < x
          · simp [hxy, hyx] at h
          · simp only [hxy, hyx, if_false] at h
            have hEq : x = y := le_antisymm (not_lt.mp hyx) (not_lt.mp hxy)
            subst hEq
            exact List.Lex.cons ((ih ys).mp h)
      · intro h
        cases h with
        | rel h => simp [h]
        | cons h3 => simp [(ih _).mpr h3]

theorem strLt_iff (a b : String) : strLt a b = true ↔ a < b := by
  rw [String.lt_iff_toList_lt]
  exact lexLt_iff _ _

theorem strLe_iff (a b : String) : strLe a b = true ↔ a ≤ b := by
  rw [← not_lt, ← strLt_iff]
  simp [strLe]

/-! ## Pagination -/

theorem orderByName_perm (docs : List Snapshot) : (orderByName docs).Perm docs :=
  List.perm_insertionSort _ docs

theorem orderByName_sorted (docs : List Snapshot) :
    (orderByName docs).Pairwise (fun a b => a.id ≤ b.id) := by
  have h : List.Sorted (fun a b : Snapshot => strLe a.id b.id = true) (orderByName docs) := by
    haveI : IsTotal Snapshot (fun a b => strLe a.id b.id = true) :=
      ⟨fun a b => by simp only [strLe_iff]; exact le_total _ _⟩
    haveI : IsTrans Snapshot (fun a b => strLe a.id b.id = true) :=
      ⟨fun a b c => by simp only [strLe_iff]; exact le_trans⟩
    exact List.sorted_insertionSort _ docs
  exact List.Pairwise.imp (fun hab => (strLe_iff _ _).mp hab) h

/-- With distinct ids the default order is strictly ascending. -/
theorem orderByName_strict (docs : List Snapshot) (hn : (docs.map (fun d => d.id)).Nodup) :
    (orderByName docs).Pairwise (fun a b => a.id < b.id) := by
  have hs := orderByName_sorted docs
  have hn' : ((orderByName docs).map (fun d => d.id)).Nodup :=
    ((orderByName_perm docs).map _).nodup_iff.mpr hn
  rw [List.Nodup, List.pairwise_map] at hn'
  exact (hs.and hn').imp (fun h => lt_of_le_of_ne h.1 h.2)

/-- In a strictly ascending list, the documents after the cursor are exactly
those that follow it. -/
theorem filter_after_cursor (front back : List Snapshot) (c : Snapshot)
    (h : (front ++ c :: back).Pairwise (fun a b => a.id < b.id)) :
    (front ++ c :: back).filter (fun d => strLt c.id d.id) = back := by
  rw [List.pairwise_append] at h
  obtain ⟨-, hcb, hfc⟩ := h
  rw [List.pairwise_cons] at hcb
  rw [List.filter_append, List.filter_cons]
  have h1 : front.filter (fun d => strLt c.id d.id) = [] := by
    rw [List.filter_eq_nil_iff]
    intro a ha
    have := hfc a ha c (List.mem_cons_self _ _)
    rw [strLt_iff]
    exact not_lt_of_gt this
  have h2 : strLt c.id c.id = false := by
    rw [← Bool.not_eq_true, strLt_iff]
    exact lt_irrefl _
  have h3 : back.filter (fun d => strLt c.id d.id) = back := by
    rw [List.filter_eq_self]
    intro a ha
    rw [strLt_iff]
    exact hcb.1 a ha
  simp [h1, h2, h3]

theorem pageDocs_of_split (svc : DatabaseService) (s : Store) (p : Nat)
    (front back : List Snapshot)
    (hL : orderByName (s.collectionDocs svc.collectionName) = front ++ back)
    (hs : (front ++ back).Pairwise (fun a b => a.id < b.id)) :
    pageDocs svc s p front.getLast? = back.take p := by
  rcases List.eq_nil_or_concat front with rfl | ⟨f, c, rfl⟩
  · simp [pageDocs, hL]
  · have hf : f.concat c ++ back = f ++ c :: back := by simp
    rw [hf] at hs hL
    rw [List.concat_eq_append]
    have hlast : (f ++ [c]).getLast? = some c := by simp
    simp only [pageDocs, hlast, hL]
    rw [filter_after_cursor f back c hs]

theorem paginateAll_from (svc : DatabaseService) (s : Store) (p : Nat) (hp : 0 < p)
    (hs : (orderByName (s.collectionDocs svc.collectionName)).Pairwise (fun a b => a.id < b.id)) :
    ∀ (fuel : Nat) (front back : List Snapshot),
      orderByName (s.collectionDocs svc.collectionName) = front ++ back →
      back.length < fuel →
      ∃ pages, paginateAll svc s p fuel front.getLast? = some pages ∧
        pages.flatMap (fun pg => pg.documents) = back.map render ∧
        pages.map (fun pg => (pg.documents.length, pg.hasMore))
          = expectedPages p fuel back.length := by
  intro fuel
  induction fuel with
  | zero => intro front back _ h; exact absurd h (Nat.not_lt_zero _)
  | succ fuel ih =>
    intro front back hL hlen
    have hp0 : p ≠ 0 := Nat.pos_iff_ne_zero.mp hp
    have hpd := pageDocs_of_split svc s p front back hL (hL ▸ hs)
    by_cases hfull : p ≤ back.length
    · have htl : (back.take p).length = p := by simp [List.length_take, hfull]
      have hne : back.take p ≠ [] := by
        intro e
        rw [e] at htl
        exact hp0 htl.symm
      obtain ⟨c, hc⟩ : ∃ c, (back.take p).getLast? = some c := by
        cases hq : (back.take p).getLast? with
        | none => exact absurd (List.getLast?_eq_none_iff.mp hq) hne
        | some c => exact ⟨c, rfl⟩
      have hL' : orderByName (s.collectionDocs svc.collectionName)
          = (front ++ back.take p) ++ back.drop p := by
        rw [List.append_assoc, List.take_append_drop]
        exact hL
      have hlen' : (back.drop p).length < fuel := by
        rw [List.length_drop]
        omega
      obtain ⟨pages, h1, h2, h3⟩ := ih (front ++ back.take p) (back.drop p) hL' hlen'
      have hcur : (front ++ back.take p).getLast? = some c := by
        rw [List.getLast?_append, hc]
        rfl
      rw [hcur] at h1
      refine ⟨⟨(back.take p).map render, some c, true⟩ :: pages, ?_, ?_, ?_⟩
      · simp only [paginateAll, DatabaseService.getPaginatedDocuments, hp0, if_false, hpd, htl,
          hc, beq_self_eq_true, if_true, h1, Option.map_some']
      · simp only [List.flatMap_cons, h2, ← List.map_append, List.take_append_drop]
      · simp only [List.map_cons, List.length_map, htl, h3, expectedPages, hfull, if_true,
          List.length_drop]
    · have htk : back.take p = back := List.take_of_length_le (by omega)
      have hne : ¬ (back.length = p) := by omega
      refine ⟨[⟨back.map render, back.getLast?, false⟩], ?_, ?_, ?_⟩
      · simp [paginateAll, DatabaseService.getPaginatedDocuments, hp0, hpd, htk, hne]
      · simp
      · simp [expectedPages, hfull]

/-- When the stored data has no field named `id`, the `id` of the returned
object is the document id. -/
theorem idOf_render (d : Snapshot) (h : Obj.get d.data "id" = none) :
    idOf (render d) = some d.id := by
  simp [idOf, render, get_withId_id d.id d.data h]

/-! ## Distinct document ids -/

/-- Writing a document keeps the ids of a collection distinct. -/
theorem nodup_ids_setDoc (s : Store) (collection id : String) (w : WriteData)
    (h : ((s.collectionDocs collection).map (fun d => d.id)).Nodup) :
    (((s.setDoc collection id w).collectionDocs collection).map (fun d => d.id)).Nodup := by
  simp only [Store.collectionDocs, Store.setDoc, putRecord, List.map_map] at h ⊢
  rw [List.filter_cons_of_pos (by simp), List.map_cons, List.nodup_cons]
  constructor
  · intro hm
    obtain ⟨r, hr, hid⟩ := List.mem_map.mp hm
    simp only [List.mem_filter, Record.isAt, Bool.not_eq_true', Bool.and_eq_false_iff,
      beq_eq_false_iff_ne, beq_iff_eq] at hr
    simp only [Function.comp] at hid
    rcases hr.1.2 with hc | hi
    · exact hc hr.2
    · exact hi hid
  · refine List.Nodup.sublist ?_ h
    exact ((List.filter_sublist _).filter _).map _

/-- Method `createDocument` keeps the ids of the collection distinct. -/
theorem nodup_ids_createDocument (svc : DatabaseService) (s : Store) (autoId : String) (d : Obj)
    (h : ((s.collectionDocs svc.collectionName).map (fun d => d.id)).Nodup) :
    (((svc.createDocument s autoId d).2.collectionDocs svc.collectionName).map
      (fun d => d.id)).Nodup := by
  simp only [DatabaseService.createDocument, Store.addDoc]
  by_cases hv : validWrite (createStamps (spread d)) = true
  · simp only [hv, if_true]
    exact nodup_ids_setDoc s _ _ _ h
  · simp only [hv]
    exact h

/-! ## Claim C8 -/

/-- For a collection with distinct document ids whose documents store no field
named `id`, and `pageSize >= 1`, the loop `getPaginatedDocuments(p)`, then
`getPaginatedDocuments(p, lastVisible)` while `hasMore`, ends within `n + 1`
calls; the ids of the documents of its pages, concatenated, are the document ids
of the collection in ascending order, each exactly once; the pages are full with
`hasMore` true until fewer than `p` documents remain; for 25 documents and
`p = 10` the page sizes are 10, 10, 5 and the flags true, true, false. -/
theorem paginateAll_covers (svc : DatabaseService) (s : Store) (p : Nat) (hp : 0 < p)
    (hn : ((s.collectionDocs svc.collectionName).map (fun d => d.id)).Nodup)
    (hid : ∀ d ∈ s.collectionDocs svc.collectionName, Obj.get d.data "id" = none) :
    ∃ pages,
      paginateAll svc s p ((s.collectionDocs svc.collectionName).length + 1) none = some pages ∧
      pages.flatMap (fun pg => pg.documents)
        = (orderByName (s.collectionDocs svc.collectionName)).map render ∧
      (pages.flatMap (fun pg => pg.documents)).map idOf
        = (orderByName (s.collectionDocs svc.collectionName)).map (fun d => some d.id) ∧
      ((pages.flatMap (fun pg => pg.documents)).map idOf).Perm
        ((s.collectionDocs svc.collectionName).map (fun d => some d.id)) ∧
      ((pages.flatMap (fun pg => pg.documents)).map idOf).Nodup ∧
      pages.map (fun pg => (pg.documents.length, pg.hasMore))
        = expectedPages p ((s.collectionDocs svc.collectionName).length + 1)
            (s.collectionDocs svc.collectionName).length ∧
      ((s.collectionDocs svc.collectionName).length = 25 → p = 10 →
        pages.map (fun pg => pg.documents.length) = [10, 10, 5] ∧
        pages.map (fun pg => pg.hasMore) = [true, true, false]) := by
  have hs := orderByName_strict _ hn
  have hperm := orderByName_perm (s.collectionDocs svc.collectionName)
  have hlen : (orderByName (s.collectionDocs svc.collectionName)).length
      = (s.collectionDocs svc.collectionName).length := hperm.length_eq
  obtain ⟨pages, h1, h2, h3⟩ := paginateAll_from svc s p hp hs
    ((s.collectionDocs svc.collectionName).length + 1) []
    (orderByName (s.collectionDocs svc.collectionName)) rfl (by omega)
  rw [hlen] at h3
  have hids : (pages.flatMap (fun pg => pg.documents)).map idOf
      = (orderByName (s.collectionDocs svc.collectionName)).map (fun d => some d.id) := by
    rw [h2, List.map_map]
    apply List.map_congr_left
    intro d hd
    exact idOf_render d (hid d (hperm.mem_iff.mp hd))
  have hnodup : ((s.collectionDocs svc.collectionName).map (fun d => some d.id)).Nodup := by
    have := hn.map (f := some) (Option.some_injective _)
    simpa [List.map_map, Function.comp_def] using this
  refine ⟨pages, h1, h2, hids, ?_, ?_, h3, ?_⟩
  · rw [hids]
    exact hperm.map _
  · rw [hids]
    exact ((hperm.map _).nodup_iff).mpr hnodup
  intro h25 h10
  rw [h25, h10] at h3
  have hsz : pages.map (fun pg => pg.documents.length)
      = (pages.map (fun pg => (pg.documents.length, pg.hasMore))).map Prod.fst := by
    simp [List.map_map, Function.comp_def]
  have hfl : pages.map (fun pg => pg.hasMore)
      = (pages.map (fun pg => (pg.documents.length, pg.hasMore))).map Prod.snd := by
    simp [List.map_map, Function.comp_def]
  rw [hsz, hfl, h3]
  constructor <;> decide

/-- The 25-document fixture read with `pageSize = 10`: three pages of sizes
10, 10, 5 with the flags true, true, false. -/
theorem paginateAll_fixture25 :
    ∃ pages, paginateAll ⟨"items"⟩ fixture25 10 26 none = some pages ∧
      pages.map (fun pg => pg.documents.length) = [10, 10, 5] ∧
      pages.map (fun pg => pg.hasMore) = [true, true, false] := by
  obtain ⟨pages, h1, -, -, -, -, -, h6⟩ :=
    paginateAll_covers ⟨"items"⟩ fixture25 10 (by decide) (by decide) (by decide)
  exact ⟨pages, h1, h6 (by decide) rfl⟩

/-- C8: two documents created with the field map `{ id: "z" }` are stored under
the assigned identifiers `a` and `b`; the pages read back list both, but each
returned object is `{ id: doc.id, ...doc.data() }`, so the ids of the pages'
documents are `z`, `z` and not the ids `a`, `b` of the collection. -/
theorem C8_stored_id_shadows_document_id :
    (shadowedIdFixture.collectionDocs "items").map (fun d => d.id) = ["b", "a"] ∧
    ∃ pages, paginateAll ⟨"items"⟩ shadowedIdFixture 10 3 none = some pages ∧
      pages.map (fun pg => (pg.documents.length, pg.hasMore)) = [(2, false)] ∧
      (pages.flatMap (fun pg => pg.documents)).map idOf = [some "z", some "z"] := by
  refine ⟨by decide, _, rfl, by decide, by decide⟩

/-! ## Prefix search -/

/-- A list between `t` and `t` followed by one more character starts with `t`. -/
theorem prefix_of_range (c : Char) (t v : List Char)
    (h1 : lexLt v t = false) (h2 : lexLt (t ++ [c]) v = false) :
    ∃ r, v = t ++ r ∧ lexLt [c] r = false := by
  induction t generalizing v with
  | nil => exact ⟨v, rfl, by simpa using h2⟩
  | cons x xs ih =>
    cases v with
    | nil => simp [lexLt] at h1
    | cons y ys =>
      simp only [lexLt, List.cons_append] at h1 h2
      by_cases hyx : y < x
      · simp [hyx] at h1
      · by_cases hxy : x < y
        · simp [hxy] at h2
        · simp only [hyx, hxy, if_false] at h1 h2
          have hEq : x = y := le_antisymm (not_lt.mp hyx) (not_lt.mp hxy)
          obtain ⟨r, hr, hc⟩ := ih ys h1 h2
          exact ⟨r, by rw [← hEq, hr]; rfl, hc⟩

/-- Conversely, `t` followed by a remainder not above `[c]` lies in the range. -/
theorem range_of_prefix (c : Char) (t r : List Char) (h : lexLt [c] r = false) :
    lexLt (t ++ r) t = false ∧ lexLt (t ++ [c]) (t ++ r) = false := by
  induction t with
  | nil =>
    refine ⟨?_, by simpa using h⟩
    cases r <;> simp [lexLt]
  | cons x xs ih => simpa [lexLt, lt_irrefl] using ih

theorem get_withId_of_some (i : String) (fields : Obj) (k : String) (v : Value)
    (h : Obj.get fields k = some v) : Obj.get (withId i fields) k = some v := by
  rw [withId, Obj.get_append, h]
  rfl

/-- A field path of one name reads that property. -/
theorem getPath_single (o : Obj) (k : String) : Obj.getPath o [k] = Obj.get o k := by
  simp only [Obj.getPath]
  cases Obj.get o k <;> rfl

/-- A value found at a path of the stored data is found at the same path of the
returned object. -/
theorem getPath_withId_of_some (i : String) (fields : Obj) (path : List String) (v : Value)
    (h : Obj.getPath fields path = some v) : Obj.getPath (withId i fields) path = some v := by
  cases path with
  | nil => simp [Obj.getPath] at h
  | cons k rest =>
    simp only [Obj.getPath] at h ⊢
    cases hk : Obj.get fields k with
    | none => simp [hk] at h
    | some child =>
      rw [get_withId_of_some i fields k child hk]
      simpa [hk] using h

/-- Every document returned by `searchDocuments` is a document of the collection
that passes both range filters at the parsed field path. -/
theorem mem_searchDocuments (svc : DatabaseService) (s : Store) (field term : String)
    (limitCount : Nat) (docs : List Obj)
    (h : svc.searchDocuments s field term limitCount = Except.ok docs) (o : Obj) (ho : o ∈ docs) :
    ∃ path, fieldPathFromDotSeparatedString field = Except.ok path ∧
      ∃ d ∈ s.collectionDocs svc.collectionName,
        inSearchRange term (fieldValue d path) = true ∧ o = render d := by
  simp only [DatabaseService.searchDocuments] at h
  cases hp : fieldPathFromDotSeparatedString field with
  | error e => simp [hp] at h
  | ok path =>
    simp only [hp] at h
    refine ⟨path, rfl, ?_⟩
    split at h
    · cases h
    · split at h
      · cases h
      · cases h
        obtain ⟨d, hd, rfl⟩ := List.mem_map.mp ho
        have hd' := (List.perm_insertionSort _ _).mem_iff.mp (List.mem_of_mem_take hd)
        rw [List.mem_filter] at hd'
        exact ⟨d, hd'.1, hd'.2, rfl⟩

/-- The range filters accept exactly the strings that start with the term and
whose remainder is not above the single character U+F8FF. -/
theorem inSearchRange_iff (term v : String) :
    inSearchRange term (some (Value.str v)) = true ↔
      ∃ rest, v = term ++ rest ∧ rest ≤ searchSentinel := by
  constructor
  · intro h
    simp only [inSearchRange, Bool.and_eq_true] at h
    have h1 : lexLt v.toList term.toList = false := by
      simpa [strLe, strLt] using h.1
    have h2 : lexLt (term.toList ++ [Char.ofNat 0xF8FF]) v.toList = false := by
      simpa [strLe, strLt, searchSentinel] using h.2
    obtain ⟨r, hr, hc⟩ := prefix_of_range _ _ _ h1 h2
    refine ⟨String.mk r, ?_, ?_⟩
    · apply String.ext
      simpa using hr
    · rw [← strLe_iff]
      simpa [strLe, strLt, searchSentinel] using hc
  · rintro ⟨rest, rfl, hle⟩
    rw [← strLe_iff] at hle
    have hc : lexLt [Char.ofNat 0xF8FF] rest.toList = false := by
      simpa [strLe, strLt, searchSentinel] using hle
    obtain ⟨h1, h2⟩ := range_of_prefix _ term.toList rest.toList hc
    simp only [inSearchRange, strLe, strLt, searchSentinel, String.toList, String.data_append,
      String.singleton, String.data_push] at h1 h2 ⊢
    simp [h1, h2]

/-- Only a string value passes the range filters. -/
theorem inSearchRange_str (term : String) (value : Option Value)
    (h : inSearchRange term value = true) : ∃ v, value = some (Value.str v) := by
  cases value with
  | none => simp [inSearchRange] at h
  | some val =>
    cases val with
    | str v => exact ⟨v, rfl⟩
    | null => simp [inSearchRange] at h
    | bool b => simp [inSearchRange] at h
    | num n => simp [inSearchRange] at h
    | timestamp t => simp [inSearchRange] at h
    | schema fs => simp [inSearchRange] at h
    | host n => simp [inSearchRange] at h
    | emptyMap => simp [inSearchRange] at h
    | entry k x rest => simp [inSearchRange] at h

/-! ## Claim C9 -/

/-- C9, as stated, fails: the upper filter is `<=`, so the value `Jo` followed by
U+F8FF is returned although it is not below `term + U+F8FF`. -/
theorem C9_upper_bound_inclusive :
    ¬ (∀ docs, DatabaseService.searchDocuments ⟨"people"⟩ sentinelFixture "name" "Jo" 10
          = Except.ok docs →
        ∀ o ∈ docs, ∃ v, Obj.get o "name" = some (Value.str v) ∧ "Jo" ≤ v ∧
          v < "Jo" ++ searchSentinel) := by
  intro h
  obtain ⟨v, hv, -, hlt⟩ :=
    h [[("name", Value.str ("Jo" ++ searchSentinel)), ("id", Value.str "p1")]] rfl
      [("name", Value.str ("Jo" ++ searchSentinel)), ("id", Value.str "p1")]
      (List.mem_singleton.mpr rfl)
  simp only [Obj.get, if_true, Option.some.injEq, Value.str.injEq] at hv
  subst hv
  exact lt_irrefl _ hlt

/-- C9, amended: every object returned by `searchDocuments(field, term)` is a
document of the collection whose value `v` at that field (the stored value at
the dotted field path, or the document id for `__name__`) is a string in the
closed range `term <= v <= term + U+F8FF`, and `v` starts with `term`; for a
stored field the returned object shows `v` at the same path, which for a name
without a dot is the property of that name. -/
theorem C9_search_range (svc : DatabaseService) (s : Store) (field term : String)
    (limitCount : Nat) (docs : List Obj)
    (h : svc.searchDocuments s field term limitCount = Except.ok docs) (o : Obj) (ho : o ∈ docs) :
    ∃ path d v, fieldPathFromDotSeparatedString field = Except.ok path ∧
      d ∈ s.collectionDocs svc.collectionName ∧ o = render d ∧
      fieldValue d path = some (Value.str v) ∧
      (path ≠ ["__name__"] → Obj.getPath o path = some (Value.str v)) ∧
      (path = [field] → field ≠ "__name__" → Obj.get o field = some (Value.str v)) ∧
      term ≤ v ∧ v ≤ term ++ searchSentinel ∧ ∃ rest, v = term ++ rest := by
  obtain ⟨path, hp, d, hd, hr, rfl⟩ := mem_searchDocuments svc s field term limitCount docs h o ho
  obtain ⟨v, hv⟩ := inSearchRange_str term _ hr
  rw [hv] at hr
  have hrange := hr
  simp only [inSearchRange, Bool.and_eq_true] at hrange
  obtain ⟨rest, hrest, -⟩ := (inSearchRange_iff term v).mp hr
  have hstored : path ≠ ["__name__"] → Obj.getPath (render d) path = some (Value.str v) := by
    intro hkey
    simp only [fieldValue, hkey, if_false] at hv
    exact getPath_withId_of_some _ _ _ _ hv
  refine ⟨path, d, v, hp, hd, rfl, hv, hstored, ?_, (strLe_iff _ _).mp hrange.1,
    (strLe_iff _ _).mp hrange.2, rest, hrest⟩
  intro hpf hne
  have hkey : path ≠ ["__name__"] := by
    rw [hpf]
    intro e
    exact hne (List.singleton_inj.mp e)
  have := hstored hkey
  rw [hpf, getPath_single] at this
  exact this

/-- Witness of `C9_search_range`: the Joe document of the three-name fixture. -/
theorem C9_search_range_witness :
    ∃ path d v, fieldPathFromDotSeparatedString "name" = Except.ok path ∧
      d ∈ peopleFixture.collectionDocs "people" ∧
      [("name", Value.str "Joe"), ("id", Value.str "p1")] = render d ∧
      fieldValue d path = some (Value.str v) ∧
      (path ≠ ["__name__"] →
        Obj.getPath [("name", Value.str "Joe"), ("id", Value.str "p1")] path
          = some (Value.str v)) ∧
      (path = ["name"] → "name" ≠ "__name__" →
        Obj.get [("name", Value.str "Joe"), ("id", Value.str "p1")] "name"
          = some (Value.str v)) ∧
      "Jo" ≤ v ∧ v ≤ "Jo" ++ searchSentinel ∧ ∃ rest, v = "Jo" ++ rest :=
  C9_search_range ⟨"people"⟩ peopleFixture "name" "Jo" 10
    [[("name", Value.str "Joe"), ("id", Value.str "p1")],
     [("name", Value.str "John"), ("id", Value.str "p2")]] rfl
    [("name", Value.str "Joe"), ("id", Value.str "p1")] (by decide)

/-- A search on the document id returns the documents whose id starts with the
term, and a search on a dotted name reads the nested field. -/
theorem searchDocuments_field_paths :
    DatabaseService.searchDocuments ⟨"people"⟩ peopleFixture "__name__" "p1" 10
      = Except.ok [[("name", Value.str "Joe"), ("id", Value.str "p1")]] ∧
    DatabaseService.searchDocuments ⟨"people"⟩
        ⟨[⟨"people", "p1", [("name", Value.entry "first" (Value.str "Joe") Value.emptyMap)]⟩], 1⟩
        "name.first" "Jo" 10
      = Except.ok [[("name", Value.entry "first" (Value.str "Joe") Value.emptyMap),
          ("id", Value.str "p1")]] ∧
    DatabaseService.searchDocuments ⟨"people"⟩ peopleFixture "na~me" "Jo" 10
      = Except.error StoreError.invalidArgument ∧
    DatabaseService.searchDocuments ⟨"people"⟩ peopleFixture "" "Jo" 10
      = Except.error StoreError.invalidArgument := by
  refine ⟨rfl, rfl, rfl, rfl⟩

/-! ## Claim C10 -/

/-- C10, as stated, fails: a `name` that starts with `Jo` followed by U+FFFF is
not returned by the default search for `Jo`; and of eleven documents named `Jo`
the default search returns ten. -/
theorem C10_prefix_match_missed :
    ¬ (∀ docs, DatabaseService.searchDocuments ⟨"people"⟩ highFixture "name" "Jo"
          defaultLimitCount = Except.ok docs →
        ∀ d ∈ highFixture.collectionDocs "people",
          (∃ v rest, Obj.get d.data "name" = some (Value.str v) ∧ v = "Jo" ++ rest) →
          render d ∈ docs) ∧
    (∃ docs, DatabaseService.searchDocuments ⟨"people"⟩ elevenFixture "name" "Jo"
          defaultLimitCount = Except.ok docs ∧ docs.length = 10 ∧
        (elevenFixture.collectionDocs "people").length = 11) := by
  constructor
  · intro h
    have hm := h [] rfl ⟨"p1", [("name", Value.str ("Jo" ++ String.singleton (Char.ofNat 0xFFFF)))]⟩
      (by decide) ⟨_, String.singleton (Char.ofNat 0xFFFF), rfl, rfl⟩
    cases hm
  · exact ⟨_, rfl, by decide, by decide⟩

/-- C10, amended: for a field name that is a dotted field path (segments not
empty, without `~`, `*`, `/`, `[`, `]`) none of whose segments is reserved, the
default `searchDocuments(field, term)` returns at most 10 documents, each a
document of the collection whose value at that path is a string that starts with
`term` with a remainder not above U+F8FF (empty, or beginning with a code point
below U+F8FF, or U+F8FF alone); when at most 10 documents have such a value, it
returns exactly those documents, each once; over the names Joe, John, Amy and the
term Jo it returns exactly Joe and John. -/
theorem C10_search_default (svc : DatabaseService) (s : Store) (field term : String)
    (path : List String) (hpath : fieldPathFromDotSeparatedString field = Except.ok path)
    (hplain : ∀ segment ∈ path, reservedFieldName segment = false) :
    ∃ docs, svc.searchDocuments s field term defaultLimitCount = Except.ok docs ∧
      docs.length ≤ 10 ∧
      (∀ o ∈ docs, ∃ d ∈ s.collectionDocs svc.collectionName, o = render d ∧
        ∃ v rest, Obj.getPath d.data path = some (Value.str v) ∧ v = term ++ rest ∧
          rest ≤ searchSentinel) ∧
      (((s.collectionDocs svc.collectionName).filter
          (fun d => inSearchRange term (Obj.getPath d.data path))).length ≤ 10 →
        docs.Perm (((s.collectionDocs svc.collectionName).filter
          (fun d => inSearchRange term (Obj.getPath d.data path))).map render)) ∧
      (∀ v, inSearchRange term (some (Value.str v)) = true ↔
        ∃ rest, v = term ++ rest ∧ rest ≤ searchSentinel) ∧
      DatabaseService.searchDocuments ⟨"people"⟩ peopleFixture "name" "Jo" defaultLimitCount
        = Except.ok [[("name", Value.str "Joe"), ("id", Value.str "p1")],
                     [("name", Value.str "John"), ("id", Value.str "p2")]] := by
  have hkey : path ≠ ["__name__"] := by
    intro e
    have := hplain "__name__" (by rw [e]; exact List.mem_singleton.mpr rfl)
    revert this
    decide
  have hfv : ∀ d : Snapshot, fieldValue d path = Obj.getPath d.data path := by
    intro d
    simp [fieldValue, hkey]
  have hcall : svc.searchDocuments s field term defaultLimitCount
      = Except.ok
          ((((s.collectionDocs svc.collectionName).filter
              (fun d => inSearchRange term (Obj.getPath d.data path))).insertionSort
            (fun a b => searchOrder path a b = true)).take defaultLimitCount |>.map render) := by
    simp [DatabaseService.searchDocuments, hpath, hkey, defaultLimitCount, hfv]
  refine ⟨_, hcall, ?_, ?_, ?_, inSearchRange_iff term, rfl⟩
  · simp only [List.length_map, List.length_take, defaultLimitCount]
    exact Nat.min_le_left _ _
  · intro o ho
    obtain ⟨d, hd, rfl⟩ := List.mem_map.mp ho
    have hd' := (List.perm_insertionSort _ _).mem_iff.mp (List.mem_of_mem_take hd)
    rw [List.mem_filter] at hd'
    refine ⟨d, hd'.1, rfl, ?_⟩
    obtain ⟨v, hv⟩ := inSearchRange_str term _ hd'.2
    have hr := hd'.2
    rw [hv] at hr
    obtain ⟨rest, h1, h2⟩ := (inSearchRange_iff term v).mp hr
    exact ⟨v, rest, hv, h1, h2⟩
  · intro hlen
    apply List.Perm.map
    rw [List.take_of_length_le]
    · exact List.perm_insertionSort _ _
    · rw [(List.perm_insertionSort _ _).length_eq]
      exact hlen

/-- Witness of `C10_search_default`: the three-name fixture searched by `name`. -/
theorem C10_search_default_witness :
    ∃ docs, DatabaseService.searchDocuments ⟨"people"⟩ peopleFixture "name" "Jo"
        defaultLimitCount = Except.ok docs ∧
      docs = [[("name", Value.str "Joe"), ("id", Value.str "p1")],
              [("name", Value.str "John"), ("id", Value.str "p2")]] := by
  obtain ⟨docs, h1, -, -, -, -, h6⟩ :=
    C10_search_default ⟨"people"⟩ peopleFixture "name" "Jo" ["name"] rfl (by decide)
  rw [h1] at h6
  exact ⟨docs, h1, by injection h6⟩

/-! ## Decimal strings -/

theorem digitValue_digitChar (d : Nat) (h : d < 10) :
    digitValue 10 (Nat.digitChar d) = some d ∧ isJsWhitespace (Nat.digitChar d) = false ∧
      Nat.digitChar d ≠ '-' ∧ Nat.digitChar d ≠ '+' ∧ Nat.digitChar d ≠ 'x' ∧
      Nat.digitChar d ≠ 'X' := by
  interval_cases d <;> decide

theorem toDigitsCore_append (fuel n : Nat) (ds : List Char) :
    Nat.toDigitsCore 10 fuel n ds = Nat.toDigitsCore 10 fuel n [] ++ ds := by
  induction fuel generalizing n ds with
  | zero => simp [Nat.toDigitsCore]
  | succ fuel ih =>
    simp only [Nat.toDigitsCore]
    split
    · simp
    · rw [ih, ih (n / 10) [_]]
      simp

theorem parseDigits_toDigitsCore (fuel n : Nat) (rest : List Char) (h : n < fuel) :
    parseDigits 10 (Nat.toDigitsCore 10 fuel n [] ++ rest) none
      = parseDigits 10 rest (some n) := by
  induction fuel generalizing n rest with
  | zero => exact absurd h (Nat.not_lt_zero _)
  | succ fuel ih =>
    simp only [Nat.toDigitsCore]
    have hd := (digitValue_digitChar (n % 10) (Nat.mod_lt _ (by decide))).1
    split
    · next h0 =>
      have : n % 10 = n := by omega
      rw [this] at hd ⊢
      simp [parseDigits, hd]
    · next h0 =>
      rw [toDigitsCore_append, List.append_assoc, ih (n / 10) _ (by omega)]
      simp only [List.singleton_append, parseDigits, hd, Option.getD_some]
      congr 2
      omega

theorem mem_toDigitsCore (fuel n : Nat) (ds : List Char) (c : Char)
    (h : c ∈ Nat.toDigitsCore 10 fuel n ds) : (∃ d, d < 10 ∧ c = Nat.digitChar d) ∨ c ∈ ds := by
  induction fuel generalizing n ds with
  | zero => exact Or.inr (by simpa [Nat.toDigitsCore] using h)
  | succ fuel ih =>
    simp only [Nat.toDigitsCore] at h
    split at h
    · rcases List.mem_cons.mp h with h | h
      · exact Or.inl ⟨n % 10, Nat.mod_lt _ (by decide), h⟩
      · exact Or.inr h
    · rcases ih _ _ h with h | h
      · exact Or.inl h
      · rcases List.mem_cons.mp h with h | h
        · exact Or.inl ⟨n % 10, Nat.mod_lt _ (by decide), h⟩
        · exact Or.inr h

theorem toDigits_ne_nil (n : Nat) : Nat.toDigits 10 n ≠ [] := by
  intro h
  have := parseDigits_toDigitsCore (n + 1) n [] (Nat.lt_succ_self _)
  rw [Nat.toDigits] at h
  rw [h] at this
  simp [parseDigits] at this

/-- Reading back the decimal string of a natural number gives the number. -/
theorem parseInt_numberToString (k : Nat) : parseInt (numberToString (k : Int)) = some (k : Int) := by
  have hs : (numberToString (k : Int)).toList = Nat.toDigits 10 k := by
    have hk : ¬ ((k : Int) < 0) := by omega
    simp [numberToString, Nat.repr, List.asString, hk]
  have hval : parseDigits 10 (Nat.toDigits 10 k) none = some k := by
    have := parseDigits_toDigitsCore (k + 1) k [] (Nat.lt_succ_self _)
    simpa [Nat.toDigits, parseDigits] using this
  have hmem : ∀ c ∈ Nat.toDigits 10 k, ∃ d, d < 10 ∧ c = Nat.digitChar d := by
    intro c hc
    rcases mem_toDigitsCore _ _ _ _ hc with h | h
    · exact h
    · cases h
  unfold parseInt
  rw [hs]
  cases hl : Nat.toDigits 10 k with
  | nil => exact absurd hl (toDigits_ne_nil k)
  | cons c rest =>
    rw [hl] at hmem hval
    obtain ⟨d, hd, rfl⟩ := hmem c (List.mem_cons_self _ _)
    obtain ⟨-, hw, hm, hp, -, -⟩ := digitValue_digitChar d hd
    have hrest : ∀ r, rest ≠ 'x' :: r ∧ rest ≠ 'X' :: r := by
      intro r
      constructor
      · intro e
        obtain ⟨d', hd', he⟩ := hmem 'x' (by rw [e]; simp)
        exact (digitValue_digitChar d' hd').2.2.2.2.1 he.symm
      · intro e
        obtain ⟨d', hd', he⟩ := hmem 'X' (by rw [e]; simp)
        exact (digitValue_digitChar d' hd').2.2.2.2.2 he.symm
    simp only [List.dropWhile_cons, hw]
    split
    · next r heq => simp at heq; exact absurd heq.1 hm
    · next r heq => simp at heq; exact absurd heq.1 hp
    · dsimp only
      split
      · next r heq => simp at heq; exact absurd heq.2 (hrest r).1
      · next r heq => simp at heq; exact absurd heq.2 (hrest r).2
      · simp [hval]

/-! ## Storage listing pages -/

theorem numberToString_ne_empty (k : Nat) : numberToString (k : Int) ≠ "" := by
  intro h
  have hs : (numberToString (k : Int)).toList = Nat.toDigits 10 k := by
    have hk : ¬ ((k : Int) < 0) := by omega
    simp [numberToString, Nat.repr, List.asString, hk]
  rw [h] at hs
  exact toDigits_ne_nil k hs.symm

theorem jsSlice_nat {α : Type} (xs : List α) (k p : Nat) :
    jsSlice xs (some (k : Int)) (some ((k : Int) + (p : Int))) = (xs.drop k).take p := by
  have h1 : ¬ ((k : Int) < 0) := by omega
  have h2 : ¬ ((k : Int) + (p : Int) < 0) := by omega
  have h3 : ((k : Int) + (p : Int)).toNat = k + p := by omega
  simp only [jsSlice, sliceIndex, h1, h2, if_false, Int.toNat_ofNat, h3]
  by_cases hk : k ≤ xs.length
  · rw [Nat.min_eq_left hk, List.take_eq_take]
    simp only [List.length_drop]
    omega
  · have hk' : xs.length ≤ k := by omega
    rw [List.drop_eq_nil_of_le hk', List.drop_eq_nil_of_le (by rw [Nat.min_eq_right hk'])]
    simp

/-- One call of `listFiles` at start index `k`: the page is the next `pageSize`
files, and the token is the decimal string of `k + pageSize` unless the page
reaches the end of the listing. -/
theorem listFiles_at {α : Type} (svc : StorageService) (listing : String → List α)
    (path : String) (p k : Nat) (token : Option String)
    (ht : (token = none ∧ k = 0) ∨ token = some (numberToString (k : Int))) :
    svc.listFiles listing path p token
      = ⟨((listing (svc.collectionName ++ "/" ++ path)).drop k).take p,
          if k + p < (listing (svc.collectionName ++ "/" ++ path)).length
          then some (numberToString ((k + p : Nat) : Int)) else none⟩ := by
  have hstart : startIndexOf token = some (k : Int) := by
    rcases ht with ⟨rfl, rfl⟩ | rfl
    · rfl
    · simp [startIndexOf, numberToString_ne_empty, parseInt_numberToString]
  simp only [StorageService.listFiles, hstart, Option.map_some', jsSlice_nat]
  congr 1
  by_cases h : k + p < (listing (svc.collectionName ++ "/" ++ path)).length
  · have h' : (k : Int) + (p : Int) < ((listing (svc.collectionName ++ "/" ++ path)).length : Int) := by
      omega
    simp [h, h']
  · have h' : ¬ ((k : Int) + (p : Int) < ((listing (svc.collectionName ++ "/" ++ path)).length : Int)) := by
      omega
    simp [h, h']

theorem listAllPages_from {α : Type} (svc : StorageService) (listing : String → List α)
    (path : String) (p : Nat) (hp : 0 < p) :
    ∀ (fuel k : Nat) (token : Option String),
      ((token = none ∧ k = 0) ∨ token = some (numberToString (k : Int))) →
      (listing (svc.collectionName ++ "/" ++ path)).length - k < fuel →
      ∃ pages, listAllPages svc listing path p fuel token = some pages ∧
        pages.flatMap (fun pg => pg.files)
          = (listing (svc.collectionName ++ "/" ++ path)).drop k ∧
        (∀ pg ∈ pages.dropLast, pg.nextPageToken.isSome = true) ∧
        pages.getLast?.map (fun pg => pg.nextPageToken) = some none := by
  intro fuel
  induction fuel with
  | zero => intro k token _ h; exact absurd h (Nat.not_lt_zero _)
  | succ fuel ih =>
    intro k token ht hlen
    have hpage := listFiles_at svc listing path p k token ht
    by_cases h : k + p < (listing (svc.collectionName ++ "/" ++ path)).length
    · rw [if_pos h] at hpage
      obtain ⟨pages, h1, h2, h3, h4⟩ :=
        ih (k + p) (some (numberToString ((k + p : Nat) : Int))) (Or.inr rfl) (by omega)
      have hne : pages ≠ [] := by
        intro e
        rw [e] at h4
        cases h4
      refine ⟨svc.listFiles listing path p token :: pages, ?_, ?_, ?_, ?_⟩
      · simp only [listAllPages, hpage, h1, Option.map_some']
      · simp only [List.flatMap_cons, h2, hpage]
        rw [← List.drop_drop, List.take_append_drop]
      · rw [List.dropLast_cons_of_ne_nil hne]
        intro pg hpg
        rcases List.mem_cons.mp hpg with rfl | hpg
        · rw [hpage]
          rfl
        · exact h3 pg hpg
      · cases pages with
        | nil => exact absurd rfl hne
        | cons q qs =>
          rw [List.getLast?_cons_cons]
          exact h4
    · rw [if_neg h] at hpage
      refine ⟨[svc.listFiles listing path p token], ?_, ?_, ?_, ?_⟩
      · simp only [listAllPages, hpage]
      · simp only [List.flatMap_cons, List.flatMap_nil, List.append_nil, hpage]
        apply List.take_of_length_le
        rw [List.length_drop]
        omega
      · simp
      · simp [hpage]

/-- In the pages read from start index `k`, the token is null on a page exactly
when the files read up to and including that page reach the end of the
listing. -/
theorem listAllPages_end {α : Type} (svc : StorageService) (listing : String → List α)
    (path : String) (p : Nat) (hp : 0 < p) :
    ∀ (fuel k : Nat) (token : Option String),
      ((token = none ∧ k = 0) ∨ token = some (numberToString (k : Int))) →
      k ≤ (listing (svc.collectionName ++ "/" ++ path)).length →
      (listing (svc.collectionName ++ "/" ++ path)).length - k < fuel →
      ∃ pages, listAllPages svc listing path p fuel token = some pages ∧
        ∀ front pg back, pages = front ++ pg :: back →
          (pg.nextPageToken = none ↔
            k + ((front ++ [pg]).flatMap (fun q => q.files)).length
              = (listing (svc.collectionName ++ "/" ++ path)).length) := by
  intro fuel
  induction fuel with
  | zero => intro k token _ _ h; exact absurd h (Nat.not_lt_zero _)
  | succ fuel ih =>
    intro k token ht hk hlen
    have hpage := listFiles_at svc listing path p k token ht
    by_cases h : k + p < (listing (svc.collectionName ++ "/" ++ path)).length
    · rw [if_pos h] at hpage
      obtain ⟨pages, h1, h2⟩ :=
        ih (k + p) (some (numberToString ((k + p : Nat) : Int))) (Or.inr rfl) (by omega)
          (by omega)
      have hsize : (svc.listFiles listing path p token).files.length = p := by
        rw [hpage]
        simp only [List.length_take, List.length_drop]
        omega
      have htok : (svc.listFiles listing path p token).nextPageToken ≠ none := by
        rw [hpage]
        simp
      refine ⟨svc.listFiles listing path p token :: pages, ?_, ?_⟩
      · simp only [listAllPages, hpage, h1, Option.map_some']
      · intro front pg back hsplit
        cases front with
        | nil =>
          simp only [List.nil_append, List.cons.injEq] at hsplit
          obtain ⟨rfl, -⟩ := hsplit
          simp only [List.nil_append, List.flatMap_cons, List.flatMap_nil, List.append_nil, hsize]
          constructor
          · intro e
            exact absurd e htok
          · intro e
            omega
        | cons f front' =>
          simp only [List.cons_append, List.cons.injEq] at hsplit
          obtain ⟨rfl, hrest⟩ := hsplit
          rw [h2 front' pg back hrest]
          simp only [List.cons_append, List.flatMap_cons, List.length_append, hsize]
          omega
    · rw [if_neg h] at hpage
      refine ⟨[svc.listFiles listing path p token], ?_, ?_⟩
      · simp only [listAllPages, hpage]
      · intro front pg back hsplit
        cases front with
        | nil =>
          simp only [List.nil_append, List.cons.injEq] at hsplit
          obtain ⟨rfl, -⟩ := hsplit
          simp only [List.nil_append, List.flatMap_cons, List.flatMap_nil, List.append_nil]
          rw [hpage]
          simp only [List.length_take, List.length_drop, true_iff]
          omega
        | cons f front' =>
          simp only [List.cons_append, List.cons.injEq] at hsplit
          have := hsplit.2
          cases front' <;> simp at this

/-! ## Claim C11 -/

/-- C11: for every listing and every `pageSize >= 1`, calling `listFiles` with
`pageToken` null and then with each returned `nextPageToken` until it is null
ends within `n + 1` calls; the pages concatenated are the full listing in order;
every page but the last carries a token and the last page carries null; and the
token of a page is null exactly when the files of the pages up to and including
it are all `n` files of the listing, that is, on the page that reaches the end
of the listing. -/
theorem C11_listFiles_pages_cover {α : Type} (svc : StorageService) (listing : String → List α)
    (path : String) (pageSize : Nat) (hp : 0 < pageSize) :
    ∃ pages,
      listAllPages svc listing path pageSize
          ((listing (svc.collectionName ++ "/" ++ path)).length + 1) none = some pages ∧
      pages.flatMap (fun pg => pg.files) = listing (svc.collectionName ++ "/" ++ path) ∧
      (∀ pg ∈ pages.dropLast, pg.nextPageToken.isSome = true) ∧
      pages.getLast?.map (fun pg => pg.nextPageToken) = some none ∧
      (∀ front pg back, pages = front ++ pg :: back →
        (pg.nextPageToken = none ↔
          ((front ++ [pg]).flatMap (fun q => q.files)).length
            = (listing (svc.collectionName ++ "/" ++ path)).length)) := by
  obtain ⟨pages, h1, h2, h3, h4⟩ := listAllPages_from svc listing path pageSize hp
    ((listing (svc.collectionName ++ "/" ++ path)).length + 1) 0 none (Or.inl ⟨rfl, rfl⟩)
    (by omega)
  obtain ⟨pages', h1', h5⟩ := listAllPages_end svc listing path pageSize hp
    ((listing (svc.collectionName ++ "/" ++ path)).length + 1) 0 none (Or.inl ⟨rfl, rfl⟩)
    (Nat.zero_le _) (by omega)
  have hsame : pages' = pages := Option.some.inj (h1'.symm.trans h1)
  subst hsame
  refine ⟨pages', h1, by simpa using h2, h3, h4, ?_⟩
  intro front pg back hsplit
  simpa using h5 front pg back hsplit

/-- Witness of `C11_listFiles_pages_cover`: five files read two at a time. -/
theorem C11_listFiles_pages_cover_witness :
    ∃ pages,
      listAllPages ⟨"docs"⟩ (fun _ => ["a", "b", "c", "d", "e"]) "" 2 6 none = some pages ∧
      pages.flatMap (fun pg => pg.files) = ["a", "b", "c", "d", "e"] ∧
      (∀ pg ∈ pages.dropLast, pg.nextPageToken.isSome = true) ∧
      pages.getLast?.map (fun pg => pg.nextPageToken) = some none ∧
      (∀ front pg back, pages = front ++ pg :: back →
        (pg.nextPageToken = none ↔
          ((front ++ [pg]).flatMap (fun q => q.files)).length = 5)) :=
  C11_listFiles_pages_cover ⟨"docs"⟩ (fun _ => ["a", "b", "c", "d", "e"]) "" 2 (by decide)

/-- Four files read two at a time: the second page reaches the end of the
listing and carries the null token, so the listing takes two calls. -/
theorem listFiles_exact_fit :
    listAllPages ⟨"docs"⟩ (fun _ => ["a", "b", "c", "d"]) "" 2 5 none
      = some [⟨["a", "b"], some "2"⟩, ⟨["c", "d"], none⟩] := by
  rfl

/-! ## Claims C12, C13 and C14 -/

/-- C12, as stated, fails: in a schema with two fields of the id `age`, the
second one required, `validateField` looks up the first definition, which is not
required, and returns the empty string for the empty value. -/
theorem C12_second_field_of_an_id_not_checked :
    ¬ (∀ (env : Builtins) (schema : List SchemaField) (f : SchemaField) (value : Option Value),
        f ∈ schema → f.required = true →
        (value = none ∨ value = some Value.null ∨ value = some (Value.str "")) →
        validateField env schema f.id value ≠ "") := by
  intro h
  exact h ⟨fun _ => false, fun _ => false⟩
    [⟨"age", "Age", "text", false⟩, ⟨"age", "age", "number", true⟩]
    ⟨"age", "age", "number", true⟩ (some (Value.str "")) (by decide) rfl
    (Or.inr (Or.inr rfl)) (by decide)

/-- C12, amended: when the field definition that `validateField` looks up for
the id (the first field of the schema with that id) is marked required, whatever
its type, and the value is `undefined`, `null` or the empty string, the result is
the message `This field is required`, which is not empty. -/
theorem C12_required_empty_rejected (env : Builtins) (schema : List SchemaField)
    (field : String) (value : Option Value) (fieldSchema : SchemaField)
    (hfind : schema.find? (fun f => f.id == field) = some fieldSchema)
    (hreq : fieldSchema.required = true)
    (hempty : value = none ∨ value = some Value.null ∨ value = some (Value.str "")) :
    validateField env schema field value = "This field is required" ∧
    validateField env schema field value ≠ "" := by
  have ht : truthy value = false := by
    rcases hempty with rfl | rfl | rfl <;> rfl
  have h : validateField env schema field value = "This field is required" := by
    simp [validateField, hfind, hreq, ht]
  exact ⟨h, by rw [h]; decide⟩

/-- Witness of `C12_required_empty_rejected`: a required date field left empty. -/
theorem C12_required_empty_rejected_witness :
    validateField ⟨fun _ => false, fun _ => false⟩ [⟨"due", "Due", "date", true⟩] "due"
        (some (Value.str "")) = "This field is required" ∧
    validateField ⟨fun _ => false, fun _ => false⟩ [⟨"due", "Due", "date", true⟩] "due"
        (some (Value.str "")) ≠ "" :=
  C12_required_empty_rejected ⟨fun _ => false, fun _ => false⟩ [⟨"due", "Due", "date", true⟩]
    "due" (some (Value.str "")) ⟨"due", "Due", "date", true⟩ rfl rfl (Or.inr (Or.inr rfl))

/-- With distinct field ids, every field of the schema is the one that
`validateField` looks up for its id. -/
theorem find_of_mem_nodup (schema : List SchemaField) (f : SchemaField) (hf : f ∈ schema)
    (hn : (schema.map (fun g => g.id)).Nodup) :
    schema.find? (fun g => g.id == f.id) = some f := by
  induction schema with
  | nil => cases hf
  | cons g rest ih =>
    rw [List.map_cons, List.nodup_cons] at hn
    rcases List.mem_cons.mp hf with rfl | hm
    · simp
    · have hne : ¬ (g.id = f.id) := by
        intro e
        exact hn.1 (e ▸ List.mem_map_of_mem (fun g => g.id) hm)
      have hb : (g.id == f.id) = false := by simpa using hne
      rw [List.find?_cons, hb]
      exact ih hm hn.2

/-- A boolean field that is not required passes exactly for `true` and `false`. -/
theorem validateField_boolean_optional (env : Builtins) (schema : List SchemaField)
    (field : String) (value : Option Value) (fieldSchema : SchemaField)
    (hfind : schema.find? (fun f => f.id == field) = some fieldSchema)
    (htype : fieldSchema.type = "boolean") (hreq : fieldSchema.required = false) :
    validateField env schema field value = "" ↔
      (value = some (Value.bool true) ∨ value = some (Value.bool false)) := by
  simp only [validateField, hfind, hreq, htype, Bool.false_and, Bool.false_eq_true, if_false]
  simp only [if_neg (show ¬ ("boolean" = "number") by decide),
    if_neg (show ¬ ("boolean" = "date") by decide), if_true]
  by_cases h1 : value = some (Value.bool true)
  · simp [h1]
  · by_cases h2 : value = some (Value.bool false)
    · simp [h2]
    · simp [h1, h2]

/-- A required boolean field passes exactly for `true`. -/
theorem validateField_boolean_required (env : Builtins) (schema : List SchemaField)
    (field : String) (value : Option Value) (fieldSchema : SchemaField)
    (hfind : schema.find? (fun f => f.id == field) = some fieldSchema)
    (htype : fieldSchema.type = "boolean") (hreq : fieldSchema.required = true) :
    validateField env schema field value = "" ↔ value = some (Value.bool true) := by
  simp only [validateField, hfind, hreq, htype, Bool.true_and]
  simp only [if_neg (show ¬ ("boolean" = "number") by decide),
    if_neg (show ¬ ("boolean" = "date") by decide), if_true]
  by_cases h1 : value = some (Value.bool true)
  · subst h1
    simp [truthy]
  · by_cases h2 : value = some (Value.bool false)
    · subst h2
      simp [truthy]
    · by_cases ht : truthy value = true
      · simp [h1, h2, ht]
      · simp [h1, ht]

/-- C13: for a required boolean field the value `false`, chosen in the form as
`False`, is rejected with `This field is required`, although it is exactly
`false`. -/
theorem C13_required_boolean_false_rejected (env : Builtins) :
    validateField env [⟨"active", "Active", "boolean", true⟩] "active"
      (some (Value.bool false)) = "This field is required" := by
  simp [validateField, truthy]

theorem foldl_errors_get (v : String → String) (fields : List SchemaField) (start : ErrorMap)
    (k : String) :
    ErrorMap.get
        (fields.foldl
          (fun newErrors field =>
            if v field.id ≠ "" then (field.id, v field.id) :: newErrors else newErrors) start) k
      = if (∃ f ∈ fields, f.id = k) ∧ v k ≠ "" then some (v k) else ErrorMap.get start k := by
  induction fields generalizing start with
  | nil => simp
  | cons f rest ih =>
    rw [List.foldl_cons, ih]
    have hex : (∃ g ∈ f :: rest, g.id = k) ↔ (f.id = k ∨ ∃ g ∈ rest, g.id = k) := by
      simp
    simp only [hex]
    by_cases hv : v k = ""
    · by_cases hvf : v f.id = ""
      · simp [hv, hvf]
      · have hf : ¬ (f.id = k) := fun e => hvf (e ▸ hv)
        simp [hv, hvf, ErrorMap.get, hf]
    · by_cases hr : ∃ g ∈ rest, g.id = k
      · simp [hv, hr]
      · by_cases hf : f.id = k
        · subst hf
          simp [hv, hr, ErrorMap.get]
        · by_cases hvf : v f.id = ""
          · simp [hv, hr, hf, hvf]
          · simp [hv, hr, hf, hvf, ErrorMap.get]

theorem foldl_errors_eq_nil (v : String → String) (fields : List SchemaField)
    (start : ErrorMap) :
    fields.foldl
        (fun newErrors field =>
          if v field.id ≠ "" then (field.id, v field.id) :: newErrors else newErrors) start = []
      ↔ start = [] ∧ ∀ f ∈ fields, v f.id = "" := by
  induction fields generalizing start with
  | nil => simp
  | cons f rest ih =>
    rw [List.foldl_cons, ih]
    by_cases hvf : v f.id = ""
    · simp [hvf]
    · simp [hvf]

/-- When no field id is `__proto__`, every failing field gets an own property of
the collected errors. -/
theorem collectErrors_of_no_proto (env : Builtins) (schema : List SchemaField) (formData : Obj)
    (hproto : ∀ f ∈ schema, f.id ≠ "__proto__") :
    collectErrors env schema formData
      = schema.foldl
          (fun newErrors field =>
            if validateField env schema field.id (formData.read field.id) ≠ ""
            then (field.id, validateField env schema field.id (formData.read field.id)) :: newErrors
            else newErrors) [] := by
  rw [collectErrors]
  apply List.foldl_ext
  intro newErrors f hf
  have h := hproto f hf
  simp [ErrorMap.assign, h]

/-- The errors collected by `handleSubmit` are empty exactly when every field of
the schema validates, provided no field id is `__proto__`. -/
theorem collectErrors_eq_nil (env : Builtins) (schema : List SchemaField) (formData : Obj)
    (hproto : ∀ f ∈ schema, f.id ≠ "__proto__") :
    collectErrors env schema formData = [] ↔
      ∀ f ∈ schema, validateField env schema f.id (formData.read f.id) = "" := by
  rw [collectErrors_of_no_proto env schema formData hproto]
  have := foldl_errors_eq_nil (fun k => validateField env schema k (formData.read k)) schema []
  simpa using this

/-- C14: for the schema with the one boolean field whose id is `__proto__` and
the empty form, `validateField` returns a message for the inherited value of
`formData["__proto__"]`, the assignment `newErrors["__proto__"] = message`
creates no property, so no error is collected and `onSave` is called with the
form data although a field fails. -/
theorem C14_proto_field_error_dropped (env : Builtins) (onSave : Obj → Option String) :
    Obj.read [] "__proto__" = some (Value.host "__proto__") ∧
    validateField env [⟨"__proto__", "__proto__", "boolean", false⟩] "__proto__"
        (Obj.read [] "__proto__") = "Please select a valid boolean value" ∧
    collectErrors env [⟨"__proto__", "__proto__", "boolean", false⟩] [] = [] ∧
    (handleSubmit env [⟨"__proto__", "__proto__", "boolean", false⟩] onSave
        ⟨[], [], false⟩).saved = some [] := by
  have hread : Obj.read [] "__proto__" = some (Value.host "__proto__") := by decide
  have hval : validateField env [⟨"__proto__", "__proto__", "boolean", false⟩] "__proto__"
      (Obj.read [] "__proto__") = "Please select a valid boolean value" := by
    rw [hread]
    simp [validateField]
  have hcol : collectErrors env [⟨"__proto__", "__proto__", "boolean", false⟩] [] = [] := by
    simp [collectErrors, hval, ErrorMap.assign, ErrorMap.get]
  refine ⟨hread, hval, hcol, ?_⟩
  simp only [handleSubmit, hcol]
  cases onSave [] <;> simp

/-- The sibling handler `handleChange` records the message of the same field:
its computed key defines an own property named `__proto__`. -/
theorem handleChange_records_proto_error (env : Builtins) :
    ErrorMap.get
      (handleChange env [⟨"__proto__", "__proto__", "boolean", false⟩] ⟨[], [], false⟩
        "__proto__" (Value.str "maybe")).errors "__proto__"
      = some "Please select a valid boolean value" := by
  simp [handleChange, validateField, ErrorMap.get]

/-- For a schema none of whose field ids is `__proto__`, `handleSubmit` calls
`onSave`, with the form data, if and only if `validateField` returns the empty
string for every field of the schema, the value validated being
`formData[field.id]` (the inherited member when the form data has no such
property and `Object.prototype` has); when a field fails, `onSave` is not called
and the `errors` state holds exactly the ids of the failing fields of the schema,
each with its message. -/
theorem handleSubmit_iff_valid (env : Builtins) (schema : List SchemaField)
    (onSave : Obj → Option String) (st : EditorState)
    (hproto : ∀ f ∈ schema, f.id ≠ "__proto__") :
    ((handleSubmit env schema onSave st).saved = some st.formData ↔
      ∀ f ∈ schema, validateField env schema f.id (st.formData.read f.id) = "") ∧
    ((handleSubmit env schema onSave st).saved = none ∨
      (handleSubmit env schema onSave st).saved = some st.formData) ∧
    ((∃ f ∈ schema, validateField env schema f.id (st.formData.read f.id) ≠ "") →
      (handleSubmit env schema onSave st).saved = none ∧
      ∀ k message, ErrorMap.get (handleSubmit env schema onSave st).state.errors k = some message ↔
        ((∃ f ∈ schema, f.id = k) ∧
          validateField env schema k (st.formData.read k) = message ∧ message ≠ "")) := by
  have hnil := collectErrors_eq_nil env schema st.formData hproto
  by_cases hall : ∀ f ∈ schema, validateField env schema f.id (st.formData.read f.id) = ""
  · have hc : collectErrors env schema st.formData = [] := hnil.mpr hall
    have hs : (handleSubmit env schema onSave st).saved = some st.formData := by
      simp only [handleSubmit, hc]
      cases onSave st.formData <;> simp
    refine ⟨⟨fun _ => hall, fun _ => hs⟩, Or.inr hs, ?_⟩
    rintro ⟨f, hf, hne⟩
    exact absurd (hall f hf) hne
  · have hc : collectErrors env schema st.formData ≠ [] := fun e => hall (hnil.mp e)
    have hs : handleSubmit env schema onSave st
        = ⟨{ st with errors := collectErrors env schema st.formData, isSubmitting := false },
            none, false⟩ := by
      simp [handleSubmit, hc]
    refine ⟨⟨fun h => ?_, fun h => absurd h hall⟩, Or.inl (by rw [hs]), ?_⟩
    · rw [hs] at h
      cases h
    · intro _
      refine ⟨by rw [hs], ?_⟩
      intro k message
      rw [hs]
      have hg := foldl_errors_get (fun k => validateField env schema k (st.formData.read k))
        schema [] k
      simp only [collectErrors_of_no_proto env schema st.formData hproto]
      rw [hg]
      by_cases hk : (∃ f ∈ schema, f.id = k) ∧ validateField env schema k (st.formData.read k) ≠ ""
      · rw [if_pos hk]
        constructor
        · intro e
          cases e
          exact ⟨hk.1, rfl, hk.2⟩
        · rintro ⟨-, e, -⟩
          rw [e]
      · rw [if_neg hk]
        constructor
        · intro e
          cases e
        · rintro ⟨h1, e, h3⟩
          exact absurd ⟨h1, e ▸ h3⟩ hk

/-- A required text field left empty blocks the save and is reported. -/
theorem handleSubmit_blocks_required_empty :
    (handleSubmit ⟨fun _ => false, fun _ => false⟩ [⟨"title", "Title", "text", true⟩]
        (fun _ => none) ⟨[], [], false⟩).saved = none ∧
    ErrorMap.get
      (handleSubmit ⟨fun _ => false, fun _ => false⟩ [⟨"title", "Title", "text", true⟩]
        (fun _ => none) ⟨[], [], false⟩).state.errors "title"
      = some "This field is required" := by
  have h := (handleSubmit_iff_valid ⟨fun _ => false, fun _ => false⟩
    [⟨"title", "Title", "text", true⟩] (fun _ => none) ⟨[], [], false⟩ (by decide)).2.2
    ⟨⟨"title", "Title", "text", true⟩, List.mem_singleton.mpr rfl, by decide⟩
  exact ⟨h.1, (h.2 "title" "This field is required").mpr
    ⟨⟨⟨"title", "Title", "text", true⟩, List.mem_singleton.mpr rfl, rfl⟩, by decide, by decide⟩⟩

/-- A required field whose id is `constructor` passes on the empty form: the
value read is the inherited member, which is not empty. -/
theorem handleSubmit_inherited_member :
    Obj.read [] "constructor" = some (Value.host "constructor") ∧
    (handleSubmit ⟨fun _ => false, fun _ => false⟩ [⟨"constructor", "Constructor", "text", true⟩]
        (fun _ => none) ⟨[], [], false⟩).saved = some [] := by
  constructor <;> decide

/-! ## Claims C15 and C16 -/

theorem filterIndexNe_eq (fs : List SchemaField) (i index : Nat) :
    filterIndexNe fs i index
      = if index < i then fs else fs.take (index - i) ++ fs.drop (index - i + 1) := by
  induction fs generalizing i with
  | nil => simp [filterIndexNe]
  | cons f rest ih =>
    simp only [filterIndexNe, ih]
    by_cases h1 : index < i
    · have h2 : index < i + 1 := by omega
      have h3 : i ≠ index := by omega
      simp [h1, h2, h3]
    · by_cases h2 : i = index
      · subst h2
        simp
      · have h3 : ¬ (index < i + 1) := by omega
        have h4 : index - i = (index - (i + 1)) + 1 := by omega
        simp only [h1, h2, h3, if_false, ne_eq, not_false_eq_true, if_true]
        rw [h4]
        simp

/-- The filter of `handleRemoveField` keeps the fields before and after the
index, in order. -/
theorem handleRemoveField_fields (st : SchemaManagerState) (index : Nat) :
    (handleRemoveField st index).state.fields
      = st.fields.take index ++ st.fields.drop (index + 1) := by
  simp [handleRemoveField, filterIndexNe_eq]

/-- C15, as stated, fails: the schema has one field with id `age`; entering the
name `Age` adds a second field with id `age`. -/
theorem C15_duplicate_id_added :
    (([⟨"age", "age", "number", false⟩] : List SchemaField).map (fun f => f.id)).Nodup ∧
    ¬ (((handleAddField asciiToLowerCase
          ⟨[⟨"age", "age", "number", false⟩], "Age", "text", false⟩).state.fields.map
        (fun f => f.id)).Nodup) := by
  decide

/-- C15, amended: for a schema with pairwise distinct field ids,
`handleAddField` yields pairwise distinct ids exactly when the name is blank
(nothing is added) or the id derived from the name is not yet an id of the
schema; `handleRemoveField` always keeps the ids pairwise distinct. -/
theorem C15_ids_distinct (toLowerCase : String → String) (st : SchemaManagerState)
    (index : Nat) (hn : (st.fields.map (fun f => f.id)).Nodup) :
    (((handleAddField toLowerCase st).state.fields.map (fun f => f.id)).Nodup ↔
      (isBlank st.newFieldName = true ∨
        fieldIdOf toLowerCase st.newFieldName ∉ st.fields.map (fun f => f.id))) ∧
    ((handleRemoveField st index).state.fields.map (fun f => f.id)).Nodup := by
  constructor
  · by_cases hb : isBlank st.newFieldName = true
    · simp [handleAddField, hb, hn]
    · simp only [handleAddField, hb, if_false, List.map_append, List.map_cons, List.map_nil,
        false_or, Bool.false_eq_true]
      rw [List.nodup_append]
      constructor
      · rintro ⟨-, -, hd⟩ hm
        exact hd hm (List.mem_singleton.mpr rfl)
      · intro hm
        refine ⟨hn, List.nodup_singleton _, ?_⟩
        intro a ha hb'
        rw [List.mem_singleton] at hb'
        exact hm (hb' ▸ ha)
  · rw [handleRemoveField_fields]
    refine List.Nodup.sublist (List.Sublist.map _ ?_) hn
    have h := List.Sublist.append (List.Sublist.refl (st.fields.take index))
      ((List.drop_sublist 1 (st.fields.drop index)))
    rw [List.drop_drop, List.take_append_drop] at h
    exact h

/-- Witness of `C15_ids_distinct`: one field `age`, the name `Height` entered. -/
theorem C15_ids_distinct_witness :
    (((handleAddField asciiToLowerCase
          ⟨[⟨"age", "age", "number", false⟩], "Height", "text", false⟩).state.fields.map
        (fun f => f.id)).Nodup ↔
      (isBlank "Height" = true ∨
        fieldIdOf asciiToLowerCase "Height" ∉
          ([⟨"age", "age", "number", false⟩] : List SchemaField).map (fun f => f.id))) ∧
    ((handleRemoveField ⟨[⟨"age", "age", "number", false⟩], "Height", "text", false⟩
        0).state.fields.map (fun f => f.id)).Nodup :=
  C15_ids_distinct asciiToLowerCase ⟨[⟨"age", "age", "number", false⟩], "Height", "text", false⟩
    0 (by decide)

/-- C16: with a name that is not blank, `handleAddField` yields the old sequence
followed by the one new field; with a valid index, `handleRemoveField` yields the
fields before the index followed by the fields after it; `handleReorder` yields
the sequence it is given; each time `onUpdate` receives the new local
sequence. -/
theorem C16_order_preserved (toLowerCase : String → String) (st : SchemaManagerState)
    (index : Nat) (newOrder : List SchemaField) (hname : isBlank st.newFieldName = false)
    (hindex : index < st.fields.length) :
    ((handleAddField toLowerCase st).state.fields
        = st.fields ++ [⟨fieldIdOf toLowerCase st.newFieldName, st.newFieldName,
            st.newFieldType, st.isRequired⟩] ∧
      (handleAddField toLowerCase st).onUpdate
        = some (handleAddField toLowerCase st).state.fields) ∧
    ((handleRemoveField st index).state.fields
        = st.fields.take index ++ st.fields.drop (index + 1) ∧
      ((handleRemoveField st index).state.fields.length + 1 = st.fields.length) ∧
      (handleRemoveField st index).onUpdate = some (handleRemoveField st index).state.fields) ∧
    ((handleReorder st newOrder).state.fields = newOrder ∧
      (handleReorder st newOrder).onUpdate = some newOrder) := by
  refine ⟨⟨?_, ?_⟩, ⟨handleRemoveField_fields st index, ?_, ?_⟩, ⟨rfl, rfl⟩⟩
  · simp [handleAddField, hname]
  · simp [handleAddField, hname]
  · rw [handleRemoveField_fields]
    simp only [List.length_append, List.length_take, List.length_drop]
    omega
  · rfl

/-- Witness of `C16_order_preserved`: three fields, the middle one removed. -/
theorem C16_order_preserved_witness :
    (handleRemoveField
        ⟨[⟨"a", "A", "text", false⟩, ⟨"b", "B", "text", false⟩, ⟨"c", "C", "text", false⟩],
          "D", "text", false⟩ 1).state.fields
      = [⟨"a", "A", "text", false⟩, ⟨"c", "C", "text", false⟩] :=
  (C16_order_preserved asciiToLowerCase
    ⟨[⟨"a", "A", "text", false⟩, ⟨"b", "B", "text", false⟩, ⟨"c", "C", "text", false⟩],
      "D", "text", false⟩ 1 [] (by decide) (by decide)).2.1.1

/-! ## Claim C17 -/

theorem getDoc_setDoc_of_ne (s : Store) (collection id other : String) (w : WriteData)
    (h : other ≠ id) :
    (s.setDoc collection id w).getDoc collection other = s.getDoc collection other := by
  have hne : ¬ (id = other) := fun e => h e.symm
  have h1 : (collection == collection && id == other) = false := by
    simp [hne]
  simp only [Store.getDoc, Store.setDoc, putRecord, List.find?_cons, Record.isAt, h1,
    List.find?_filter]
  congr 2
  funext r
  by_cases hr : r.id = other
  · have hri : ¬ (r.id = id) := fun e => h (hr ▸ e)
    by_cases hc : r.collection = collection <;> simp [hr, hri, hc, h]
  · by_cases hc : r.collection = collection <;> simp [hr, hc]

/-- C17: `getSchema` returns null when no schema record exists for the
collection; after `createSchema(schema)` it returns exactly `schema`, whatever
was stored before; and the schemas of other collections are unchanged. -/
theorem C17_schema_replaced (svc other : DatabaseService) (s : Store)
    (schema : List SchemaField) :
    (s.getDoc "schemas" svc.collectionName = none → svc.getSchema s = some Value.null) ∧
    (svc.createSchema s schema).1 = schema ∧
    svc.getSchema (svc.createSchema s schema).2 = some (Value.schema schema) ∧
    (other.collectionName ≠ svc.collectionName →
      other.getSchema (svc.createSchema s schema).2 = other.getSchema s) := by
  refine ⟨?_, rfl, ?_, ?_⟩
  · intro h
    simp [DatabaseService.getSchema, h]
  · simp [DatabaseService.getSchema, DatabaseService.createSchema, getDoc_setDoc, resolveWrite,
      resolveField, Obj.get]
  · intro h
    simp only [DatabaseService.getSchema, DatabaseService.createSchema]
    rw [getDoc_setDoc_of_ne _ _ _ _ _ h]

/-- A schema stored earlier is replaced, not merged: after two `createSchema`
calls only the second schema is read. -/
theorem getSchema_after_two_creates :
    DatabaseService.getSchema ⟨"posts"⟩
        (DatabaseService.createSchema ⟨"posts"⟩
          (DatabaseService.createSchema ⟨"posts"⟩ ⟨[], 0⟩
            [⟨"title", "Title", "text", true⟩, ⟨"views", "Views", "number", false⟩]).2
          [⟨"body", "Body", "text", false⟩]).2
      = some (Value.schema [⟨"body", "Body", "text", false⟩]) := by
  decide

/-! ## Claims C18, C19 and C20 -/

/-- The record that one run adds to `resource_usage`. -/
theorem updateResourceUsage_appends (st : AdminState) (now : Nat) :
    (⟨now, totalDocuments st, st.bucketFiles.length, totalSize st.bucketFiles,
        activeUsers st.activityLogs (now - dayMs)⟩ : ResourceUsage)
      ∈ (updateResourceUsage st now).resourceUsage := by
  simp only [updateResourceUsage, List.mem_filter, List.mem_append, List.mem_singleton]
  refine ⟨Or.inr trivial, ?_⟩
  have : ¬ (now < now - 90 * dayMs) := by omega
  simp [this]

/-- The document total is the sum of the counts of all collections. -/
theorem totalDocuments_eq (st : AdminState) :
    totalDocuments st
      = st.activityLogs.length + st.resourceUsage.length
        + (st.otherCollections.map (fun c => c.2)).sum := by
  have h : ∀ (l : List (String × Nat)) (start : Nat),
      l.foldl (fun total c => total + c.2) start = start + (l.map (fun c => c.2)).sum := by
    intro l
    induction l with
    | nil => simp
    | cons c rest ih =>
      intro start
      simp only [List.foldl_cons, ih, List.map_cons, List.sum_cons]
      omega
  rw [totalDocuments, h]
  simp only [listCollections, List.map_cons, List.sum_cons]
  omega

/-- When every `metadata.size` is a number, the size total is their sum. -/
theorem totalSize_of_numbers (sizes : List (String × Int)) :
    totalSize (sizes.map (fun f => ⟨f.1, JsPrim.num f.2⟩))
      = JsPrim.num ((sizes.map (fun f => f.2)).sum) := by
  have h : ∀ (l : List (String × Int)) (start : Int),
      (l.map (fun f => (⟨f.1, JsPrim.num f.2⟩ : BucketFile))).foldl
          (fun acc file => jsAdd acc file.size) (JsPrim.num start)
        = JsPrim.num (start + (l.map (fun f => f.2)).sum) := by
    intro l
    induction l with
    | nil => simp
    | cons c rest ih =>
      intro start
      have hstep : jsAdd (JsPrim.num start) (JsPrim.num c.2) = JsPrim.num (start + c.2) := rfl
      rw [List.map_cons, List.foldl_cons, hstep, ih, List.map_cons, List.sum_cons, Int.add_assoc]
  simpa [totalSize] using h sizes 0

/-- C18: for collections of 5, 3 and 2 documents and two files whose sizes the
storage API reports as the strings `3145728` and `7340032`, the record added has
`documents = 10` and `files = 2`, but `storage` is the string `031457287340032`,
the concatenation, not the number `10 * 1024 * 1024`. -/
theorem C18_storage_concatenated :
    (updateResourceUsage usageFixture (100 * dayMs)).resourceUsage
      = [⟨100 * dayMs, 10, 2, JsPrim.str "031457287340032", 0⟩] ∧
    JsPrim.str "031457287340032" ≠ JsPrim.num (10 * 1024 * 1024) := by
  decide

theorem dedup_length_option (l : List (Option String)) :
    l.dedup.length
      = (l.filterMap (fun o => o)).dedup.length + (if none ∈ l then 1 else 0) := by
  induction l with
  | nil => simp
  | cons a rest ih =>
    cases a with
    | none =>
      by_cases h : none ∈ rest
      · rw [List.dedup_cons_of_mem h, ih]
        simp [h]
      · rw [List.dedup_cons_of_not_mem h, List.length_cons, ih]
        simp [h]
    | some x =>
      have hmem : some x ∈ rest ↔ x ∈ rest.filterMap (fun o => o) := by
        simp [List.mem_filterMap]
      have hnone : none ∈ some x :: rest ↔ none ∈ rest := by simp
      have hcons : (some x :: rest).filterMap (fun o => o)
          = x :: rest.filterMap (fun o => o) := rfl
      by_cases h : some x ∈ rest
      · rw [List.dedup_cons_of_mem h, ih, hcons, List.dedup_cons_of_mem (hmem.mp h)]
        simp only [hnone]
      · rw [List.dedup_cons_of_not_mem h, List.length_cons, ih, hcons,
          List.dedup_cons_of_not_mem (fun e => h (hmem.mpr e)), List.length_cons]
        simp only [hnone]
        omega

/-- What the run counts as active users: the distinct user ids of the entries of
the last day, plus one when some entry of the last day carries no `userId`. -/
theorem activeUsers_eq (activityLogs : List ActivityLog) (oneDayAgo : Nat) :
    activeUsers activityLogs oneDayAgo
      = ((activityLogs.filter (fun e => decide (oneDayAgo ≤ e.timestamp))).filterMap
          (fun e => e.userId)).dedup.length
        + (if ∃ e ∈ activityLogs, oneDayAgo ≤ e.timestamp ∧ e.userId = none then 1 else 0) := by
  rw [activeUsers, dedup_length_option, List.filterMap_map]
  congr 1
  have : (none ∈ (activityLogs.filter (fun e => decide (oneDayAgo ≤ e.timestamp))).map
        (fun e => e.userId))
      ↔ ∃ e ∈ activityLogs, oneDayAgo ≤ e.timestamp ∧ e.userId = none := by
    simp [List.mem_map, List.mem_filter, and_assoc]
  simp only [this]

/-- C19: with one document entry of the last 24 hours (the entry that
`logDocumentActivity` logs for an update of `posts/p1`), which carries no
`userId`, and no user entry at all, the run records `activeUsers = 1`. -/
theorem C19_entry_without_user_counted :
    logDocumentActivity ⟨some [], some []⟩ "posts" "p1" (100 * dayMs)
      = Except.ok (documentActivityLog ⟨some [], some []⟩ "posts" "p1" (100 * dayMs)) ∧
    (documentActivityLog ⟨some [], some []⟩ "posts" "p1" (100 * dayMs)).userId = none ∧
    activeUsers [documentActivityLog ⟨some [], some []⟩ "posts" "p1" (100 * dayMs)]
        (100 * dayMs - dayMs) = 1 ∧
    (updateResourceUsage
        ⟨[documentActivityLog ⟨some [], some []⟩ "posts" "p1" (100 * dayMs)], [], [], []⟩
        (100 * dayMs)).resourceUsage.map (fun r => r.activeUsers) = [1] := by
  refine ⟨rfl, ?_, ?_, ?_⟩ <;> decide

/-- C20, as stated, fails: an activity log entry written more than 90 days
before the run (the entry logged for an update of `posts/p1` at time 0) is still
stored after the run. -/
theorem C20_old_activity_log_kept :
    logDocumentActivity ⟨some [], some []⟩ "posts" "p1" 0
      = Except.ok (documentActivityLog ⟨some [], some []⟩ "posts" "p1" 0) ∧
    ¬ (∀ e ∈ (updateResourceUsage
          ⟨[documentActivityLog ⟨some [], some []⟩ "posts" "p1" 0], [], [], []⟩
          (100 * dayMs)).activityLogs,
        ¬ (e.timestamp < 100 * dayMs - 90 * dayMs)) := by
  refine ⟨rfl, ?_⟩
  decide

/-- C20, amended: after every run no record of `resource_usage` older than 90
days remains, every record of `resource_usage` not older than 90 days is still
stored, the record just added among them, and the activity log is exactly as it
was before the run (the run deletes no activity log entry, old or young). -/
theorem C20_retention (st : AdminState) (now : Nat) :
    (∀ r ∈ (updateResourceUsage st now).resourceUsage, ¬ (r.timestamp < now - 90 * dayMs)) ∧
    (∀ r ∈ st.resourceUsage, ¬ (r.timestamp < now - 90 * dayMs) →
      r ∈ (updateResourceUsage st now).resourceUsage) ∧
    (∃ r ∈ (updateResourceUsage st now).resourceUsage, r.timestamp = now) ∧
    (updateResourceUsage st now).activityLogs = st.activityLogs := by
  refine ⟨?_, ?_, ⟨_, updateResourceUsage_appends st now, rfl⟩, rfl⟩
  · intro r hr
    simp only [updateResourceUsage, List.mem_filter] at hr
    simpa using hr.2
  · intro r hr hyoung
    simp only [updateResourceUsage, List.mem_filter, List.mem_append]
    exact ⟨Or.inl hr, by simpa using hyoung⟩

/-! ## Claims C25, C26 and C27 -/

/-- C25: for every non-empty list of document objects `batchCreate` raises the
type error of calling the object `doc` and leaves the store as it was, nothing
having been committed; the empty list succeeds and returns the empty list. -/
theorem C25_batchCreate_rejects_nonempty (svc : DatabaseService) (s : Store) (doc : Obj)
    (rest : List Obj) :
    batchCreateLoop svc (doc :: rest) [] [] = Except.error StoreError.typeError ∧
    svc.batchCreate s (doc :: rest) = (Except.error StoreError.typeError, s) ∧
    svc.batchCreate s [] = (Except.ok [], s) := by
  refine ⟨batchCreateLoop_cons svc doc rest [] [], ?_, ?_⟩
  · simp [DatabaseService.batchCreate, batchCreateLoop_cons]
  · simp [DatabaseService.batchCreate, batchCreateLoop, Store.commit]

/-- C26: `DatabaseService` has no member `addDocument`, so for every input the
hook's `createDocument` rejects with the type error, the store is as before, the
hook's `error` holds the message and `loading` is false. -/
theorem C26_hook_createDocument_rejects (callMember : Store → Obj → Except String Obj × Store)
    (st : CollectionHookState) (s : Store) (data : Obj) :
    DatabaseService.memberNames.contains "addDocument" = false ∧
    useCollection.createDocument callMember st s data
      = (Except.error "dbService.addDocument is not a function",
          { st with loading := false, error := some "dbService.addDocument is not a function" },
          s) := by
  have h : DatabaseService.memberNames.contains "addDocument" = false := by decide
  have hm : "addDocument" ∉ DatabaseService.memberNames := by decide
  exact ⟨h, by simp [useCollection.createDocument, hm]⟩

/-- C27: the three checks give the same answers for any two users and any two
values of `userRole` over the same roles; the answers are those of the
permissions of the first role whose id is `user`, and without such a role every
check is false except `hasAllPermissions([])`. -/
theorem C27_checks_ignore_user (roles : List Role) (user1 user2 : Option String)
    (userRole1 userRole2 : Option String) (permission : String) (required : List String) :
    (hasPermission ⟨user1, roles, userRole1⟩ permission
        = hasPermission ⟨user2, roles, userRole2⟩ permission ∧
      hasAnyPermission ⟨user1, roles, userRole1⟩ required
        = hasAnyPermission ⟨user2, roles, userRole2⟩ required ∧
      hasAllPermissions ⟨user1, roles, userRole1⟩ required
        = hasAllPermissions ⟨user2, roles, userRole2⟩ required) ∧
    (∀ role, roles.find? (fun r => r.id == "user") = some role →
      hasPermission ⟨user1, roles, userRole1⟩ permission
        = (role.permissions.getD []).contains permission ∧
      hasAnyPermission ⟨user1, roles, userRole1⟩ required
        = required.any (fun p => (role.permissions.getD []).contains p) ∧
      hasAllPermissions ⟨user1, roles, userRole1⟩ required
        = required.all (fun p => (role.permissions.getD []).contains p)) ∧
    ((∀ r ∈ roles, r.id ≠ "user") →
      hasPermission ⟨user1, roles, userRole1⟩ permission = false ∧
      hasAnyPermission ⟨user1, roles, userRole1⟩ required = false ∧
      hasAllPermissions ⟨user1, roles, userRole1⟩ required = required.isEmpty ∧
      hasAllPermissions ⟨user1, roles, userRole1⟩ [] = true) := by
  refine ⟨⟨rfl, rfl, rfl⟩, ?_, ?_⟩
  · intro role hrole
    simp [hasPermission, hasAnyPermission, hasAllPermissions, localUserRole, hrole]
  · intro hno
    have hfind : roles.find? (fun r => r.id == "user") = none := by
      rw [List.find?_eq_none]
      intro r hr
      simpa using hno r hr
    refine ⟨?_, ?_, ?_, ?_⟩
    · simp [hasPermission, localUserRole, hfind]
    · simp [hasAnyPermission, localUserRole, hfind]
    · cases required <;> simp [hasAllPermissions, localUserRole, hfind]
    · simp [hasAllPermissions]

/-- An administrator and a viewer get the same answer: with a role `user` that
grants `manage:users`, both pass the check; the role `admin` itself is never
consulted. -/
theorem hasPermission_same_for_admin_and_viewer :
    hasPermission ⟨some "uid-admin",
        [⟨"admin", some ["manage:users"]⟩, ⟨"viewer", some ["read:files"]⟩], some "admin"⟩
      "manage:users" = false ∧
    hasPermission ⟨some "uid-viewer",
        [⟨"user", some ["manage:users"]⟩, ⟨"viewer", some ["read:files"]⟩], some "viewer"⟩
      "manage:users" = true := by
  decide

/-! ## Claims C23 and C28 -/

theorem headerGet_append (a b : List (String × String)) (name : String) :
    headerGet (a ++ b) name = (headerGet a name).orElse (fun _ => headerGet b name) := by
  induction a with
  | nil => simp [headerGet]
  | cons kv rest ih =>
    obtain ⟨k, v⟩ := kv
    by_cases h : k = name
    · simp [headerGet, h]
    · simp [headerGet, h, ih]

theorem headerGet_none_of_no_match (a : List (String × String))
    (h : ∀ kv ∈ a, asciiToLowerCase kv.1 ≠ "authorization") :
    headerGet a "Authorization" = none := by
  induction a with
  | nil => rfl
  | cons kv rest ih =>
    obtain ⟨k, v⟩ := kv
    have hk : k ≠ "Authorization" := by
      intro e
      apply h (k, v) (List.mem_cons_self _ _)
      rw [e]
      show asciiToLowerCase "Authorization" = "authorization"
      decide
    simp only [headerGet, hk, if_false]
    exact ih (fun kv hkv => h kv (List.mem_cons_of_mem _ hkv))

/-- The `fetch` calls of `request` for a signed-in user: exactly one, whatever the
server answers. -/
theorem request_calls (svc : ApiGatewayService) (token : String)
    (server : HttpRequest → Except String FetchResponse) (endpoint : String)
    (options : RequestOptions) :
    (svc.request (some token) server endpoint options).2
      = [{ url := svc.baseUrl ++ endpoint
           init := { options with
             headers := some (options.headers.getD [] ++
               [("Authorization", "Bearer " ++ token), ("Content-Type", "application/json")]) } }] := by
  simp only [ApiGatewayService.request, ApiGatewayService.getAuthToken]
  split
  · rfl
  · split <;> rfl

/-- The result of `request` for a signed-in user is decided by the answer to the
HTTP request that its `fetch` call issues. -/
theorem request_result (svc : ApiGatewayService) (token : String)
    (server : HttpRequest → Except String FetchResponse) (endpoint : String)
    (options : RequestOptions) :
    (svc.request (some token) server endpoint options).1
      = match server
          { url := svc.baseUrl ++ endpoint
            method := options.method.getD "GET"
            headers := options.headers.getD [] ++
              [("Authorization", "Bearer " ++ token), ("Content-Type", "application/json")]
            body := options.body } with
        | Except.error e => Except.error e
        | Except.ok response =>
          if !response.ok then Except.error ("API request failed: " ++ response.statusText)
          else response.json := by
  simp only [ApiGatewayService.request, ApiGatewayService.getAuthToken, FetchCall.issued,
    Option.getD_some]
  split
  · rfl
  · split <;> rfl

/-- C23, as stated, fails: with `options.headers = { Authorization: 'Basic abc' }`
the one `fetch` call carries `Basic abc`, not the bearer token of the signed-in
user. -/
theorem C23_authorization_overridden :
    ¬ (∀ call ∈ (ApiGatewayService.request ⟨"http://localhost:5001"⟩ (some "tok") okServer
          "/api/posts"
          { method := some "GET", headers := some [("Authorization", "Basic abc")],
            body := none, params := none }).2,
        headerGet (call.init.headers.getD []) "Authorization" = some "Bearer tok") := by
  rw [request_calls]
  decide

/-- C23, amended: without a signed-in user `request` fails with `No
authenticated user` and calls `fetch` not at all; with a signed-in user it calls
`fetch` exactly once, at `baseUrl + endpoint`, and the `Authorization` entry of
the headers is the one of `options.headers` when it has one and `Bearer ` followed
by the ID token otherwise; when no header name of `options.headers` is
`authorization` in any letter case, the bearer entry is the only such header. -/
theorem C23_request_credential (svc : ApiGatewayService) (currentUser : Option String)
    (server : HttpRequest → Except String FetchResponse) (endpoint : String)
    (options : RequestOptions) :
    (currentUser = none →
      svc.request currentUser server endpoint options
        = (Except.error "No authenticated user", [])) ∧
    (∀ token, currentUser = some token →
      ∃ call, (svc.request currentUser server endpoint options).2 = [call] ∧
        call.url = svc.baseUrl ++ endpoint ∧
        headerGet (call.init.headers.getD []) "Authorization"
          = some ((headerGet (options.headers.getD []) "Authorization").getD
              ("Bearer " ++ token)) ∧
        ((∀ kv ∈ options.headers.getD [], asciiToLowerCase kv.1 ≠ "authorization") →
          headerGet (call.init.headers.getD []) "Authorization" = some ("Bearer " ++ token) ∧
          ∀ kv ∈ call.init.headers.getD [], asciiToLowerCase kv.1 = "authorization" →
            kv = ("Authorization", "Bearer " ++ token))) := by
  constructor
  · rintro rfl
    rfl
  · rintro token rfl
    refine ⟨_, request_calls svc token server endpoint options, rfl, ?_, ?_⟩
    · simp only [Option.getD_some, headerGet_append]
      cases headerGet (options.headers.getD []) "Authorization" <;> simp [headerGet]
    · intro hno
      constructor
      · simp only [Option.getD_some, headerGet_append, headerGet_none_of_no_match _ hno]
        simp [headerGet]
      · intro kv hkv hmatch
        simp only [Option.getD_some, List.mem_append, List.mem_cons, List.mem_singleton,
          List.not_mem_nil, or_false] at hkv
        rcases hkv with hkv | rfl | rfl
        · exact absurd hmatch (hno kv hkv)
        · rfl
        · have hct : asciiToLowerCase "Content-Type" ≠ "authorization" := by decide
          exact absurd hmatch hct

/-- C28: for a fixed collection name and signed-in user, `search` gives the same
result and issues the same HTTP requests (URL, method, headers, body) whatever
`searchTerm` and `fields` are, and `getCollection` does so whatever `filters`
are: the values only reach the `params` option, which is no part of the
request. -/
theorem C28_params_not_sent (svc : ApiGatewayService) (currentUser : Option String)
    (server : HttpRequest → Except String FetchResponse) (collectionName : String)
    (searchTerm1 searchTerm2 : String) (fields1 fields2 : List String)
    (filters1 filters2 : List (String × String × String)) :
    ((svc.search currentUser server collectionName searchTerm1 fields1).1
        = (svc.search currentUser server collectionName searchTerm2 fields2).1 ∧
      (svc.search currentUser server collectionName searchTerm1 fields1).2.map FetchCall.issued
        = (svc.search currentUser server collectionName searchTerm2 fields2).2.map
            FetchCall.issued) ∧
    ((svc.getCollection currentUser server collectionName filters1).1
        = (svc.getCollection currentUser server collectionName filters2).1 ∧
      (svc.getCollection currentUser server collectionName filters1).2.map FetchCall.issued
        = (svc.getCollection currentUser server collectionName filters2).2.map
            FetchCall.issued) ∧
    (∀ token, currentUser = some token →
      (svc.search currentUser server collectionName searchTerm1 fields1).2.map FetchCall.issued
        = [{ url := svc.baseUrl ++ ("/api/search/" ++ collectionName), method := "GET",
             headers := [("Authorization", "Bearer " ++ token),
               ("Content-Type", "application/json")],
             body := none }]) := by
  refine ⟨⟨?_, ?_⟩, ⟨?_, ?_⟩, ?_⟩
  · cases currentUser with
    | none => rfl
    | some token =>
      simp only [ApiGatewayService.search, request_result]
  · cases currentUser with
    | none => rfl
    | some token =>
      simp only [ApiGatewayService.search, request_calls]
      rfl
  · cases currentUser with
    | none => rfl
    | some token =>
      simp only [ApiGatewayService.getCollection, request_result]
  · cases currentUser with
    | none => rfl
    | some token =>
      simp only [ApiGatewayService.getCollection, request_calls]
      rfl
  · rintro token rfl
    simp only [ApiGatewayService.search, request_calls]
    rfl

/-! ## Claims C21 and C22 -/

/-- C21, as stated, fails: when attaching fails the returned value is `null`, and
calling it raises instead of doing nothing. -/
theorem C21_null_not_callable :
    ¬ (∃ returned,
        (subscribeToCollection RealtimeState.initial "posts" [] (Except.error "unavailable")).1
          = Except.ok returned ∧
        callReturned
            (subscribeToCollection RealtimeState.initial "posts" []
              (Except.error "unavailable")).2 returned
          = Except.ok
              (subscribeToCollection RealtimeState.initial "posts" []
                (Except.error "unavailable")).2) := by
  rintro ⟨returned, h1, h2⟩
  simp only [subscribeToCollection, Except.ok.injEq] at h1
  subst h1
  simp [callReturned] at h2

/-- C21, amended: if attaching the live query fails inside
`subscribeToCollection`, the call does not throw and returns `null`; no listener
is attached, the subscriber registry is untouched and an error toast is shown;
the returned `null` is not callable. -/
theorem C21_failed_subscribe_returns_null (st : RealtimeState) (collectionName : String)
    (filters : List (String × String × String)) (error : String) :
    (subscribeToCollection st collectionName filters (Except.error error)).1 = Except.ok none ∧
    (subscribeToCollection st collectionName filters (Except.error error)).2
      = { st with toasts := st.toasts ++ ["Error subscribing to " ++ collectionName] } ∧
    callReturned (subscribeToCollection st collectionName filters (Except.error error)).2 none
      = Except.error "unsubscribe is not a function" := by
  exact ⟨rfl, rfl, rfl⟩

/-- C22: after `posts` is subscribed and rendered, subscribing `users` and
rendering detaches the `posts` listener, whose own handle was never called and
whose provider is still mounted; and of two subscriptions to `posts` made before
one render, the first stays attached after the provider unmounts. -/
theorem C22_later_subscription_detaches_earlier :
    (RealtimeState.render (subscribeToCollection RealtimeState.initial "posts" [] (Except.ok ())).2).listeners
      = [⟨0, "posts", []⟩] ∧
    (RealtimeState.render (subscribeToCollection
        (RealtimeState.render (subscribeToCollection RealtimeState.initial "posts" [] (Except.ok ())).2)
        "users" [] (Except.ok ())).2).listeners
      = [⟨1, "users", []⟩] ∧
    (RealtimeState.unmount (RealtimeState.render (subscribeToCollection
        (subscribeToCollection RealtimeState.initial "posts" [] (Except.ok ())).2
        "posts" [] (Except.ok ())).2)).listeners
      = [⟨0, "posts", []⟩] := by
  decide

/-- A render after a change of `subscribers` detaches every listener whose
unsubscribe function the previous effect had captured. -/
theorem detachAll_removes (subscribers : Subscribers) (listeners : List Listener) (l : Listener)
    (hl : l ∈ detachAll listeners subscribers) :
    l ∈ listeners ∧ ∀ kv ∈ subscribers, kv.2 ≠ l.id := by
  induction subscribers generalizing listeners with
  | nil => exact ⟨hl, fun _ h => absurd h (List.not_mem_nil _)⟩
  | cons kv rest ih =>
    simp only [detachAll, List.foldl_cons] at hl
    obtain ⟨h1, h2⟩ := ih (detach listeners kv.2) hl
    simp only [detach, List.mem_filter, bne_iff_ne, ne_eq] at h1
    refine ⟨h1.1, ?_⟩
    intro kv' hkv'
    rcases List.mem_cons.mp hkv' with rfl | hr
    · exact fun e => h1.2 e.symm
    · exact h2 kv' hr

/-! ## Claim C29 -/

theorem ceil_step (m p : Nat) (hp : 0 < p) (h : p < m) :
    max 1 ((m + p - 1) / p) = max 1 ((m - p + p - 1) / p) + 1 := by
  have h1 : m + p - 1 = (m - p + p - 1) + p := by omega
  have h2 : 1 ≤ (m - p + p - 1) / p := by
    rw [Nat.le_div_iff_mul_le hp]
    omega
  rw [h1, Nat.add_div_right _ hp]
  omega

theorem ceil_last (m p : Nat) (hp : 0 < p) (h : m ≤ p) : max 1 ((m + p - 1) / p) = 1 := by
  have h1 : (m + p - 1) / p ≤ 1 := by
    have h2 : (m + p - 1) / p < 2 := by
      rw [Nat.div_lt_iff_lt_mul hp]
      omega
    omega
  omega

theorem listAllPages_shape {α : Type} (svc : StorageService) (listing : String → List α)
    (path : String) (p : Nat) (hp : 0 < p) :
    ∀ (fuel k : Nat) (token : Option String),
      ((token = none ∧ k = 0) ∨ token = some (numberToString (k : Int))) →
      (listing (svc.collectionName ++ "/" ++ path)).length - k < fuel →
      ∃ pages, listAllPages svc listing path p fuel token = some pages ∧
        pages.length
          = max 1 (((listing (svc.collectionName ++ "/" ++ path)).length - k + p - 1) / p) ∧
        pages.map (fun pg => pg.nextPageToken)
          = (List.range (pages.length - 1)).map
              (fun i => some (numberToString ((k + (i + 1) * p : Nat) : Int))) ++ [none] ∧
        (∀ pg ∈ pages, pg.files.length ≤ p) ∧
        (∀ pg ∈ pages.dropLast, pg.files.length = p) := by
  intro fuel
  induction fuel with
  | zero => intro k token _ h; exact absurd h (Nat.not_lt_zero _)
  | succ fuel ih =>
    intro k token ht hlen
    have hpage := listFiles_at svc listing path p k token ht
    by_cases h : k + p < (listing (svc.collectionName ++ "/" ++ path)).length
    · rw [if_pos h] at hpage
      obtain ⟨pages, h1, h2, h3, h4, h5⟩ :=
        ih (k + p) (some (numberToString ((k + p : Nat) : Int))) (Or.inr rfl) (by omega)
      have hpos : 1 ≤ pages.length := by
        rw [h2]
        exact Nat.le_max_left _ _
      have hne : pages ≠ [] := by
        intro e
        rw [e] at hpos
        simp at hpos
      have hsize : (svc.listFiles listing path p token).files.length = p := by
        rw [hpage]
        simp only [List.length_take, List.length_drop]
        omega
      refine ⟨svc.listFiles listing path p token :: pages, ?_, ?_, ?_, ?_, ?_⟩
      · simp only [listAllPages, hpage, h1, Option.map_some']
      · rw [List.length_cons, h2,
          ceil_step ((listing (svc.collectionName ++ "/" ++ path)).length - k) p hp (by omega)]
        have : (listing (svc.collectionName ++ "/" ++ path)).length - (k + p)
            = (listing (svc.collectionName ++ "/" ++ path)).length - k - p := by omega
        rw [this]
      · have hlenp : (svc.listFiles listing path p token :: pages).length - 1
            = (pages.length - 1) + 1 := by
          simp only [List.length_cons]
          omega
        have hf : ∀ i, k + p + (i + 1) * p = k + (i + 1 + 1) * p := by
          intro i
          rw [Nat.add_mul (i + 1) 1 p]
          omega
        rw [hlenp, List.range_succ_eq_map, List.map_cons, h3, List.map_cons, List.map_map,
          List.cons_append, hpage]
        simp only [Nat.zero_add, Nat.one_mul, Function.comp_def, Nat.succ_eq_add_one, hf]
      · intro pg hpg
        rcases List.mem_cons.mp hpg with rfl | hpg
        · exact Nat.le_of_eq hsize
        · exact h4 pg hpg
      · rw [List.dropLast_cons_of_ne_nil hne]
        intro pg hpg
        rcases List.mem_cons.mp hpg with rfl | hpg
        · exact hsize
        · exact h5 pg hpg
    · rw [if_neg h] at hpage
      refine ⟨[svc.listFiles listing path p token], ?_, ?_, ?_, ?_, ?_⟩
      · simp only [listAllPages, hpage]
      · rw [List.length_singleton, ceil_last _ p hp (by omega)]
      · simp [hpage]
      · intro pg hpg
        rw [List.mem_singleton] at hpg
        rw [hpg, hpage]
        simp only [List.length_take]
        exact Nat.min_le_left _ _
      · simp

/-- C29: for every listing of `n` files and every `pageSize >= 1`, following
`nextPageToken` from `null` ends after exactly `max(1, ceil(n / pageSize))`
calls; the tokens returned are the decimal strings of `pageSize`, `2 * pageSize`,
and so on, followed by `null`; every page holds at most `pageSize` files and
every page but the last holds exactly `pageSize`. -/
theorem C29_listFiles_call_count {α : Type} (svc : StorageService) (listing : String → List α)
    (path : String) (pageSize : Nat) (hp : 0 < pageSize) :
    ∃ pages,
      listAllPages svc listing path pageSize
          ((listing (svc.collectionName ++ "/" ++ path)).length + 1) none = some pages ∧
      pages.length
        = max 1 (((listing (svc.collectionName ++ "/" ++ path)).length + pageSize - 1)
            / pageSize) ∧
      pages.map (fun pg => pg.nextPageToken)
        = (List.range (pages.length - 1)).map
            (fun i => some (numberToString (((i + 1) * pageSize : Nat) : Int))) ++ [none] ∧
      (∀ pg ∈ pages, pg.files.length ≤ pageSize) ∧
      (∀ pg ∈ pages.dropLast, pg.files.length = pageSize) := by
  obtain ⟨pages, h1, h2, h3, h4, h5⟩ := listAllPages_shape svc listing path pageSize hp
    ((listing (svc.collectionName ++ "/" ++ path)).length + 1) 0 none (Or.inl ⟨rfl, rfl⟩)
    (by omega)
  refine ⟨pages, h1, by simpa using h2, ?_, h4, h5⟩
  simpa using h3

/-- Witness of `C29_listFiles_call_count`: five files read two at a time take
three calls with the tokens `2`, `4` and `null`. -/
theorem C29_listFiles_call_count_witness :
    ∃ pages,
      listAllPages ⟨"docs"⟩ (fun _ => ["a", "b", "c", "d", "e"]) "" 2 6 none = some pages ∧
      pages.length = 3 ∧
      pages.map (fun pg => pg.nextPageToken) = [some "2", some "4", none] := by
  obtain ⟨pages, h1, h2, h3, -, -⟩ :=
    C29_listFiles_call_count ⟨"docs"⟩ (fun _ => ["a", "b", "c", "d", "e"]) "" 2 (by decide)
  have h2' : pages.length = 3 := by
    rw [h2]
    decide
  refine ⟨pages, h1, h2', ?_⟩
  rw [h3, h2']
  decide

/-! ## Claim C24 -/

/-- The first call of `listFiles` with the default arguments returns the first 20
files of the listing of the collection folder. -/
theorem listFiles_default_files {α : Type} (svc : StorageService) (listing : String → List α)
    (path : String) :
    (svc.listFiles listing path defaultPageSize none).files
      = (listing (svc.collectionName ++ "/" ++ path)).take 20 := by
  rw [listFiles_at svc listing path defaultPageSize 0 none (Or.inl ⟨rfl, rfl⟩)]
  simp [defaultPageSize]

/-- When every file has custom metadata, the filter keeps the files whose
`recordId` entry equals the record id. -/
theorem filterByRecordId_ok (files : List FileEntry) (recordId : String)
    (h : ∀ f ∈ files, f.metadata.customMetadata ≠ none) :
    filterByRecordId files recordId
      = Except.ok (files.filter (fun f =>
          (f.metadata.customMetadata.bind (fun c => headerGet c "recordId")) == some recordId)) := by
  induction files with
  | nil => rfl
  | cons f rest ih =>
    have hrest := ih (fun g hg => h g (List.mem_cons_of_mem _ hg))
    cases hc : f.metadata.customMetadata with
    | none => exact absurd hc (h f (List.mem_cons_self _ _))
    | some c =>
      simp only [filterByRecordId, hc, hrest, List.filter_cons, Option.some_bind]
      by_cases hm : headerGet c "recordId" = some recordId
      · simp [hm]
      · simp [hm]

/-- After a successful `linkFileToRecord`, every object at the linked path
carries the record id in its custom metadata. -/
theorem linkFileToRecord_sets_recordId (before : List StorageObject)
    (filePath recordId recordType now : String) (o : StorageObject)
    (hok : (StorageService.linkFileToRecord before filePath recordId recordType now).1
      = Except.ok true)
    (ho : o ∈ (StorageService.linkFileToRecord before filePath recordId recordType now).2)
    (hpath : pathSegments o.fullPath = pathSegments filePath) :
    (o.metadata.customMetadata.bind (fun c => headerGet c "recordId")) = some recordId := by
  unfold StorageService.linkFileToRecord at hok ho
  split at ho
  · simp only [List.mem_map] at ho
    obtain ⟨o0, -, rfl⟩ := ho
    by_cases h0 : pathSegments o0.fullPath = pathSegments filePath
    · simp [h0, headerGet]
    · simp only [h0, if_false] at hpath
  · next hany =>
    simp only [hany] at hok
    cases hok

/-- C24, as stated, fails: the folder holds 21 files and the last one, `docs/u`,
is linked to record `r1`; `getFilesByRecordId('r1')` then returns no file. -/
theorem C24_linked_file_beyond_first_page :
    (StorageService.linkFileToRecord twentyOneFiles "docs/u" "r1" "record" "now").1
      = Except.ok true ∧
    ¬ (∀ files,
        StorageService.getFilesByRecordId ⟨"docs"⟩
            (StorageService.linkFileToRecord twentyOneFiles "docs/u" "r1" "record" "now").2 "r1"
          = Except.ok files →
        ∀ e ∈ bucketListing
            (StorageService.linkFileToRecord twentyOneFiles "docs/u" "r1" "record" "now").2
            "docs/",
          (e.metadata.customMetadata.bind (fun c => headerGet c "recordId")) = some "r1" →
          e ∈ files) := by
  refine ⟨rfl, ?_⟩
  intro h
  have hm := h [] rfl
    (fileEntry
      { fullPath := "docs/u", downloadUrl := "",
        metadata :=
          { size := 1, contentType := some "text/plain", timeCreated := "",
            customMetadata :=
              some [("linkedAt", "now"), ("recordType", "record"), ("recordId", "r1")] } })
    (by decide) (by decide)
  cases hm

/-- C24, amended: when each of the first 20 files of the listing of the
collection folder has custom metadata, `getFilesByRecordId(recordId)` returns
exactly those of these 20 files whose custom metadata `recordId` equals
`recordId`; a file linked with `linkFileToRecord(path, recordId, type)` is
returned when it is among them. -/
theorem C24_first_page_filter (svc : StorageService) (bucket : List StorageObject)
    (recordId : String)
    (hmeta : ∀ f ∈ (bucketListing bucket (svc.collectionName ++ "/" ++ "")).take 20,
      f.metadata.customMetadata ≠ none) :
    svc.getFilesByRecordId bucket recordId
      = Except.ok (((bucketListing bucket (svc.collectionName ++ "/" ++ "")).take 20).filter
          (fun f =>
            (f.metadata.customMetadata.bind (fun c => headerGet c "recordId"))
              == some recordId)) ∧
    ∀ before filePath recordType now,
      bucket = (StorageService.linkFileToRecord before filePath recordId recordType now).2 →
      (StorageService.linkFileToRecord before filePath recordId recordType now).1
        = Except.ok true →
      ∀ e ∈ (bucketListing bucket (svc.collectionName ++ "/" ++ "")).take 20,
        pathSegments e.path = pathSegments filePath →
        ∃ files, svc.getFilesByRecordId bucket recordId = Except.ok files ∧ e ∈ files := by
  have hres : svc.getFilesByRecordId bucket recordId
      = Except.ok (((bucketListing bucket (svc.collectionName ++ "/" ++ "")).take 20).filter
          (fun f =>
            (f.metadata.customMetadata.bind (fun c => headerGet c "recordId"))
              == some recordId)) := by
    rw [StorageService.getFilesByRecordId, listFiles_default_files]
    exact filterByRecordId_ok _ _ hmeta
  refine ⟨hres, ?_⟩
  intro before filePath recordType now hb hok e he hpath
  refine ⟨_, hres, ?_⟩
  rw [List.mem_filter]
  refine ⟨he, ?_⟩
  have hmem := List.mem_of_mem_take he
  simp only [bucketListing, List.mem_map, List.mem_filter] at hmem
  obtain ⟨o, ⟨ho, -⟩, rfl⟩ := hmem
  rw [hb] at ho
  have := linkFileToRecord_sets_recordId before filePath recordId recordType now o hok ho hpath
  simp only [fileEntry, this, beq_self_eq_true]

/-- Witness of `C24_first_page_filter`: the second of the 21 files is linked and
returned. -/
theorem C24_first_page_filter_witness :
    StorageService.getFilesByRecordId ⟨"docs"⟩
        (StorageService.linkFileToRecord twentyOneFiles "docs/b" "r1" "record" "now").2 "r1"
      = Except.ok (((bucketListing
          (StorageService.linkFileToRecord twentyOneFiles "docs/b" "r1" "record" "now").2
          ("docs" ++ "/" ++ "")).take 20).filter
          (fun f =>
            (f.metadata.customMetadata.bind (fun c => headerGet c "recordId")) == some "r1")) :=
  (C24_first_page_filter ⟨"docs"⟩
    (StorageService.linkFileToRecord twentyOneFiles "docs/b" "r1" "record" "now").2 "r1"
    (by decide)).1

/-! ## Claim C30 -/

theorem countType_sum (counts : List (String × Nat)) (type : String) :
    ((countType counts type).map (fun kv => kv.2)).sum
      = (counts.map (fun kv => kv.2)).sum + 1 := by
  induction counts with
  | nil => simp [countType]
  | cons kv rest ih =>
    obtain ⟨k, n⟩ := kv
    by_cases h : k = type
    · simp only [countType, h, if_true, List.map_cons, List.sum_cons]
      omega
    · simp only [countType, h, if_false, List.map_cons, List.sum_cons, ih]
      omega

/-- The step of `getFileStats` for a file whose size is the natural number
`file.metadata.size`. -/
theorem statsStep_eq (stats : FileStats) (file : FileEntry) :
    statsStep stats file
      = { totalFiles := stats.totalFiles
          totalSize := stats.totalSize.map (fun total => total + (file.metadata.size : Int))
          fileTypes := countType stats.fileTypes (file.metadata.contentType.getD "undefined")
          sizeRanges :=
            if file.metadata.size ≤ 1024 * 1024 then
              { stats.sizeRanges with upTo1MB := stats.sizeRanges.upTo1MB + 1 }
            else if file.metadata.size ≤ 5 * 1024 * 1024 then
              { stats.sizeRanges with upTo5MB := stats.sizeRanges.upTo5MB + 1 }
            else if file.metadata.size ≤ 10 * 1024 * 1024 then
              { stats.sizeRanges with upTo10MB := stats.sizeRanges.upTo10MB + 1 }
            else { stats.sizeRanges with over10MB := stats.sizeRanges.over10MB + 1 } } := by
  have h1 : ((file.metadata.size : Int) ≤ 1024 * 1024) ↔ file.metadata.size ≤ 1024 * 1024 := by
    omega
  have h2 : ((file.metadata.size : Int) ≤ 5 * 1024 * 1024)
      ↔ file.metadata.size ≤ 5 * 1024 * 1024 := by omega
  have h3 : ((file.metadata.size : Int) ≤ 10 * 1024 * 1024)
      ↔ file.metadata.size ≤ 10 * 1024 * 1024 := by omega
  simp only [statsStep, parseInt_numberToString, h1, h2, h3]
  cases stats.totalSize <;> rfl

theorem foldl_statsStep (files : List FileEntry) (start : FileStats) :
    (files.foldl statsStep start).totalFiles = start.totalFiles ∧
    (files.foldl statsStep start).totalSize
      = start.totalSize.map
          (fun total => total + (files.map (fun f => (f.metadata.size : Int))).sum) ∧
    ((files.foldl statsStep start).fileTypes.map (fun kv => kv.2)).sum
      = (start.fileTypes.map (fun kv => kv.2)).sum + files.length ∧
    (files.foldl statsStep start).sizeRanges.upTo1MB
      = start.sizeRanges.upTo1MB
        + files.countP (fun f => decide (f.metadata.size ≤ 1024 * 1024)) ∧
    (files.foldl statsStep start).sizeRanges.upTo5MB
      = start.sizeRanges.upTo5MB
        + files.countP (fun f =>
            decide (1024 * 1024 < f.metadata.size ∧ f.metadata.size ≤ 5 * 1024 * 1024)) ∧
    (files.foldl statsStep start).sizeRanges.upTo10MB
      = start.sizeRanges.upTo10MB
        + files.countP (fun f =>
            decide (5 * 1024 * 1024 < f.metadata.size ∧ f.metadata.size ≤ 10 * 1024 * 1024)) ∧
    (files.foldl statsStep start).sizeRanges.over10MB
      = start.sizeRanges.over10MB
        + files.countP (fun f => decide (10 * 1024 * 1024 < f.metadata.size)) := by
  induction files generalizing start with
  | nil => cases h : start.totalSize <;> simp [h]
  | cons f rest ih =>
    obtain ⟨i1, i2, i3, i4, i5, i6, i7⟩ := ih (statsStep start f)
    rw [List.foldl_cons]
    refine ⟨?_, ?_, ?_, ?_, ?_, ?_, ?_⟩
    · rw [i1, statsStep_eq]
    · rw [i2, statsStep_eq]
      cases start.totalSize with
      | none => rfl
      | some total =>
        simp only [Option.map_some', Option.some.injEq, List.map_cons, List.sum_cons]
        omega
    · rw [i3, statsStep_eq]
      simp only [countType_sum, List.length_cons]
      omega
    · rw [i4, statsStep_eq]
      simp only [List.countP_cons]
      by_cases c1 : f.metadata.size ≤ 1024 * 1024
      · simp only [c1, if_true, decide_True]
        omega
      · by_cases c5 : f.metadata.size ≤ 5 * 1024 * 1024
        · simp [c1, c5]
        · by_cases c6 : f.metadata.size ≤ 10 * 1024 * 1024 <;> simp [c1, c5, c6]
    · rw [i5, statsStep_eq]
      simp only [List.countP_cons]
      by_cases c1 : f.metadata.size ≤ 1024 * 1024
      · have c2 : ¬ (1024 * 1024 < f.metadata.size) := by omega
        simp [c1, c2]
      · have c2 : 1024 * 1024 < f.metadata.size := by omega
        by_cases c5 : f.metadata.size ≤ 5 * 1024 * 1024
        · simp only [c1, c2, c5, if_true, if_false, and_self, decide_True]
          omega
        · by_cases c6 : f.metadata.size ≤ 10 * 1024 * 1024 <;> simp [c1, c5, c6]
    · rw [i6, statsStep_eq]
      simp only [List.countP_cons]
      by_cases c1 : f.metadata.size ≤ 1024 * 1024
      · have c3 : ¬ (5 * 1024 * 1024 < f.metadata.size) := by omega
        simp [c1, c3]
      · by_cases c5 : f.metadata.size ≤ 5 * 1024 * 1024
        · have c3 : ¬ (5 * 1024 * 1024 < f.metadata.size) := by omega
          simp [c1, c5, c3]
        · have c3 : 5 * 1024 * 1024 < f.metadata.size := by omega
          by_cases c6 : f.metadata.size ≤ 10 * 1024 * 1024
          · simp only [c1, c3, c5, c6, if_true, if_false, and_self, decide_True]
            omega
          · simp [c1, c5, c6]
    · rw [i7, statsStep_eq]
      simp only [List.countP_cons]
      by_cases c1 : f.metadata.size ≤ 1024 * 1024
      · have c4 : ¬ (10 * 1024 * 1024 < f.metadata.size) := by omega
        simp [c1, c4]
      · by_cases c5 : f.metadata.size ≤ 5 * 1024 * 1024
        · have c4 : ¬ (10 * 1024 * 1024 < f.metadata.size) := by omega
          simp [c1, c5, c4]
        · by_cases c6 : f.metadata.size ≤ 10 * 1024 * 1024
          · have c4 : ¬ (10 * 1024 * 1024 < f.metadata.size) := by omega
            simp [c1, c5, c6, c4]
          · have c4 : 10 * 1024 * 1024 < f.metadata.size := by omega
            simp only [c1, c4, c5, c6, if_true, if_false, decide_True]
            omega

/-- C30: over the files that `getFileStats` lists, `totalFiles` is their
number, the four size range counters and the file type counters each sum to
`totalFiles`, `totalSize` is the sum of the sizes, and every file is counted in
the one range that contains its size, the upper bounds 1 MiB, 5 MiB and 10 MiB
included. -/
theorem C30_file_stats (svc : StorageService) (listing : String → List FileEntry)
    (path : String) :
    (svc.getFileStats listing path).totalFiles
      = (svc.listFiles listing path defaultPageSize none).files.length ∧
    (svc.getFileStats listing path).sizeRanges.upTo1MB
        + (svc.getFileStats listing path).sizeRanges.upTo5MB
        + (svc.getFileStats listing path).sizeRanges.upTo10MB
        + (svc.getFileStats listing path).sizeRanges.over10MB
      = (svc.getFileStats listing path).totalFiles ∧
    ((svc.getFileStats listing path).fileTypes.map (fun kv => kv.2)).sum
      = (svc.getFileStats listing path).totalFiles ∧
    (svc.getFileStats listing path).totalSize
      = some (((svc.listFiles listing path defaultPageSize none).files.map
          (fun f => (f.metadata.size : Int))).sum) ∧
    (svc.getFileStats listing path).sizeRanges.upTo1MB
      = (svc.listFiles listing path defaultPageSize none).files.countP
          (fun f => decide (f.metadata.size ≤ 1024 * 1024)) ∧
    (svc.getFileStats listing path).sizeRanges.upTo5MB
      = (svc.listFiles listing path defaultPageSize none).files.countP
          (fun f => decide (1024 * 1024 < f.metadata.size ∧ f.metadata.size ≤ 5 * 1024 * 1024)) ∧
    (svc.getFileStats listing path).sizeRanges.upTo10MB
      = (svc.listFiles listing path defaultPageSize none).files.countP
          (fun f =>
            decide (5 * 1024 * 1024 < f.metadata.size ∧ f.metadata.size ≤ 10 * 1024 * 1024)) ∧
    (svc.getFileStats listing path).sizeRanges.over10MB
      = (svc.listFiles listing path defaultPageSize none).files.countP
          (fun f => decide (10 * 1024 * 1024 < f.metadata.size)) := by
  obtain ⟨h1, h2, h3, h4, h5, h6, h7⟩ :=
    foldl_statsStep (svc.listFiles listing path defaultPageSize none).files
      { totalFiles := (svc.listFiles listing path defaultPageSize none).files.length
        totalSize := some 0
        fileTypes := []
        sizeRanges := { upTo1MB := 0, upTo5MB := 0, upTo10MB := 0, over10MB := 0 } }
  simp only [List.map_nil, List.sum_nil, Nat.zero_add, Option.map_some', Int.zero_add] at h1 h2 h3 h4 h5 h6 h7
  have hsplit : ∀ files : List FileEntry,
      files.countP (fun f => decide (f.metadata.size ≤ 1024 * 1024))
        + files.countP (fun f =>
            decide (1024 * 1024 < f.metadata.size ∧ f.metadata.size ≤ 5 * 1024 * 1024))
        + files.countP (fun f =>
            decide (5 * 1024 * 1024 < f.metadata.size ∧ f.metadata.size ≤ 10 * 1024 * 1024))
        + files.countP (fun f => decide (10 * 1024 * 1024 < f.metadata.size))
      = files.length := by
    intro files
    induction files with
    | nil => rfl
    | cons f rest ih =>
      simp only [List.countP_cons, List.length_cons]
      by_cases c1 : f.metadata.size ≤ 1024 * 1024
      · have c2 : ¬ (1024 * 1024 < f.metadata.size) := by omega
        have c3 : ¬ (5 * 1024 * 1024 < f.metadata.size) := by omega
        have c4 : ¬ (10 * 1024 * 1024 < f.metadata.size) := by omega
        simp only [c1, c2, c3, c4, decide_True, decide_False, false_and, if_true, if_false,
          Bool.false_eq_true]
        omega
      · by_cases c5 : f.metadata.size ≤ 5 * 1024 * 1024
        · have c2 : 1024 * 1024 < f.metadata.size := by omega
          have c3 : ¬ (5 * 1024 * 1024 < f.metadata.size) := by omega
          have c4 : ¬ (10 * 1024 * 1024 < f.metadata.size) := by omega
          simp only [c1, c2, c3, c4, c5, decide_True, decide_False, false_and, and_self, if_true,
            if_false, Bool.false_eq_true]
          omega
        · by_cases c6 : f.metadata.size ≤ 10 * 1024 * 1024
          · have c2 : 1024 * 1024 < f.metadata.size := by omega
            have c3 : 5 * 1024 * 1024 < f.metadata.size := by omega
            have c4 : ¬ (10 * 1024 * 1024 < f.metadata.size) := by omega
            simp only [c1, c2, c3, c4, c5, c6, decide_True, decide_False, and_false, and_self,
              if_true, if_false, Bool.false_eq_true]
            omega
          · have c2 : 1024 * 1024 < f.metadata.size := by omega
            have c3 : 5 * 1024 * 1024 < f.metadata.size := by omega
            have c4 : 10 * 1024 * 1024 < f.metadata.size := by omega
            simp only [c1, c2, c3, c4, c5, c6, decide_True, decide_False, and_false, if_true,
              if_false, Bool.false_eq_true]
            omega
  refine ⟨h1, ?_, ?_, h2, h4, h5, h6, h7⟩
  · simp only [StorageService.getFileStats] at h1 h4 h5 h6 h7 ⊢
    rw [h4, h5, h6, h7, h1]
    exact hsplit _
  · simp only [StorageService.getFileStats] at h1 h3 ⊢
    rw [h3, h1]

/-- Files of exactly 1 MiB, 5 MiB and 10 MiB are counted in `0-1MB`, `1-5MB` and
`5-10MB`. -/
theorem getFileStats_boundaries :
    (StorageService.getFileStats ⟨"docs"⟩
        (fun _ =>
          [⟨"a", "docs/a", "", ⟨1024 * 1024, some "image/png", "", none⟩, 1024 * 1024,
              some "image/png", ""⟩,
            ⟨"b", "docs/b", "", ⟨5 * 1024 * 1024, some "image/png", "", none⟩, 5 * 1024 * 1024,
              some "image/png", ""⟩,
            ⟨"c", "docs/c", "", ⟨10 * 1024 * 1024, none, "", none⟩, 10 * 1024 * 1024, none, ""⟩])
        "").sizeRanges
      = { upTo1MB := 1, upTo5MB := 1, upTo10MB := 1, over10MB := 0 } := by
  decide

end MyBackend
